import Mathlib

/-!
Shallow embedding of `tinygrad/runtime/ops_python.py` — the Python uop
emulator (`PythonProgram.__call__`, `_load`, `load`, `_store`) — together
with theorems checking the natural-language specification against it.

The interpreter state (`Mach`) mirrors the Python locals `ul`, `dl`,
`pbufs`, `pvals`, `loop_ends`, `i` of one global-coordinate run; dictionary
state is represented by key-sorted association lists so that machine
states have decidable equality and concrete runs evaluate by `decide`.
External collaborators of the interpreter (`exec_alu`, the float
`truncate` table, the tensor-core model) are parameters in `ExtOps`.
-/

/-! ## Scalars and dtypes -/

/-- A runtime scalar value. Python floats are carried by their IEEE-754
bit pattern (the emulator only ever moves them through `struct`
pack/unpack in the parts modelled here). -/
inductive Scalar where
  | i (v : Int)
  | f32 (bits : Nat)
  | b (v : Bool)
deriving DecidableEq


/-- Python truthiness of a scalar (`if g:` on a gate). -/
def Scalar.truthy : Scalar → Bool
  | .i v => v ≠ 0
  | .f32 bits => bits ≠ 0 && bits ≠ 0x80000000
  | .b v => v


/-- The scalar kind of a dtype (`dtypes.is_int` / `is_unsigned` /
`is_float` discrimination). -/
inductive ScalarKind where
  | sint
  | uint
  | float
  | boolean
deriving DecidableEq


/-- A dtype: scalar kind, byte width, vector count, and the image shape
`(h, w)` when it is an `ImageDType`. -/
structure DType where
  kind : ScalarKind
  itemsize : Nat
  count : Nat
  image : Option (Nat × Nat)
deriving DecidableEq


def DType.is_int (d : DType) : Bool := d.kind matches .sint | .uint

def DType.is_unsigned (d : DType) : Bool := d.kind matches .uint

def DType.is_float (d : DType) : Bool := d.kind matches .float


/-- The `struct` format character of a dtype (`DType.fmt`). -/
def DType.fmt : DType → Option Char
  | ⟨.sint, 1, _, _⟩ => some 'b'
  | ⟨.sint, 2, _, _⟩ => some 'h'
  | ⟨.sint, 4, _, _⟩ => some 'i'
  | ⟨.sint, 8, _, _⟩ => some 'q'
  | ⟨.uint, 1, _, _⟩ => some 'B'
  | ⟨.uint, 2, _, _⟩ => some 'H'
  | ⟨.uint, 4, _, _⟩ => some 'I'
  | ⟨.uint, 8, _, _⟩ => some 'Q'
  | ⟨.float, 2, _, _⟩ => some 'e'
  | ⟨.float, 4, _, _⟩ => some 'f'
  | ⟨.float, 8, _, _⟩ => some 'd'
  | ⟨.boolean, 1, _, _⟩ => some '?'
  | _ => none


def dtInt8 : DType := ⟨.sint, 1, 1, none⟩

def dtUint8 : DType := ⟨.uint, 1, 1, none⟩

def dtInt32 : DType := ⟨.sint, 4, 1, none⟩

def dtUint32 : DType := ⟨.uint, 4, 1, none⟩

def dtFloat32 : DType := ⟨.float, 4, 1, none⟩

def dtBool : DType := ⟨.boolean, 1, 1, none⟩

def dtImage (h w : Nat) : DType := ⟨.float, 4, 1, some (h, w)⟩


/-- The zero element a fresh local buffer is filled with
(`bytearray(n)` cast to the dtype's format). -/
def DType.zeroScalar (d : DType) : Scalar :=
  match d.kind with
  | .sint => .i 0
  | .uint => .i 0
  | .float => .f32 0
  | .boolean => .b false


/-! ## Key-sorted association maps (the Python dicts `ul`, `dl`,
`loop_ends`) -/

def alook {α : Type} : List (Nat × α) → Nat → Option α
  | [], _ => none
  | (k, v) :: t, q => if q = k then some v else alook t q


def ains {α : Type} : List (Nat × α) → Nat → α → List (Nat × α)
  | [], k, v => [(k, v)]
  | (k0, v0) :: t, k, v =>
    if k < k0 then (k, v) :: (k0, v0) :: t
    else if k = k0 then (k, v) :: t
    else (k0, v0) :: ains t k v


def adel {α : Type} : List (Nat × α) → Nat → List (Nat × α)
  | [], _ => []
  | (k0, v0) :: t, k => if k = k0 then t else (k0, v0) :: adel t k


/-! ## Values, buffer references, errors -/

/-- A reference to a buffer: a caller-supplied global buffer (by position
in the argument list) or a per-coordinate local buffer (by allocation
order). This stands for the Python `memoryview` object identity. -/
inductive BufRef where
  | global (k : Nat)
  | loc (k : Nat)
deriving DecidableEq


/-- A Python value held in the `ul` table: a scalar, a memoryview, or a
(possibly nested) list of values. -/
inductive Val where
  | scl (s : Scalar)
  | mem (b : BufRef)
  | lst (l : List Val)


mutual

def Val.decEq : (a b : Val) → Decidable (a = b)
  | .scl x, .scl y =>
    if h : x = y then isTrue (by rw [h]) else isFalse (fun hh => h (Val.scl.inj hh))
  | .mem x, .mem y =>
    if h : x = y then isTrue (by rw [h]) else isFalse (fun hh => h (Val.mem.inj hh))
  | .lst x, .lst y =>
    match Val.decEqList x y with
    | isTrue h => isTrue (by rw [h])
    | isFalse h => isFalse (fun hh => h (Val.lst.inj hh))
  | .scl _, .mem _ => isFalse (fun h => Val.noConfusion h)
  | .scl _, .lst _ => isFalse (fun h => Val.noConfusion h)
  | .mem _, .scl _ => isFalse (fun h => Val.noConfusion h)
  | .mem _, .lst _ => isFalse (fun h => Val.noConfusion h)
  | .lst _, .scl _ => isFalse (fun h => Val.noConfusion h)
  | .lst _, .mem _ => isFalse (fun h => Val.noConfusion h)

def Val.decEqList : (a b : List Val) → Decidable (a = b)
  | [], [] => isTrue rfl
  | x :: xs, y :: ys =>
    match Val.decEq x y, Val.decEqList xs ys with
    | isTrue h1, isTrue h2 => isTrue (by rw [h1, h2])
    | isFalse h1, _ => isFalse (fun hh => h1 (List.cons.inj hh).1)
    | _, isFalse h2 => isFalse (fun hh => h2 (List.cons.inj hh).2)
  | [], _ :: _ => isFalse (fun h => List.noConfusion h)
  | _ :: _, [] => isFalse (fun h => List.noConfusion h)

end


instance : DecidableEq Val := Val.decEq


/-- Python truthiness of a `ul` value. -/
def Val.truthy : Val → Bool
  | .scl s => s.truthy
  | .mem _ => true
  | .lst l => !l.isEmpty


/-- Fatal interpreter errors: the §7 taxonomy plus `typeErr` for plain
Python `TypeError`/`IndexError`/`ValueError` outside it and
`extUnmodelled` for external numeric conversions left abstract here. -/
inductive Err where
  | oob
  | missingType
  | shapeMismatch
  | unsupportedLayout
  | unresolved
  | typeErr
  | extUnmodelled
deriving DecidableEq


instance {e a : Type} [DecidableEq e] [DecidableEq a] : DecidableEq (Except e a) :=
  fun x y => match x, y with
  | .ok u, .ok v =>
    if h : u = v then isTrue (by rw [h]) else isFalse (fun hh => h (Except.ok.inj hh))
  | .error u, .error v =>
    if h : u = v then isTrue (by rw [h]) else isFalse (fun hh => h (Except.error.inj hh))
  | .ok _, .error _ => isFalse (fun h => Except.noConfusion h)
  | .error _, .ok _ => isFalse (fun h => Except.noConfusion h)


def asList : Val → Except Err (List Val)
  | .lst l => .ok l
  | _ => .error .typeErr


def asMem : Val → Except Err BufRef
  | .mem b => .ok b
  | _ => .error .typeErr


def asScl : Val → Except Err Scalar
  | .scl s => .ok s
  | _ => .error .typeErr


/-- A value used in integer position (`x + j`, `+= 1`); Python `bool` is
an `int` subclass, so it participates in arithmetic. -/
def asIntV : Val → Except Err Int
  | .scl (.i v) => .ok v
  | .scl (.b v) => .ok (if v then 1 else 0)
  | _ => .error .typeErr


/-- Python list indexing with negative-index wraparound. -/
def pyIdx {α : Type} (l : List α) (i : Int) : Option α :=
  let j : Int := if i < 0 then i + l.length else i
  if j < 0 then none else l.get? j.toNat


def listGet {α : Type} : List α → Nat → Except Err α
  | l, n => match l.get? n with
    | some x => .ok x
    | none => .error .typeErr


def zip4 {α β γ δ : Type} : List α → List β → List γ → List δ → List (α × β × γ × δ)
  | a :: as, b :: bs, c :: cs, d :: ds => (a, b, c, d) :: zip4 as bs cs ds
  | _, _, _, _ => []


def zip5 {α β γ δ ε : Type} :
    List α → List β → List γ → List δ → List ε → List (α × β × γ × δ × ε)
  | a :: as, b :: bs, c :: cs, d :: ds, e :: es => (a, b, c, d, e) :: zip5 as bs cs ds es
  | _, _, _, _, _ => []


/-- `zip(*inp)` over equal-length lane lists (the ALU handler asserts
equal lengths before this is used). -/
def zipLanes {α : Type} (ls : List (List α)) : List (List α) :=
  match ls with
  | [] => []
  | l0 :: _ => (List.range l0.length).map (fun j => ls.filterMap (fun l => l.get? j))


/-! ## Instructions -/

/-- The uop kinds handled by the emulator's dispatch chain. -/
inductive UOpK where
  | DEFINE_GLOBAL
  | DEFINE_LOCAL
  | DEFINE_VAR
  | SPECIAL
  | CONST
  | DEFINE_ACC
  | RANGE
  | ENDRANGE
  | BARRIER
  | IF
  | ENDIF
  | VECTORIZE
  | CAST
  | BITCAST
  | LOAD
  | STORE
  | ASSIGN
  | GEP
  | WMMA
  | ALU
deriving DecidableEq


/-- `void_ops` of the main loop. -/
def UOpK.isVoid : UOpK → Bool
  | .STORE => true
  | .ENDRANGE => true
  | .BARRIER => true
  | .IF => true
  | .ENDIF => true
  | _ => false


/-- The binary/ternary op tags the emulator's asserts single out, plus an
opaque tag for every other `exec_alu` operation. -/
inductive ALUOp where
  | add
  | mul
  | cmplt
  | cmpne
  | whereOp
  | other (tag : Nat)
deriving DecidableEq


def ALUOp.isCmpOrWhere : ALUOp → Bool
  | .cmplt => true
  | .cmpne => true
  | .whereOp => true
  | _ => false


/-- The per-kind `arg` payload of an instruction. -/
inductive PArg where
  | none
  | localArg (sz : Nat)
  | special (c : Char) (ax : Nat)
  | const (s : Scalar)
  | gep (idxs : List Nat)
  | alu (op : ALUOp)
  | wmma (tag : Nat)
deriving DecidableEq


/-- One uop: `(uop, dtype, idp, arg)` of the unpickled program list. -/
structure Instr where
  uop : UOpK
  dtype : Option DType
  idp : List Nat
  arg : PArg
deriving DecidableEq


/-! ## External collaborators -/

/-- External collaborators of the interpreter: the scalar ALU primitive
`exec_alu`, the float `truncate` policy table, and the tensor-core model
`TensorCoreLayout(...).wmma_model`. The emulator treats them as given. -/
structure ExtOps where
  exec_alu : ALUOp → DType → List Scalar → Scalar
  truncate : DType → Scalar → Scalar
  wmma : Nat → List Val → Nat → Val


/-! ## struct pack/unpack for CAST and BITCAST -/

/-- `struct.pack` of one scalar at the given dtype's format: its raw bits
(little-endian byte payload abstracted to the value of the machine word).
Errors mirror `struct.error` on out-of-range ints and argument type
mismatches. Modelled from the spec: the raw-bit encoding of the external
`struct` module, with floats carried by their bit patterns. -/
def bitsOf (d : DType) (s : Scalar) : Except Err Nat :=
  let w := d.itemsize * 8
  match d.kind, s with
  | .sint, .i v =>
    if -(2 ^ (w - 1) : Int) ≤ v ∧ v < 2 ^ (w - 1) then .ok (v % (2 ^ w : Int)).toNat
    else .error .unsupportedLayout
  | .sint, .b v => .ok (if v then 1 else 0)
  | .uint, .i v =>
    if 0 ≤ v ∧ v < (2 ^ w : Int) then .ok v.toNat else .error .unsupportedLayout
  | .uint, .b v => .ok (if v then 1 else 0)
  | .float, .f32 bits => if d.itemsize = 4 ∧ bits < 2 ^ 32 then .ok bits else .error .extUnmodelled
  | .float, _ => .error .extUnmodelled
  | .boolean, s => .ok (if s.truthy then 1 else 0)
  | _, _ => .error .unsupportedLayout


/-- `struct.unpack` of one machine word at the given dtype's format.
Modelled from the spec, matching `bitsOf`. -/
def ofBits (d : DType) (bits : Nat) : Except Err Scalar :=
  let w := d.itemsize * 8
  match d.kind with
  | .sint => .ok (.i (if bits % 2 ^ w < 2 ^ (w - 1) then ((bits % 2 ^ w : Nat) : Int)
      else ((bits % 2 ^ w : Nat) : Int) - 2 ^ w))
  | .uint => .ok (.i ((bits % 2 ^ w : Nat) : Int))
  | .float => if d.itemsize = 4 then .ok (.f32 (bits % 2 ^ 32)) else .error .extUnmodelled
  | .boolean => .ok (.b (bits % 2 ^ w ≠ 0))


/-- `dtypes.as_const(x, dtype)`: coerce a scalar to the destination
dtype's Python scalar type. Modelled from the spec: the numeric
conversion of the external `dtypes` helper; conversions that would read a
float's numeric value are left unmodelled. -/
def as_const (s : Scalar) (d : DType) : Except Err Scalar :=
  match d.kind, s with
  | .sint, .i v => .ok (.i v)
  | .uint, .i v => .ok (.i v)
  | .sint, .b v => .ok (.i (if v then 1 else 0))
  | .uint, .b v => .ok (.i (if v then 1 else 0))
  | .sint, .f32 _ => .error .extUnmodelled
  | .uint, .f32 _ => .error .extUnmodelled
  | .float, .f32 bits => .ok (.f32 bits)
  | .float, _ => .error .extUnmodelled
  | .boolean, x => .ok (.b x.truthy)


/-- The integer wraparound of the CAST handler:
`(x + overflow_adjust) % 2**(itemsize*8) - overflow_adjust` (Python `%`
on a positive modulus, i.e. `Int.emod`). -/
def intWrap (d : DType) (x : Int) : Int :=
  let adj : Int := if d.is_unsigned then 0 else 2 ^ (d.itemsize * 8 - 1)
  (x + adj) % (2 ^ (d.itemsize * 8) : Int) - adj


/-- The CAST handler's per-lane conversion: `as_const`, then integer
wraparound or the external float truncation, then a pack/unpack round
trip at the destination format. -/
def castScalar (ext : ExtOps) (d : DType) (s : Scalar) : Except Err Scalar := do
  let c ← as_const s d
  let c ← (if d.is_int then
      match c with
      | .i v => pure (Scalar.i (intWrap d v))
      | _ => .error .typeErr
    else if d.is_float then pure (ext.truncate d c)
    else pure c)
  match bitsOf d c with
  | .ok bits => ofBits d bits
  | .error e => .error e


/-- The BITCAST handler's per-lane conversion: pack at the source format,
unpack at the destination format. A source/destination width mismatch is
a `struct.error` (the formats disagree on the byte count). -/
def bitcastScalar (src dst : DType) (s : Scalar) : Except Err Scalar :=
  if src.itemsize = dst.itemsize then do
    let bits ← bitsOf src s
    ofBits dst bits
  else .error .unsupportedLayout


/-! ## Machine state -/

/-- The per-coordinate execution context of `PythonProgram.__call__`:
the value table `ul`, type table `dl`, buffer cursors `pbufs`/`pvals`,
the loop back-jump table `loop_ends`, the instruction pointer `i`, and
the backing stores for global and (per-coordinate) local buffers. -/
structure Mach where
  ul : List (Nat × Val)
  dl : List (Nat × DType)
  gbufs : List (List Scalar)
  lbufs : List (List Scalar)
  pbufs : List Nat
  pvals : List Int
  loopEnds : List (Nat × Nat)
  i : Nat
deriving DecidableEq


def Mach.getBuf (s : Mach) (b : BufRef) : Except Err (List Scalar) :=
  match b with
  | .global k =>
    match s.gbufs.get? k with
    | some l => .ok l
    | none => .error .typeErr
  | .loc k =>
    match s.lbufs.get? k with
    | some l => .ok l
    | none => .error .typeErr


def Mach.setBuf (s : Mach) (b : BufRef) (l : List Scalar) : Mach :=
  match b with
  | .global k => { s with gbufs := s.gbufs.set k l }
  | .loc k => { s with lbufs := s.lbufs.set k l }


/-! ## Memory layer: `_load`, `load`, `_store` -/

/-- `_load(m, i)`: bounds-checked element read. -/
def pyLoad (m : List Scalar) (i : Int) : Except Err Scalar :=
  if i < 0 ∨ (m.length : Int) ≤ i then .error .oob
  else match m.get? i.toNat with
    | some v => .ok v
    | none => .error .oob


/-- `_store(m, i, v)`: bounds-checked element write. -/
def pyStore (m : List Scalar) (i : Int) (v : Scalar) : Except Err (List Scalar) :=
  if i < 0 ∨ (m.length : Int) ≤ i then .error .oob
  else .ok (m.set i.toNat v)


/-- `load(inp, j=0)`: gated per-lane read when four operand lists are
given (a false gate yields the lane's default), plain per-lane read
otherwise. -/
def loadFn (s : Mach) (inp : List Val) (j : Int) : Except Err (List Val) :=
  if inp.length = 4 then do
    let ms ← asList (← listGet inp 0)
    let xs ← asList (← listGet inp 1)
    let ds ← asList (← listGet inp 2)
    let gs ← asList (← listGet inp 3)
    (zip4 ms xs ds gs).mapM (fun p => do
      let (m, x, dflt, gate) := p
      if gate.truthy then do
        let b ← asMem m
        let xi ← asIntV x
        let buf ← s.getBuf b
        let v ← pyLoad buf (xi + j)
        pure (Val.scl v)
      else pure dflt)
  else do
    let ms ← asList (← listGet inp 0)
    let xs ← asList (← listGet inp 1)
    (ms.zip xs).mapM (fun p => do
      let (m, x) := p
      let b ← asMem m
      let xi ← asIntV x
      let buf ← s.getBuf b
      let v ← pyLoad buf (xi + j)
      pure (Val.scl v))


/-! ## The STORE handler -/

/-- One lane of a scalar store: `if g: _store(m, o, v)`. -/
def doStoreLane (st : Mach) (m o v g : Val) : Except Err Mach :=
  if g.truthy then do
    let b ← asMem m
    let oi ← asIntV o
    let vv ← asScl v
    let buf ← st.getBuf b
    let buf' ← pyStore buf oi vv
    pure (st.setBuf b buf')
  else pure st


/-- The lane loop of the scalar STORE form. -/
def storeScalarLanes (st : Mach) (ls : List (Val × Val × Val × Val)) : Except Err Mach :=
  ls.foldlM (fun s2 p => doStoreLane s2 p.1 p.2.1 p.2.2.1 p.2.2.2) st


/-- The `UOps.STORE` handler: append the default all-true gate when only
three operands resolve, then dispatch on image / vector / scalar form. -/
def stepStore (s : Mach) (inp : List Val) (dtp : List DType) : Except Err Mach := do
  let inp ← (if inp.length = 3 then do
      let l0 ← asList (← listGet inp 0)
      pure (inp ++ [Val.lst (List.replicate l0.length (Val.scl (Scalar.b true)))])
    else pure inp)
  let d0 ← listGet dtp 0
  let d2 ← listGet dtp 2
  let s' ← (match d0.image with
  | some hw => do
    if d2.count = 4 then do
      let ms ← asList (← listGet inp 0)
      let idx ← asList (← listGet inp 1)
      let xs ← asList (← listGet idx 0)
      let ys ← asList (← listGet idx 1)
      let comps ← asList (← listGet inp 2)
      let gs ← asList (← listGet inp 3)
      comps.enum.foldlM (fun st jval => do
        let lanes ← asList jval.2
        (zip5 ms xs ys lanes gs).foldlM (fun st2 q => do
          let (m, ox, oy, v, g) := q
          let oxi ← asIntV ox
          let oyi ← asIntV oy
          if 0 ≤ oxi ∧ oxi < (hw.2 : Int) ∧ 0 ≤ oyi ∧ oyi < (hw.1 : Int) then
            if g.truthy then do
              let b ← asMem m
              let vv ← asScl v
              let buf ← st2.getBuf b
              let buf' ← pyStore buf (oxi * 4 + oyi * (hw.2 : Int) * 4 + (jval.1 : Int)) vv
              pure (st2.setBuf b buf')
            else pure st2
          else Except.error Err.oob) st) s
    else Except.error Err.unsupportedLayout
  | none =>
    if d2.count > 1 then do
      let ms ← asList (← listGet inp 0)
      let os ← asList (← listGet inp 1)
      let comps ← asList (← listGet inp 2)
      let gs ← asList (← listGet inp 3)
      comps.enum.foldlM (fun st jval => do
        let lanes ← asList jval.2
        (zip4 ms os lanes gs).foldlM (fun st2 q => do
          let (m, o, v, g) := q
          if g.truthy then do
            let b ← asMem m
            let oi ← asIntV o
            let vv ← asScl v
            let buf ← st2.getBuf b
            let buf' ← pyStore buf (oi + (jval.1 : Int)) vv
            pure (st2.setBuf b buf')
          else pure st2) st) s
    else do
      let ms ← asList (← listGet inp 0)
      let os ← asList (← listGet inp 1)
      let vs ← asList (← listGet inp 2)
      let gs ← asList (← listGet inp 3)
      storeScalarLanes s (zip4 ms os vs gs))
  pure { s' with i := s'.i + 1 }


/-! ## Named handler bodies of the dispatch chain -/

/-- The CAST handler's lane map. -/
def castLanes (ext : ExtOps) (d : DType) (lanes : List Val) : Except Err (List Val) :=
  lanes.mapM (fun v => do
    let sc ← asScl v
    let c ← castScalar ext d sc
    pure (Val.scl c))


/-- The BITCAST handler's lane map. -/
def bitcastLanes (src dst : DType) (lanes : List Val) : Except Err (List Val) :=
  lanes.mapM (fun v => do
    let sc ← asScl v
    let c ← bitcastScalar src dst sc
    pure (Val.scl c))


/-- One lane of the image-form LOAD at component `j`: an out-of-range
`(ox, oy)` address yields 0, an in-range address reads the texel at
`ox*4 + oy*w*4 + j` (with `hw = (h, w)` the image's declared shape). -/
def imageLane (s : Mach) (hw : Nat × Nat) (j : Nat) (q : Val × Val × Val) :
    Except Err Val := do
  let (m, ox, oy) := q
  let oxi ← asIntV ox
  let oyi ← asIntV oy
  if oxi < 0 ∨ (hw.2 : Int) ≤ oxi ∨ oyi < 0 ∨ (hw.1 : Int) ≤ oyi then
    pure (Val.scl (Scalar.i 0))
  else do
    let b ← asMem m
    let buf ← s.getBuf b
    let v ← pyLoad buf (oxi * 4 + oyi * (hw.2 : Int) * 4 + (j : Int))
    pure (Val.scl v)


/-- The image-form LOAD: one lane list per component. -/
def imageLoad (s : Mach) (hw : Nat × Nat) (count : Nat) (ms xs ys : List Val) :
    Except Err (List Val) :=
  (List.range count).mapM (fun j => do
    let lanes ← (ms.zip (xs.zip ys)).mapM (imageLane s hw j)
    pure (Val.lst lanes))


/-- The ALU handler: the two asserts (equal lane counts; homogeneous
dtypes unless the op is a comparison or select) followed by the per-lane
delegation to the external `exec_alu`. -/
def aluApply (ext : ExtOps) (op : ALUOp) (dtype : DType) (inp : List Val)
    (dtp : List DType) : Except Err (List Val) := do
  let lls ← inp.mapM asList
  let lens := lls.map List.length
  if lens.all (fun n => n = lens.headD 0) then
    if (dtp.all (fun d => d = dtype)) ∨ op.isCmpOrWhere then do
      let tuples ← (zipLanes lls).mapM (fun tup => tup.mapM asScl)
      pure (tuples.map (fun p => Val.scl (ext.exec_alu op dtype p)))
    else Except.error Err.shapeMismatch
  else Except.error Err.shapeMismatch


/-- The DEFINE_LOCAL handler: allocate a fresh zero-filled buffer,
append it to the coordinate's local-buffer arena, and let every lane of
the warp reference it. -/
def allocLocal (warp_size : Nat) (s : Mach) (sz : Nat) (dtype : DType) : Mach :=
  { s with
    lbufs := s.lbufs ++ [List.replicate sz dtype.zeroScalar],
    ul := ains s.ul s.i
      (Val.lst (List.replicate warp_size (Val.mem (BufRef.loc s.lbufs.length)))),
    i := s.i + 1 }


/-! ## The main dispatch: one iteration of the while loop -/

/-- Resolve an instruction's operands: the `idp` trim for DEFINE_ACC,
the void-op filter, and the `ul`/`dl` table reads. -/
def resolveOps (P : List Instr) (s : Mach) (ins : Instr) :
    Except Err (List (Nat × UOpK) × List Val × List DType) := do
  let idp ← (if ins.uop = UOpK.DEFINE_ACC then
      match ins.idp with
      | [] => Except.error Err.typeErr
      | v :: _ => pure [v]
    else pure ins.idp)
  let live0 ← idp.mapM (fun v =>
    match P.get? v with
    | some insv => Except.ok (v, insv.uop)
    | none => Except.error Err.typeErr)
  let live := live0.filter (fun p => !p.2.isVoid)
  let inp ← live.mapM (fun p =>
    match alook s.ul p.1 with
    | some x => Except.ok x
    | none => Except.error Err.unresolved)
  let dtp ← live.mapM (fun p =>
    match alook s.dl p.1 with
    | some d => Except.ok d
    | none => Except.error Err.unresolved)
  pure (live, inp, dtp)


/-- The per-kind conditional chain of the main loop body. -/
def dispatch (ext : ExtOps) (P : List Instr) (warp : List (List Nat)) (idxs : List Nat)
    (s : Mach) (ins : Instr) (live : List (Nat × UOpK)) (inp : List Val)
    (dtp : List DType) : Except Err Mach :=
  let warp_size := warp.length
  match ins.uop with
    | .STORE => stepStore s inp dtp
    | .ENDRANGE =>
      match ins.idp with
      | r :: _ => pure { s with loopEnds := ains s.loopEnds r s.i, i := r }
      | [] => Except.error Err.typeErr
    | .BARRIER => pure { s with i := s.i + 1 }
    | .IF => pure { s with i := s.i + 1 }
    | .ENDIF => pure { s with i := s.i + 1 }
    | u => do
      let dtype ← (match ins.dtype with
        | some d => pure d
        | none => Except.error Err.missingType)
      let s := { s with dl := ains s.dl s.i dtype }
      match u with
      | .DEFINE_GLOBAL =>
        if (dtype.fmt).isSome then
          match s.pbufs with
          | k :: rest =>
            pure { s with
              ul := ains s.ul s.i (Val.lst (List.replicate warp_size (Val.mem (BufRef.global k)))),
              pbufs := rest, i := s.i + 1 }
          | [] => Except.error Err.typeErr
        else Except.error Err.typeErr
      | .DEFINE_LOCAL =>
        if (dtype.fmt).isSome then
          match ins.arg with
          | .localArg sz => pure (allocLocal warp_size s sz dtype)
          | _ => Except.error Err.typeErr
        else Except.error Err.typeErr
      | .DEFINE_VAR =>
        match s.pvals with
        | v :: rest =>
          pure { s with
            ul := ains s.ul s.i (Val.lst (List.replicate warp_size (Val.scl (Scalar.i v)))),
            pvals := rest, i := s.i + 1 }
        | [] => Except.error Err.typeErr
      | .SPECIAL =>
        match ins.arg with
        | .special c ax =>
          if c = 'g' then
            match pyIdx idxs (2 - (ax : Int)) with
            | some n =>
              pure { s with
                ul := ains s.ul s.i (Val.lst (List.replicate warp_size (Val.scl (Scalar.i n)))),
                i := s.i + 1 }
            | none => Except.error Err.typeErr
          else if c = 'l' then do
            let lanes ← warp.mapM (fun x =>
              match pyIdx x (2 - (ax : Int)) with
              | some n => Except.ok (Val.scl (Scalar.i ((n : Nat) : Int)))
              | none => Except.error Err.typeErr)
            pure { s with ul := ains s.ul s.i (Val.lst lanes), i := s.i + 1 }
          else Except.error Err.unresolved
        | _ => Except.error Err.typeErr
      | .CONST =>
        match ins.arg with
        | .const c =>
          pure { s with
            ul := ains s.ul s.i (Val.lst (List.replicate warp_size (Val.scl c))),
            i := s.i + 1 }
        | _ => Except.error Err.typeErr
      | .DEFINE_ACC => do
        let v0 ← listGet inp 0
        let l ← asList v0
        if dtype.count > 1 then do
          let c0 ← asList (← listGet l 0)
          let x ← listGet c0 0
          pure { s with
            ul := ains s.ul s.i
              (Val.lst (List.replicate dtype.count (Val.lst (List.replicate warp_size x)))),
            i := s.i + 1 }
        else do
          let x ← listGet l 0
          pure { s with
            ul := ains s.ul s.i (Val.lst (List.replicate warp_size x)), i := s.i + 1 }
      | .RANGE =>
        match alook s.ul s.i with
        | none => do
          let l ← asList (← listGet inp 0)
          let x ← listGet l 0
          pure { s with
            ul := ains s.ul s.i (Val.lst (List.replicate warp_size x)), i := s.i + 1 }
        | some cur => do
          let l ← asList cur
          let l' ← l.mapM (fun v => do
            let n ← asIntV v
            pure (Val.scl (Scalar.i (n + 1))))
          let h0 ← listGet l' 0
          let b0 ← listGet (← asList (← listGet inp 1)) 0
          if h0 = b0 then
            match alook s.loopEnds s.i with
            | some e => pure { s with ul := adel s.ul s.i, i := e + 1 }
            | none => Except.error Err.unresolved
          else
            pure { s with ul := ains s.ul s.i (Val.lst l'), i := s.i + 1 }
      | .VECTORIZE =>
        pure { s with ul := ains s.ul s.i (Val.lst inp), i := s.i + 1 }
      | .CAST => do
        let d0 ← listGet dtp 0
        if (d0.fmt).isSome ∧ (dtype.fmt).isSome then do
          let l ← asList (← listGet inp 0)
          if l.length = warp_size then do
            let l' ← castLanes ext dtype l
            pure { s with ul := ains s.ul s.i (Val.lst l'), i := s.i + 1 }
          else Except.error Err.unsupportedLayout
        else Except.error Err.typeErr
      | .BITCAST => do
        let d0 ← listGet dtp 0
        if (d0.fmt).isSome ∧ (dtype.fmt).isSome then do
          let l ← asList (← listGet inp 0)
          if l.length = warp_size then do
            let l' ← bitcastLanes d0 dtype l
            pure { s with ul := ains s.ul s.i (Val.lst l'), i := s.i + 1 }
          else Except.error Err.unsupportedLayout
        else Except.error Err.typeErr
      | .LOAD => do
        let d0 ← listGet dtp 0
        match d0.image with
        | some hw =>
          if dtype.count = 4 then do
            let ms ← asList (← listGet inp 0)
            let idx ← asList (← listGet inp 1)
            let xs ← asList (← listGet idx 0)
            let ys ← asList (← listGet idx 1)
            let comps ← imageLoad s hw dtype.count ms xs ys
            pure { s with ul := ains s.ul s.i (Val.lst comps), i := s.i + 1 }
          else Except.error Err.unsupportedLayout
        | none =>
          if dtype.count > 1 then do
            let comps ← (List.range dtype.count).mapM (fun j => do
              let inp' ← (inp.zip dtp).mapM (fun q =>
                if q.2.count > 1 then do
                  let l ← asList q.1
                  listGet l j
                else pure q.1)
              let lanes ← loadFn s inp' (j : Int)
              pure (Val.lst lanes))
            pure { s with ul := ains s.ul s.i (Val.lst comps), i := s.i + 1 }
          else do
            let lanes ← loadFn s inp 0
            pure { s with ul := ains s.ul s.i (Val.lst lanes), i := s.i + 1 }
      | .ASSIGN => do
        -- Value-level rendering of the in-place `inp[0][j] = inp[1][j];
        -- ul[i] = inp[0]`: the destination position and the instruction's
        -- own position are rebound to the written lanes. The source
        -- mutates the destination list object itself, so positions
        -- holding a reference to it (VECTORIZE stores operand lists by
        -- reference, GEP extracts such elements) also observe the write;
        -- this table maps positions to values and does not track that
        -- sharing, which is why `LoopWF` confines ASSIGN destinations to
        -- DEFINE_ACC positions, where the two semantics agree on
        -- everything the loop dynamics can observe.
        let tgt ← (match live with
          | [] => Except.error Err.typeErr
          | p :: _ => pure p.1)
        let v0 ← asList (← listGet inp 0)
        let v1 ← listGet inp 1
        if v0.length = 0 then
          pure { s with ul := ains (ains s.ul tgt (Val.lst [])) s.i (Val.lst []), i := s.i + 1 }
        else
          match v1 with
          | .lst l1 =>
            if v0.length ≤ l1.length then
              pure { s with
                ul := ains (ains s.ul tgt (Val.lst (l1.take v0.length))) s.i
                  (Val.lst (l1.take v0.length)),
                i := s.i + 1 }
            else Except.error Err.typeErr
          | _ => Except.error Err.typeErr
      | .GEP =>
        match ins.arg with
        | .gep gidx =>
          match gidx with
          | [a] => do
            let v0 ← asList (← listGet inp 0)
            match pyIdx v0 (a : Int) with
            | some x => pure { s with ul := ains s.ul s.i x, i := s.i + 1 }
            | none => Except.error Err.typeErr
          | _ => Except.error Err.unsupportedLayout
        | _ => Except.error Err.typeErr
      | .WMMA =>
        match ins.arg with
        | .wmma tag =>
          pure { s with ul := ains s.ul s.i (ext.wmma warp_size inp tag), i := s.i + 1 }
        | _ => Except.error Err.typeErr
      | .ALU =>
        match ins.arg with
        | .alu op => do
          let res ← aluApply ext op dtype inp dtp
          pure { s with ul := ains s.ul s.i (Val.lst res), i := s.i + 1 }
        | _ => Except.error Err.typeErr
      | _ => Except.error Err.unresolved


/-- One iteration of the interpreter's while loop at `i < len(uops)`:
fetch the instruction, resolve its non-void operands from `ul`/`dl`, and
dispatch on the uop kind exactly as the Python conditional chain does.
`warp` is the fixed lane-coordinate list, `idxs` the current global
coordinate. -/
def step (ext : ExtOps) (P : List Instr) (warp : List (List Nat)) (idxs : List Nat)
    (s : Mach) : Except Err Mach :=
  match P.get? s.i with
  | none => .error .unresolved
  | some ins =>
    (resolveOps P s ins).bind (fun r => dispatch ext P warp idxs s ins r.1 r.2.1 r.2.2)


/-! ## The run loop and the invocation entry point -/

/-- Result of running the while loop with a given amount of fuel:
`done` when `i` passed the final instruction, `fail` on a fatal error,
`more` when the fuel ran out with the machine still running. -/
inductive RunRes where
  | done (s : Mach)
  | fail (e : Err)
  | more (s : Mach)
deriving DecidableEq


/-- `n` iterations of `while i < len(self.uops)`. -/
def runL (ext : ExtOps) (P : List Instr) (warp : List (List Nat)) (idxs : List Nat) :
    Nat → Mach → RunRes
  | 0, s => .more s
  | n + 1, s =>
    if s.i < P.length then
      match step ext P warp idxs s with
      | .ok s' => runL ext P warp idxs n s'
      | .error e => .fail e
    else .done s


/-- The fresh execution context created for each global coordinate. -/
def initMach (g : List (List Scalar)) (vals : List Int) : Mach :=
  { ul := [], dl := [], gbufs := g, lbufs := [],
    pbufs := List.range g.length, pvals := vals, loopEnds := [], i := 0 }


/-- `itertools.product(range(a), range(b), range(c))` as coordinate
triples `[x, y, z]`. -/
def pyProd3 (a b c : Nat) : List (List Nat) :=
  (List.range a).flatMap (fun x =>
    (List.range b).flatMap (fun y =>
      (List.range c).map (fun z => [x, y, z])))


/-- Result of one full invocation. -/
inductive CallRes where
  | ok (bufs : List (List Scalar))
  | fail (e : Err)
  | out
deriving DecidableEq


/-- The outer loop over global coordinates: each coordinate runs the
whole program in a fresh context; only the global buffers thread
through. -/
def runCoords (ext : ExtOps) (P : List Instr) (warp : List (List Nat)) (vals : List Int)
    (fuel : Nat) : List (List Nat) → List (List Scalar) → CallRes
  | [], g => .ok g
  | c :: rest, g =>
    match runL ext P warp c fuel (initMach g vals) with
    | .done s => runCoords ext P warp vals fuel rest s.gbufs
    | .fail e => .fail e
    | .more _ => .out


/-- `PythonProgram.__call__` up to the wall-clock reading: the warp is
the product of the reversed `local_size` ranges, the coordinates the
product of the reversed `global_size` ranges. -/
def pyCall (ext : ExtOps) (P : List Instr) (bufs : List (List Scalar))
    (gs ls : Nat × Nat × Nat) (vals : List Int) (fuel : Nat) : CallRes :=
  let warp := pyProd3 ls.2.2 ls.2.1 ls.1
  runCoords ext P warp vals fuel (pyProd3 gs.2.2 gs.2.1 gs.1) bufs


/-- `PythonProgram.__call__` including its return value: the elapsed
wall-clock time between the two `time.perf_counter()` readings `t0`
(taken at entry) and `t1` (taken at return). -/
def pyCallTimed (ext : ExtOps) (P : List Instr) (bufs : List (List Scalar))
    (gs ls : Nat × Nat × Nat) (vals : List Int) (fuel : Nat) (t0 t1 : ℚ) : CallRes × ℚ :=
  (pyCall ext P bufs gs ls vals fuel, t1 - t0)


/-! ## A concrete external-operation model for witness runs -/

/-- Modelled from the spec: the external scalar arithmetic/logic
primitive `exec_alu` (out of scope per §1), instantiated for the
operations concrete witness programs use. -/
def execAluM : ALUOp → DType → List Scalar → Scalar
  | .add, _, [.i a, .i b] => .i (a + b)
  | .mul, _, [.i a, .i b] => .i (a * b)
  | .cmplt, _, [.i a, .i b] => .b (decide (a < b))
  | .cmpne, _, [a, b] => .b (decide (¬ a = b))
  | .whereOp, _, [c, a, b] => if c.truthy then a else b
  | _, _, _ => .i 0


/-- A concrete external-collaborator bundle: the modelled ALU, identity
float truncation, and a trivial tensor-core model. -/
def extM : ExtOps := ⟨execAluM, fun _ s => s, fun _ _ _ => Val.lst []⟩


/-- The single-loop accumulator program of C1/C2: `CONST 0; CONST N;
DEFINE_ACC; RANGE [0,1]; CONST 1; ALU add [2,4]; ASSIGN [2,5];
ENDRANGE [3]`. -/
def loopProg (N : Int) : List Instr := [
  ⟨.CONST, some dtInt32, [], .const (.i 0)⟩,
  ⟨.CONST, some dtInt32, [], .const (.i N)⟩,
  ⟨.DEFINE_ACC, some dtInt32, [0], .none⟩,
  ⟨.RANGE, some dtInt32, [0, 1], .none⟩,
  ⟨.CONST, some dtInt32, [], .const (.i 1)⟩,
  ⟨.ALU, some dtInt32, [2, 4], .alu .add⟩,
  ⟨.ASSIGN, some dtInt32, [2, 5], .none⟩,
  ⟨.ENDRANGE, none, [3], .none⟩ ]


/-! ## C8: BITCAST bit reinterpretation -/

/-- Modelled from the spec: the IEEE-754 binary32 value 1.0 has bit
pattern 0x3F800000 (floats are carried by their bit patterns here). -/
def float32_one : Scalar := .f32 0x3F800000


/-! ## C4: store gating -/

/-- The reference effect of the scalar-store lane loop on one buffer:
lanes are processed in order, a true gate writes, a false gate skips. -/
def gatedFold (buf : List Scalar) (lanes : List (Int × Scalar × Bool)) : List Scalar :=
  lanes.foldl (fun acc p => if p.2.2 then acc.set p.1.toNat p.2.1 else acc) buf


/-! ## C9: local buffers are fresh and zero-initialized per coordinate -/

/-- A two-coordinate leakage probe: each coordinate loads its local
buffer's element 0 before writing to it, stores the loaded value into
the global output at its own coordinate index, then stores 7 into the
local buffer. Cross-coordinate leakage would surface as a 7 in the
second output slot. -/
def localProbe : List Instr := [
  ⟨.DEFINE_GLOBAL, some dtInt32, [], .none⟩,
  ⟨.DEFINE_LOCAL, some dtInt32, [], .localArg 1⟩,
  ⟨.CONST, some dtInt32, [], .const (.i 0)⟩,
  ⟨.SPECIAL, some dtInt32, [], .special 'g' 0⟩,
  ⟨.LOAD, some dtInt32, [1, 2], .none⟩,
  ⟨.STORE, none, [0, 3, 4], .none⟩,
  ⟨.CONST, some dtInt32, [], .const (.i 7)⟩,
  ⟨.STORE, none, [1, 2, 6], .none⟩ ]


/-! ## C2: the counted-loop accumulator program -/

/-- Two identical lanes (warp width 2, `local_size = (2,1,1)`). -/
def lpL (v : Int) : Val := Val.lst [Val.scl (Scalar.i v), Val.scl (Scalar.i v)]


def lpWarp : List (List Nat) := [[0, 0, 0], [0, 0, 1]]


def lpD : List (Nat × DType) :=
  [(0, dtInt32), (1, dtInt32), (2, dtInt32), (3, dtInt32), (4, dtInt32), (5, dtInt32),
   (6, dtInt32)]


/-- The machine at the loop head (position 3, just after the ENDRANGE
back-jump) of `loopProg N`, the body having executed `k+1` times: the
loop variable holds `k`, the accumulator `k+1`. -/
def lpB (N : Int) (k : Nat) : Mach :=
  { ul := [(0, lpL 0), (1, lpL N), (2, lpL ((k : Int) + 1)), (3, lpL (k : Int)),
           (4, lpL 1), (5, lpL ((k : Int) + 1)), (6, lpL ((k : Int) + 1))],
    dl := lpD, gbufs := [], lbufs := [], pbufs := [], pvals := [],
    loopEnds := [(3, 7)], i := 3 }


/-- The machine after the loop at position 3 retires (the loop variable
deleted, control just past the ENDRANGE). -/
def lpE (N : Int) (k : Nat) : Mach :=
  { ul := [(0, lpL 0), (1, lpL N), (2, lpL ((k : Int) + 1)),
           (4, lpL 1), (5, lpL ((k : Int) + 1)), (6, lpL ((k : Int) + 1))],
    dl := lpD, gbufs := [], lbufs := [], pbufs := [], pvals := [],
    loopEnds := [(3, 7)], i := 8 }



/-- The machine of `loopProg N` just after a revisit of the loop head
that did not hit the bound: the loop variable incremented to `k+1`,
control at the body start (position 4). -/
def lpC (N : Int) (k : Nat) : Mach :=
  { ul := [(0, lpL 0), (1, lpL N), (2, lpL ((k : Int) + 1)), (3, lpL ((k : Int) + 1)),
           (4, lpL 1), (5, lpL ((k : Int) + 1)), (6, lpL ((k : Int) + 1))],
    dl := lpD, gbufs := [], lbufs := [], pbufs := [], pvals := [],
    loopEnds := [(3, 7)], i := 4 }


/-! ## C1 (amended): termination for programs with well-formed loops -/

/-- `s` reaches `s'` in some number of while-loop iterations. -/
def Steps (ext : ExtOps) (P : List Instr) (warp : List (List Nat)) (idxs : List Nat)
    (s s' : Mach) : Prop :=
  ∃ n, runL ext P warp idxs n s = .more s'


/-- `s` reaches a fatal error. -/
def Fails (ext : ExtOps) (P : List Instr) (warp : List (List Nat)) (idxs : List Nat)
    (s : Mach) : Prop :=
  ∃ n e, runL ext P warp idxs n s = .fail e


/-- Well-formed loop structure: every RANGE has constant integer
operands with seed strictly below bound and a unique matching later
ENDRANGE (`M`), loops are properly nested, every ENDRANGE back-references
a RANGE, and every ASSIGN neither references a RANGE or CONST position
nor targets anything but a DEFINE_ACC position. The destination
restriction is the spec's "assignment is used exclusively to mutate
accumulators": the source's ASSIGN writes the destination lane-list in
place, so any other holder of a reference to that list object (a
VECTORIZE stores its operand lists by reference, a GEP extracts such an
element) observes the write. `ul` here maps positions to values, not
shared objects, so this development restricts ASSIGN destinations to
accumulator positions — a DEFINE_ACC always binds a freshly built list,
never a RANGE counter or a CONST broadcast, so on this class the
in-place write can reach no loop counter and no loop bound through any
alias, and the value-level model and the source agree on the loop
dynamics. -/
structure LoopWF (P : List Instr) (M : Nat → Nat) : Prop where
  ranges : ∀ r ins, P.get? r = some ins → ins.uop = UOpK.RANGE →
    ∃ c0 c1 k0 k1, ins.idp = [c0, c1] ∧ c0 < r ∧ c1 < r ∧
      (∃ i0, P.get? c0 = some i0 ∧ i0.uop = UOpK.CONST ∧
        i0.arg = PArg.const (Scalar.i k0)) ∧
      (∃ i1, P.get? c1 = some i1 ∧ i1.uop = UOpK.CONST ∧
        i1.arg = PArg.const (Scalar.i k1)) ∧
      k0 < k1
  matched : ∀ r ins, P.get? r = some ins → ins.uop = UOpK.RANGE →
    r < M r ∧ M r < P.length ∧
    ∃ inse rest, P.get? (M r) = some inse ∧ inse.uop = UOpK.ENDRANGE ∧
      inse.idp = r :: rest
  ends : ∀ e ins r rest, P.get? e = some ins → ins.uop = UOpK.ENDRANGE →
    ins.idp = r :: rest →
    (∃ insr, P.get? r = some insr ∧ insr.uop = UOpK.RANGE) ∧ M r = e
  nest : ∀ r1 r2 ins1 ins2, P.get? r1 = some ins1 → ins1.uop = UOpK.RANGE →
    P.get? r2 = some ins2 → ins2.uop = UOpK.RANGE → r1 < r2 → r2 < M r1 →
    M r2 < M r1
  assigns : ∀ a ins, P.get? a = some ins → ins.uop = UOpK.ASSIGN →
    (∀ v insv, v ∈ ins.idp → P.get? v = some insv →
      insv.uop ≠ UOpK.RANGE ∧ insv.uop ≠ UOpK.CONST) ∧
    ∃ d rest, ins.idp = d :: rest ∧
      ∃ insd, P.get? d = some insd ∧ insd.uop = UOpK.DEFINE_ACC


/-- Every value sitting at a CONST position of `ul` is the broadcast of
that CONST's literal. -/
def ConstInv (P : List Instr) (warp : List (List Nat)) (s : Mach) : Prop :=
  ∀ c ins, P.get? c = some ins → ins.uop = UOpK.CONST →
    ∀ v, alook s.ul c = some v →
      ∃ sc, ins.arg = PArg.const sc ∧
        v = Val.lst (List.replicate warp.length (Val.scl sc))


/-- A segment `[a, b)` closed under the loop structure: ranges in it
have their matching ENDRANGE in it, and ENDRANGEs in it back-reference
ranges in it. -/
def Closed (P : List Instr) (M : Nat → Nat) (a b : Nat) : Prop :=
  (∀ r ins, a ≤ r → r < b → P.get? r = some ins → ins.uop = UOpK.RANGE → M r < b) ∧
  (∀ e ins r rest, a ≤ e → e < b → P.get? e = some ins → ins.uop = UOpK.ENDRANGE →
    ins.idp = r :: rest → a ≤ r)


/-- The store handlers touch only buffer contents: value table, loop
table and instruction pointer are left alone. -/
def SameCtrl (st st' : Mach) : Prop :=
  st'.ul = st.ul ∧ st'.dl = st.dl ∧ st'.loopEnds = st.loopEnds ∧ st'.i = st.i ∧
    st'.pbufs = st.pbufs ∧ st'.pvals = st.pvals


/-- Strictly increasing keys: the canonical form `ains` maintains. -/
def SortedA {α : Type} (m : List (Nat × α)) : Prop :=
  List.Pairwise (fun p q : Nat × α => p.1 < q.1) m


/-- A `ul` update is safe when it leaves every RANGE position alone,
writes at CONST positions only that CONST's broadcast literal, and keeps
the table canonically sorted. -/
def SafeUl (P : List Instr) (W : Nat) (ul ul' : List (Nat × Val)) : Prop :=
  (∀ r insr, P.get? r = some insr → insr.uop = UOpK.RANGE → alook ul' r = alook ul r) ∧
  (∀ c insc v, P.get? c = some insc → insc.uop = UOpK.CONST → alook ul' c = some v →
    alook ul c = some v ∨ ∃ sc, insc.arg = PArg.const sc ∧
      v = Val.lst (List.replicate W (Val.scl sc))) ∧
  (SortedA ul → SortedA ul')


/-- Every recorded loop end agrees with the matching function. -/
def EndsInv (P : List Instr) (M : Nat → Nat) (s : Mach) : Prop :=
  ∀ r e, alook s.loopEnds r = some e → e = M r


theorem alook_ains {α : Type} (m : List (Nat × α)) (k : Nat) (v : α) (q : Nat) :
    alook (ains m k v) q = if q = k then some v else alook m q := by
  induction m with
  | nil => simp [ains, alook]
  | cons h t ih =>
    obtain ⟨k0, v0⟩ := h
    by_cases h1 : k < k0
    · simp [ains, h1, alook]
    · by_cases h2 : k = k0
      · subst h2
        by_cases h3 : q = k
        · simp [ains, h1, alook, h3]
        · simp [ains, h1, alook, h3]
      · simp only [ains, if_neg h1, if_neg h2, alook, ih]
        by_cases h3 : q = k0
        · subst h3
          simp [Ne.symm h2]
        · simp [h3]


/-! ## Basic run lemmas -/

theorem runL_add (ext : ExtOps) (P : List Instr) (warp : List (List Nat)) (idxs : List Nat)
    (a b : Nat) (s : Mach) :
    runL ext P warp idxs (a + b) s =
      match runL ext P warp idxs a s with
      | .more s' => runL ext P warp idxs b s'
      | r => r := by
  induction a generalizing s with
  | zero => simp [runL]
  | succ n ih =>
    by_cases h : s.i < P.length
    · cases hs : step ext P warp idxs s with
      | ok s' =>
        have l1 : runL ext P warp idxs (n + 1 + b) s = runL ext P warp idxs (n + b) s' := by
          have hc : n + 1 + b = (n + b) + 1 := by omega
          rw [hc, runL, if_pos h, hs]
        have l2 : runL ext P warp idxs (n + 1) s = runL ext P warp idxs n s' := by
          rw [runL, if_pos h, hs]
        rw [l1, l2, ih]
      | error e =>
        have l1 : runL ext P warp idxs (n + 1 + b) s = RunRes.fail e := by
          have hc : n + 1 + b = (n + b) + 1 := by omega
          rw [hc, runL, if_pos h, hs]
        have l2 : runL ext P warp idxs (n + 1) s = RunRes.fail e := by
          rw [runL, if_pos h, hs]
        rw [l1, l2]
    · have l1 : runL ext P warp idxs (n + 1 + b) s = RunRes.done s := by
        have hc : n + 1 + b = (n + b) + 1 := by omega
        rw [hc, runL, if_neg h]
      have l2 : runL ext P warp idxs (n + 1) s = RunRes.done s := by
        rw [runL, if_neg h]
      rw [l1, l2]


/-- More fuel does not change a completed run. -/
theorem runL_done_mono (ext : ExtOps) (P : List Instr) (warp : List (List Nat))
    (idxs : List Nat) (n k : Nat) (s s' : Mach)
    (h : runL ext P warp idxs n s = .done s') :
    runL ext P warp idxs (n + k) s = .done s' := by
  rw [runL_add, h]


/-- More fuel does not change a failed run. -/
theorem runL_fail_mono (ext : ExtOps) (P : List Instr) (warp : List (List Nat))
    (idxs : List Nat) (n k : Nat) (s : Mach) (e : Err)
    (h : runL ext P warp idxs n s = .fail e) :
    runL ext P warp idxs (n + k) s = .fail e := by
  rw [runL_add, h]


/-! ## C6: scalar load/store bounds checking -/

/-- C6: for every non-image scalar load or store, an index that is
negative or not less than the buffer's length raises a fatal OutOfBounds
error; an in-bounds index raises no such error (the load returns the
element, the store returns the updated buffer); and a step that raises a
fatal error aborts the whole run immediately with that error. -/
theorem c6_scalar_bounds :
    (∀ (m : List Scalar) (i : Int), (i < 0 ∨ (m.length : Int) ≤ i) →
        pyLoad m i = .error .oob) ∧
    (∀ (m : List Scalar) (i : Int), ¬ (i < 0 ∨ (m.length : Int) ≤ i) →
        ∃ v, pyLoad m i = .ok v ∧ m.get? i.toNat = some v) ∧
    (∀ (m : List Scalar) (i : Int) (v : Scalar), (i < 0 ∨ (m.length : Int) ≤ i) →
        pyStore m i v = .error .oob) ∧
    (∀ (m : List Scalar) (i : Int) (v : Scalar), ¬ (i < 0 ∨ (m.length : Int) ≤ i) →
        pyStore m i v = .ok (m.set i.toNat v)) ∧
    (∀ (ext : ExtOps) (P : List Instr) (warp : List (List Nat)) (idxs : List Nat)
        (s : Mach) (e : Err) (n : Nat), s.i < P.length →
        step ext P warp idxs s = .error e →
        runL ext P warp idxs (n + 1) s = .fail e) := by
  refine ⟨?_, ?_, ?_, ?_, ?_⟩
  · intro m i h
    rw [pyLoad, if_pos h]
  · intro m i h
    have h2 : i.toNat < m.length := by omega
    have hg : m.get? i.toNat = some (m.get ⟨i.toNat, h2⟩) := List.get?_eq_get h2
    exact ⟨m.get ⟨i.toNat, h2⟩, by rw [pyLoad, if_neg h, hg], hg⟩
  · intro m i v h
    rw [pyStore, if_pos h]
  · intro m i v h
    rw [pyStore, if_neg h]
  · intro ext P warp idxs s e n hlt hstep
    rw [runL, if_pos hlt, hstep]


theorem c6_scalar_bounds_witness :
    pyLoad [Scalar.i 5, Scalar.i 6] 2 = .error .oob ∧
    pyStore [Scalar.i 5, Scalar.i 6] (-1) (Scalar.i 9) = .error .oob ∧
    pyStore [Scalar.i 5, Scalar.i 6] 1 (Scalar.i 9) = .ok [Scalar.i 5, Scalar.i 9] :=
  ⟨c6_scalar_bounds.1 _ 2 (by decide),
   c6_scalar_bounds.2.2.1 _ (-1) _ (by decide),
   c6_scalar_bounds.2.2.2.1 [Scalar.i 5, Scalar.i 6] 1 (Scalar.i 9) (by decide)⟩


/-! ## C3: CAST to integer destinations -/

theorem intWrap_emod (d : DType) (x : Int) :
    intWrap d x % (2 ^ (d.itemsize * 8) : Int) = x % (2 ^ (d.itemsize * 8) : Int) := by
  unfold intWrap
  set M : Int := 2 ^ (d.itemsize * 8) with hM
  set adj : Int := ite (d.is_unsigned = true) (0 : Int) (2 ^ (d.itemsize * 8 - 1)) with ha
  have h1 : ((x + adj) % M - adj) % M = ((x + adj) - adj) % M := by
    conv_rhs => rw [Int.sub_emod]
    conv_lhs => rw [Int.sub_emod, Int.emod_emod_of_dvd _ dvd_rfl]
  rw [h1, add_sub_cancel_right]


theorem intWrap_bounds_unsigned (d : DType) (x : Int) (hu : d.is_unsigned = true) :
    0 ≤ intWrap d x ∧ intWrap d x < 2 ^ (d.itemsize * 8) := by
  have hM : (0 : Int) < 2 ^ (d.itemsize * 8) := by positivity
  unfold intWrap
  rw [hu]
  simp only [if_true]
  constructor
  · have := Int.emod_nonneg (x + 0) (ne_of_gt hM)
    omega
  · have := Int.emod_lt_of_pos (x + 0) hM
    omega


theorem intWrap_bounds_signed (d : DType) (x : Int) (hu : d.is_unsigned = false)
    (hsz : 0 < d.itemsize) :
    -(2 ^ (d.itemsize * 8 - 1) : Int) ≤ intWrap d x ∧
      intWrap d x < 2 ^ (d.itemsize * 8 - 1) := by
  have hM : (0 : Int) < 2 ^ (d.itemsize * 8) := by positivity
  have hMA : (2 : Int) ^ (d.itemsize * 8) = 2 * 2 ^ (d.itemsize * 8 - 1) := by
    obtain ⟨w, hw⟩ : ∃ w, d.itemsize * 8 = w + 1 := ⟨d.itemsize * 8 - 1, by omega⟩
    rw [hw, pow_succ]
    have hw1 : w + 1 - 1 = w := by omega
    rw [hw1]
    ring
  unfold intWrap
  rw [hu]
  simp only [Bool.false_eq_true, if_false]
  set A : Int := 2 ^ (d.itemsize * 8 - 1) with hA
  have hnn := Int.emod_nonneg (x + A) (ne_of_gt hM)
  have hlt := Int.emod_lt_of_pos (x + A) hM
  constructor
  · linarith
  · linarith [hMA]


theorem bits_roundtrip_uint (d : DType) (v : Int) (hk : d.kind = ScalarKind.uint)
    (h0 : 0 ≤ v) (h1 : v < 2 ^ (d.itemsize * 8)) :
    (match bitsOf d (Scalar.i v) with
     | .ok bits => ofBits d bits
     | .error e => Except.error e) = .ok (Scalar.i v) := by
  have hb : bitsOf d (Scalar.i v) = .ok v.toNat := by
    simp only [bitsOf, hk]
    rw [if_pos]
    exact ⟨h0, h1⟩
  rw [hb]
  simp only [ofBits, hk]
  have hvn : v.toNat < 2 ^ (d.itemsize * 8) := by
    zify
    rwa [Int.toNat_of_nonneg h0]
  rw [Nat.mod_eq_of_lt hvn, Int.toNat_of_nonneg h0]


theorem bits_roundtrip_sint (d : DType) (v : Int) (hk : d.kind = ScalarKind.sint)
    (hsz : 0 < d.itemsize)
    (h0 : -(2 ^ (d.itemsize * 8 - 1) : Int) ≤ v) (h1 : v < 2 ^ (d.itemsize * 8 - 1)) :
    (match bitsOf d (Scalar.i v) with
     | .ok bits => ofBits d bits
     | .error e => Except.error e) = .ok (Scalar.i v) := by
  have hMA : (2 : Int) ^ (d.itemsize * 8) = 2 * 2 ^ (d.itemsize * 8 - 1) := by
    obtain ⟨w, hw⟩ : ∃ w, d.itemsize * 8 = w + 1 := ⟨d.itemsize * 8 - 1, by omega⟩
    rw [hw, pow_succ]
    have hw1 : w + 1 - 1 = w := by omega
    rw [hw1]
    ring
  have hM : (0 : Int) < 2 ^ (d.itemsize * 8) := by positivity
  have hb : bitsOf d (Scalar.i v) = .ok (v % (2 ^ (d.itemsize * 8) : Int)).toNat := by
    simp only [bitsOf, hk]
    rw [if_pos]
    exact ⟨h0, h1⟩
  rw [hb]
  simp only [ofBits, hk]
  have hnn := Int.emod_nonneg v (ne_of_gt hM)
  have hlt := Int.emod_lt_of_pos v hM
  have hmod : (v % (2 ^ (d.itemsize * 8) : Int)).toNat % 2 ^ (d.itemsize * 8) =
      (v % (2 ^ (d.itemsize * 8) : Int)).toNat := by
    apply Nat.mod_eq_of_lt
    zify
    rwa [Int.toNat_of_nonneg hnn]
  rw [hmod]
  by_cases hv : 0 ≤ v
  · have hvm : v % (2 ^ (d.itemsize * 8) : Int) = v := Int.emod_eq_of_lt hv (by linarith)
    rw [hvm, if_pos, Int.toNat_of_nonneg hv]
    zify
    rw [Int.toNat_of_nonneg hv]
    exact h1
  · have hvm : v % (2 ^ (d.itemsize * 8) : Int) = v + 2 ^ (d.itemsize * 8) := by
      have hshift : (v + 2 ^ (d.itemsize * 8) * 1) % (2 ^ (d.itemsize * 8) : Int) =
          v % (2 ^ (d.itemsize * 8) : Int) :=
        Int.add_mul_emod_self_left v (2 ^ (d.itemsize * 8)) 1
      have he : (v + 2 ^ (d.itemsize * 8)) % (2 ^ (d.itemsize * 8) : Int) =
          v + 2 ^ (d.itemsize * 8) :=
        Int.emod_eq_of_lt (by linarith) (by linarith)
      calc v % (2 ^ (d.itemsize * 8) : Int)
          = (v + 2 ^ (d.itemsize * 8) * 1) % (2 ^ (d.itemsize * 8) : Int) := hshift.symm
        _ = (v + 2 ^ (d.itemsize * 8)) % (2 ^ (d.itemsize * 8) : Int) := by ring_nf
        _ = v + 2 ^ (d.itemsize * 8) := he
    have hpos : (0 : Int) ≤ v + 2 ^ (d.itemsize * 8) := by linarith
    rw [hvm, if_neg]
    · rw [Int.toNat_of_nonneg hpos, add_sub_cancel_right]
    · intro hcon
      have : ((v + 2 ^ (d.itemsize * 8)).toNat : Int) < 2 ^ (d.itemsize * 8 - 1) := by
        zify at hcon
        exact_mod_cast hcon
      rw [Int.toNat_of_nonneg hpos] at this
      linarith


theorem is_int_kind (d : DType) (hint : d.is_int = true) :
    d.kind = ScalarKind.sint ∨ d.kind = ScalarKind.uint := by
  cases h : d.kind
  · exact Or.inl rfl
  · exact Or.inr rfl
  · rw [DType.is_int, h] at hint
    simp at hint
  · rw [DType.is_int, h] at hint
    simp at hint


theorem castScalar_int (ext : ExtOps) (d : DType) (x : Int)
    (hint : d.is_int = true) (hsz : 0 < d.itemsize) :
    castScalar ext d (Scalar.i x) = .ok (Scalar.i (intWrap d x)) := by
  cases is_int_kind d hint with
  | inl hks =>
    have hu : d.is_unsigned = false := by simp [DType.is_unsigned, hks]
    obtain ⟨hb1, hb2⟩ := intWrap_bounds_signed d x hu hsz
    simp only [castScalar, as_const, hks, hint]
    simp only [if_true]
    exact bits_roundtrip_sint d _ hks hsz hb1 hb2
  | inr hku =>
    have hu : d.is_unsigned = true := by simp [DType.is_unsigned, hku]
    obtain ⟨hb1, hb2⟩ := intWrap_bounds_unsigned d x hu
    simp only [castScalar, as_const, hku, hint]
    simp only [if_true]
    exact bits_roundtrip_uint d _ hku hb1 hb2



theorem castLanes_int (ext : ExtOps) (d : DType) (xs : List Int)
    (hint : d.is_int = true) (hsz : 0 < d.itemsize) :
    castLanes ext d (xs.map (fun x => Val.scl (Scalar.i x))) =
      .ok (xs.map (fun x => Val.scl (Scalar.i (intWrap d x)))) := by
  induction xs with
  | nil => rfl
  | cons x t ih =>
    simp only [castLanes] at ih ⊢
    simp only [List.map_cons, List.mapM_cons]
    simp only [asScl, bind, Except.bind, pure, Except.pure] at ih ⊢
    rw [castScalar_int ext d x hint hsz, ih]


/-- C3: a CAST to an integer destination reduces every lane's integer
value modulo `2^bitwidth` with a symmetric wrap — the result is
congruent to the input mod `2^bits` and lies in
`[-2^(bits-1), 2^(bits-1)-1]` for signed destinations and
`[0, 2^bits-1]` for unsigned ones; in particular casting 130 to int8
yields -126 and casting 130 to uint8 yields 130. -/
theorem c3_cast_integer :
    (∀ (d : DType) (x : Int), d.is_int = true → 0 < d.itemsize →
      intWrap d x % (2 ^ (d.itemsize * 8) : Int) = x % (2 ^ (d.itemsize * 8) : Int) ∧
      (d.is_unsigned = true → 0 ≤ intWrap d x ∧ intWrap d x < 2 ^ (d.itemsize * 8)) ∧
      (d.is_unsigned = false →
        -(2 ^ (d.itemsize * 8 - 1) : Int) ≤ intWrap d x ∧
          intWrap d x < 2 ^ (d.itemsize * 8 - 1))) ∧
    (∀ (ext : ExtOps) (d : DType) (xs : List Int), d.is_int = true → 0 < d.itemsize →
      castLanes ext d (xs.map (fun x => Val.scl (Scalar.i x))) =
        .ok (xs.map (fun x => Val.scl (Scalar.i (intWrap d x))))) ∧
    castScalar extM dtInt8 (Scalar.i 130) = .ok (Scalar.i (-126)) ∧
    castScalar extM dtUint8 (Scalar.i 130) = .ok (Scalar.i 130) :=
  ⟨fun d x _ h2 =>
    ⟨intWrap_emod d x,
     fun hu => intWrap_bounds_unsigned d x hu,
     fun hu => intWrap_bounds_signed d x hu h2⟩,
   castLanes_int, by decide, by decide⟩


theorem c3_cast_integer_witness :
    castLanes extM dtInt8 [Val.scl (Scalar.i 130)] =
      .ok [Val.scl (Scalar.i (intWrap dtInt8 130))] := by
  have h := c3_cast_integer.2.1 extM dtInt8 [130] (by decide) (by decide)
  simpa using h


theorem bitcast_f32_u32 (bits : Nat) (h : bits < 2 ^ 32) :
    bitcastScalar dtFloat32 dtUint32 (Scalar.f32 bits) = .ok (Scalar.i bits) ∧
    bitcastScalar dtUint32 dtFloat32 (Scalar.i bits) = .ok (Scalar.f32 bits) := by
  have h32 : bits % 2 ^ 32 = bits := Nat.mod_eq_of_lt h
  have hm : bits % 2 ^ (4 * 8) = bits := by
    have h48 : (4 : Nat) * 8 = 32 := by norm_num
    rw [h48]
    exact h32
  constructor
  · rw [bitcastScalar]
    have hb : bitsOf dtFloat32 (Scalar.f32 bits) = .ok bits := by
      simp only [bitsOf, dtFloat32]
      rw [if_pos]
      exact ⟨trivial, h⟩
    show (bitsOf dtFloat32 (Scalar.f32 bits)).bind (fun b => ofBits dtUint32 b) = _
    rw [hb]
    show ofBits dtUint32 bits = _
    show Except.ok (Scalar.i ((bits % 2 ^ (4 * 8) : Nat) : Int)) = _
    rw [hm]
  · rw [bitcastScalar]
    have hb : bitsOf dtUint32 (Scalar.i (bits : Int)) = .ok bits := by
      simp only [bitsOf, dtUint32]
      rw [if_pos]
      · simp
      · constructor
        · positivity
        · show (bits : Int) < 2 ^ (4 * 8)
          have hcast : ((2 ^ 32 : Nat) : Int) = (2 : Int) ^ (4 * 8) := by norm_num
          omega
    show (bitsOf dtUint32 (Scalar.i (bits : Int))).bind (fun b => ofBits dtFloat32 b) = _
    rw [hb]
    show ofBits dtFloat32 bits = _
    show Except.ok (Scalar.f32 (bits % 2 ^ 32)) = _
    rw [h32]


/-- C8: BITCAST reinterprets each lane's raw bit pattern as the
destination type without numeric conversion: bit-reinterpreting float32
1.0 as uint32 yields 0x3F800000, reinterpreting that back yields 1.0
exactly, the same round trip holds for every 32-bit pattern, and in
general the result depends only on the packed bit pattern of the source
value. -/
theorem c8_bitcast_roundtrip :
    bitcastScalar dtFloat32 dtUint32 float32_one = .ok (Scalar.i 0x3F800000) ∧
    bitcastScalar dtUint32 dtFloat32 (Scalar.i 0x3F800000) = .ok float32_one ∧
    (∀ bits : Nat, bits < 2 ^ 32 →
      bitcastScalar dtFloat32 dtUint32 (Scalar.f32 bits) = .ok (Scalar.i bits) ∧
      bitcastScalar dtUint32 dtFloat32 (Scalar.i bits) = .ok (Scalar.f32 bits)) ∧
    (∀ (src dst : DType) (x : Scalar) (bits : Nat), src.itemsize = dst.itemsize →
      bitsOf src x = .ok bits → bitcastScalar src dst x = ofBits dst bits) := by
  refine ⟨by decide, by decide, bitcast_f32_u32, ?_⟩
  intro src dst x bits hsz hb
  rw [bitcastScalar, if_pos hsz]
  show (bitsOf src x).bind (fun b => ofBits dst b) = ofBits dst bits
  rw [hb]
  rfl


theorem c8_bitcast_roundtrip_witness :
    bitcastScalar dtUint32 dtFloat32 (Scalar.i 0x3F800000) = .ok (Scalar.f32 0x3F800000) :=
  (c8_bitcast_roundtrip.2.2.1 0x3F800000 (by decide)).2


/-! ## C5: image loads zero-fill out-of-range lanes -/

theorem mapM_ok_of_fn {α β : Type} (f : α → Except Err β) (g : α → β) (l : List α)
    (h : ∀ a ∈ l, f a = .ok (g a)) : l.mapM f = .ok (l.map g) := by
  induction l with
  | nil => rfl
  | cons x t ih =>
    have hx : f x = .ok (g x) := h x (List.mem_cons_self x t)
    have ht := ih (fun a ha => h a (List.mem_cons_of_mem x ha))
    simp only [List.mapM_cons, List.map_cons, bind, Except.bind, pure, Except.pure, hx, ht]


/-- C5: for an image-form LOAD, a lane whose `(ox, oy)` address lies
outside the image's declared `(h, w)` bounds yields 0 without error; an
in-range lane reads the element at texel offset `ox*4 + oy*w*4 + j`;
and a whole image load on lanes that each evaluate without error (in
particular, out-of-range lanes) returns the per-lane values with no
error raised. -/
theorem c5_image_load :
    (∀ (s : Mach) (hw : Nat × Nat) (j : Nat) (m : Val) (ox oy : Int),
      (ox < 0 ∨ (hw.2 : Int) ≤ ox ∨ oy < 0 ∨ (hw.1 : Int) ≤ oy) →
      imageLane s hw j (m, Val.scl (Scalar.i ox), Val.scl (Scalar.i oy)) =
        .ok (Val.scl (Scalar.i 0))) ∧
    (∀ (s : Mach) (hw : Nat × Nat) (j : Nat) (b : BufRef) (ox oy : Int)
        (buf : List Scalar) (v : Scalar),
      ¬ (ox < 0 ∨ (hw.2 : Int) ≤ ox ∨ oy < 0 ∨ (hw.1 : Int) ≤ oy) →
      s.getBuf b = .ok buf →
      pyLoad buf (ox * 4 + oy * (hw.2 : Int) * 4 + (j : Int)) = .ok v →
      imageLane s hw j (Val.mem b, Val.scl (Scalar.i ox), Val.scl (Scalar.i oy)) =
        .ok (Val.scl v)) ∧
    (∀ (s : Mach) (hw : Nat × Nat) (count : Nat) (ms xs ys : List Val)
        (g : Nat → Val × Val × Val → Val),
      (∀ j, j < count → ∀ q ∈ ms.zip (xs.zip ys), imageLane s hw j q = .ok (g j q)) →
      imageLoad s hw count ms xs ys =
        .ok ((List.range count).map (fun j =>
          Val.lst ((ms.zip (xs.zip ys)).map (g j))))) := by
  refine ⟨?_, ?_, ?_⟩
  · intro s hw j m ox oy hoob
    simp only [imageLane, asIntV, bind, Except.bind, pure, Except.pure]
    rw [if_pos hoob]
  · intro s hw j b ox oy buf v hin hbuf hload
    simp only [imageLane, asIntV, asMem, bind, Except.bind, pure, Except.pure]
    rw [if_neg hin, hbuf]
    simp only [hload]
  · intro s hw count ms xs ys g h
    rw [imageLoad]
    apply mapM_ok_of_fn _ (fun j => Val.lst ((ms.zip (xs.zip ys)).map (g j)))
    intro j hj
    have hj' : j < count := List.mem_range.mp hj
    have hmap := mapM_ok_of_fn (imageLane s hw j) (g j) (ms.zip (xs.zip ys)) (h j hj')
    simp only [bind, Except.bind, pure, Except.pure, hmap]


theorem c5_image_load_witness :
    imageLane (initMach [[Scalar.f32 7]] []) (1, 1) 0
      (Val.mem (BufRef.global 0), Val.scl (Scalar.i 5), Val.scl (Scalar.i 0)) =
      .ok (Val.scl (Scalar.i 0)) ∧
    imageLane (initMach [[Scalar.f32 7]] []) (1, 1) 0
      (Val.mem (BufRef.global 0), Val.scl (Scalar.i 0), Val.scl (Scalar.i 0)) =
      .ok (Val.scl (Scalar.f32 7)) :=
  ⟨c5_image_load.1 _ (1, 1) 0 _ 5 0 (by norm_num),
   c5_image_load.2.1 _ (1, 1) 0 (BufRef.global 0) 0 0 [Scalar.f32 7] (Scalar.f32 7)
     (by norm_num) (by decide) (by decide)⟩


/-! ## C7: ALU preconditions and per-lane delegation -/

theorem mapM_asList_lst (lls : List (List Val)) :
    (lls.map Val.lst).mapM asList = .ok lls := by
  induction lls with
  | nil => rfl
  | cons x t ih =>
    simp only [List.map_cons, List.mapM_cons, bind, Except.bind, pure, Except.pure, asList, ih]


theorem mapM_asScl_scl (l : List Scalar) :
    (l.map Val.scl).mapM asScl = .ok l := by
  induction l with
  | nil => rfl
  | cons x t ih =>
    simp only [List.map_cons, List.mapM_cons, bind, Except.bind, pure, Except.pure, asScl, ih]


theorem zipLanes_map {α β : Type} (f : α → β) (ls : List (List α)) :
    zipLanes (ls.map (List.map f)) = (zipLanes ls).map (List.map f) := by
  cases ls with
  | nil => rfl
  | cons l0 t =>
    simp only [zipLanes, List.map_cons, List.length_map, List.map_map]
    refine congrArg (fun F => List.map F (List.range l0.length)) (funext fun j => ?_)
    simp only [Function.comp]
    have hrw : List.map f l0 :: List.map (List.map f) t = List.map (List.map f) (l0 :: t) := rfl
    rw [hrw, List.filterMap_map, List.map_filterMap]
    refine congrArg (fun p => List.filterMap p (l0 :: t)) ?_
    funext l
    simp [List.getElem?_map]


theorem mapM_mapM_asScl (ts : List (List Scalar)) :
    (ts.map (List.map Val.scl)).mapM (fun tup => tup.mapM asScl) = .ok ts := by
  induction ts with
  | nil => rfl
  | cons x t ih =>
    simp only [List.map_cons, List.mapM_cons, mapM_asScl_scl, bind, Except.bind,
      pure, Except.pure, ih]


/-- C7: the ALU handler fails with a fatal ShapeMismatch error unless
all operand lane lists have equal length and, except for the comparison
and select operations (CMPNE, CMPLT, WHERE), all operand dtypes equal
the result dtype; when the precondition holds on scalar lanes, each
lane's result is the external `exec_alu` primitive applied to that
lane's operand tuple. -/
theorem c7_alu_precondition :
    (∀ (ext : ExtOps) (op : ALUOp) (dtype : DType) (lls : List (List Val))
        (dtp : List DType),
      ¬ ((lls.map List.length).all
          (fun n => n = (lls.map List.length).headD 0) = true) →
      aluApply ext op dtype (lls.map Val.lst) dtp = .error .shapeMismatch) ∧
    (∀ (ext : ExtOps) (op : ALUOp) (dtype : DType) (lls : List (List Val))
        (dtp : List DType),
      ((lls.map List.length).all
          (fun n => n = (lls.map List.length).headD 0) = true) →
      ¬ (dtp.all (fun d => d = dtype) = true) → op.isCmpOrWhere = false →
      aluApply ext op dtype (lls.map Val.lst) dtp = .error .shapeMismatch) ∧
    (∀ (ext : ExtOps) (op : ALUOp) (dtype : DType) (slls : List (List Scalar))
        (dtp : List DType),
      ((slls.map List.length).all
          (fun n => n = (slls.map List.length).headD 0) = true) →
      (dtp.all (fun d => d = dtype) = true ∨ op.isCmpOrWhere = true) →
      aluApply ext op dtype (slls.map (fun l => Val.lst (l.map Val.scl))) dtp =
        .ok ((zipLanes slls).map (fun p => Val.scl (ext.exec_alu op dtype p)))) := by
  refine ⟨?_, ?_, ?_⟩
  · intro ext op dtype lls dtp hlen
    simp only [aluApply, mapM_asList_lst, bind, Except.bind]
    rw [if_neg]
    exact hlen
  · intro ext op dtype lls dtp hlen hdt hop
    simp only [aluApply, mapM_asList_lst, bind, Except.bind]
    rw [if_pos hlen, if_neg]
    rw [hop]
    simp only [Bool.false_eq_true, or_false]
    exact hdt
  · intro ext op dtype slls dtp hlen hok
    have hmap : (slls.map (fun l => Val.lst (l.map Val.scl))) =
        ((slls.map (List.map Val.scl)).map Val.lst) := by
      rw [List.map_map]
      rfl
    have hz := zipLanes_map Val.scl slls
    simp only [aluApply, hmap, mapM_asList_lst, bind, Except.bind]
    rw [if_pos, if_pos]
    · rw [hz, mapM_mapM_asScl]
      rfl
    · cases hok with
      | inl h =>
        rw [h]
        simp
      | inr h =>
        rw [h]
        simp
    · have hcomp : (List.length ∘ List.map Val.scl) = (List.length : List Scalar → Nat) := by
        funext a
        simp
      simpa [List.map_map, hcomp] using hlen


theorem c7_alu_precondition_witness :
    aluApply extM ALUOp.add dtInt32
      ([[Scalar.i 1, Scalar.i 2], [Scalar.i 10, Scalar.i 20]].map
        (fun l => Val.lst (l.map Val.scl)))
      [dtInt32, dtInt32] =
      .ok [Val.scl (Scalar.i 11), Val.scl (Scalar.i 22)] :=
  (c7_alu_precondition.2.2 extM ALUOp.add dtInt32
      [[Scalar.i 1, Scalar.i 2], [Scalar.i 10, Scalar.i 20]] [dtInt32, dtInt32]
      (by decide) (Or.inl (by decide))).trans (by decide)


theorem Mach.getBuf_setBuf (s : Mach) (b : BufRef) (buf l : List Scalar)
    (h : s.getBuf b = .ok buf) : (s.setBuf b l).getBuf b = .ok l := by
  cases b with
  | global k =>
    simp only [Mach.getBuf, Mach.setBuf] at h ⊢
    cases hg : s.gbufs.get? k with
    | none =>
      rw [hg] at h
      exact absurd h (by simp)
    | some bufx =>
      obtain ⟨hk, _⟩ := List.get?_eq_some.mp hg
      rw [List.get?_set_eq_of_lt _ hk]
  | loc k =>
    simp only [Mach.getBuf, Mach.setBuf] at h ⊢
    cases hg : s.lbufs.get? k with
    | none =>
      rw [hg] at h
      exact absurd h (by simp)
    | some bufx =>
      obtain ⟨hk, _⟩ := List.get?_eq_some.mp hg
      rw [List.get?_set_eq_of_lt _ hk]


theorem Mach.setBuf_setBuf (s : Mach) (b : BufRef) (x y : List Scalar) :
    (s.setBuf b x).setBuf b y = s.setBuf b y := by
  cases b with
  | global k => simp [Mach.setBuf, List.set_set]
  | loc k => simp [Mach.setBuf, List.set_set]


theorem Mach.setBuf_self (s : Mach) (b : BufRef) (buf : List Scalar)
    (h : s.getBuf b = .ok buf) : s.setBuf b buf = s := by
  cases b with
  | global k =>
    simp only [Mach.getBuf] at h
    cases hg : s.gbufs.get? k with
    | none =>
      rw [hg] at h
      exact absurd h (by simp)
    | some bufx =>
      rw [hg] at h
      have hb : bufx = buf := by
        have := Except.ok.inj h
        exact this
      subst hb
      have hset : s.gbufs.set k bufx = s.gbufs := by
        apply List.ext_get?
        intro n
        by_cases hn : n = k
        · subst hn
          obtain ⟨hk, _⟩ := List.get?_eq_some.mp hg
          rw [List.get?_set_eq_of_lt _ hk, hg]
        · rw [List.get?_set_ne _ _ (fun hh => hn hh.symm)]
      simp [Mach.setBuf, hset]
  | loc k =>
    simp only [Mach.getBuf] at h
    cases hg : s.lbufs.get? k with
    | none =>
      rw [hg] at h
      exact absurd h (by simp)
    | some bufx =>
      rw [hg] at h
      have hb : bufx = buf := Except.ok.inj h
      subst hb
      have hset : s.lbufs.set k bufx = s.lbufs := by
        apply List.ext_get?
        intro n
        by_cases hn : n = k
        · subst hn
          obtain ⟨hk, _⟩ := List.get?_eq_some.mp hg
          rw [List.get?_set_eq_of_lt _ hk, hg]
        · rw [List.get?_set_ne _ _ (fun hh => hn hh.symm)]
      simp [Mach.setBuf, hset]


theorem doStoreLane_false (s : Mach) (m o v : Val) :
    doStoreLane s m o v (Val.scl (Scalar.b false)) = .ok s := rfl


theorem doStoreLane_true (s : Mach) (b : BufRef) (buf : List Scalar) (o : Int) (v : Scalar)
    (hbuf : s.getBuf b = .ok buf) (h0 : 0 ≤ o) (h1 : o < (buf.length : Int)) :
    doStoreLane s (Val.mem b) (Val.scl (Scalar.i o)) (Val.scl v) (Val.scl (Scalar.b true)) =
      .ok (s.setBuf b (buf.set o.toNat v)) := by
  simp only [doStoreLane, Val.truthy, Scalar.truthy, if_true, asMem, asIntV, asScl,
    bind, Except.bind, pure, Except.pure, hbuf]
  rw [pyStore, if_neg]
  omega


theorem gatedFold_length (lanes : List (Int × Scalar × Bool)) (buf : List Scalar) :
    (gatedFold buf lanes).length = buf.length := by
  induction lanes generalizing buf with
  | nil => rfl
  | cons q rest ih =>
    cases hg : q.2.2 with
    | true =>
      simp only [gatedFold, List.foldl_cons, hg, if_true]
      rw [show List.foldl _ (buf.set q.1.toNat q.2.1) rest =
        gatedFold (buf.set q.1.toNat q.2.1) rest from rfl, ih, List.length_set]
    | false =>
      simp only [gatedFold, List.foldl_cons, hg, if_false]
      exact ih buf


theorem gatedFold_get_untouched (lanes : List (Int × Scalar × Bool)) (buf : List Scalar)
    (j : Nat) (h : ∀ p ∈ lanes, p.2.2 = true → p.1.toNat ≠ j) :
    (gatedFold buf lanes).get? j = buf.get? j := by
  induction lanes generalizing buf with
  | nil => rfl
  | cons q rest ih =>
    cases hg : q.2.2 with
    | true =>
      simp only [gatedFold, List.foldl_cons, hg, if_true]
      rw [show List.foldl _ (buf.set q.1.toNat q.2.1) rest =
        gatedFold (buf.set q.1.toNat q.2.1) rest from rfl]
      rw [ih _ (fun p hp hpg => h p (List.mem_cons_of_mem q hp) hpg)]
      exact List.get?_set_ne _ _ (h q (List.mem_cons_self q rest) hg)
    | false =>
      simp only [gatedFold, List.foldl_cons, hg, if_false]
      exact ih buf (fun p hp hpg => h p (List.mem_cons_of_mem q hp) hpg)


theorem gatedFold_get_mem (lanes : List (Int × Scalar × Bool)) (buf : List Scalar)
    (p : Int × Scalar × Bool) (hp : p ∈ lanes) (hg : p.2.2 = true)
    (hdist : lanes.Pairwise (fun a b => a.1 ≠ b.1))
    (hin : ∀ q ∈ lanes, 0 ≤ q.1 ∧ q.1 < (buf.length : Int)) :
    (gatedFold buf lanes).get? p.1.toNat = some p.2.1 := by
  induction lanes generalizing buf with
  | nil => exact absurd hp (List.not_mem_nil p)
  | cons q rest ih =>
    rcases List.mem_cons.mp hp with hq | hrest
    · subst hq
      simp only [gatedFold, List.foldl_cons, hg, if_true]
      rw [show List.foldl _ (buf.set p.1.toNat p.2.1) rest =
        gatedFold (buf.set p.1.toNat p.2.1) rest from rfl]
      rw [gatedFold_get_untouched]
      · obtain ⟨h0, h1⟩ := hin p (List.mem_cons_self p rest)
        exact List.get?_set_eq_of_lt _ (by omega)
      · intro r hr _
        have hne := (List.pairwise_cons.mp hdist).1 r hr
        obtain ⟨h0, _⟩ := hin p (List.mem_cons_self p rest)
        obtain ⟨h0r, _⟩ := hin r (List.mem_cons_of_mem p hr)
        omega
    · have hdist' := (List.pairwise_cons.mp hdist).2
      cases hgq : q.2.2 with
      | true =>
        simp only [gatedFold, List.foldl_cons, hgq, if_true]
        rw [show List.foldl _ (buf.set q.1.toNat q.2.1) rest =
          gatedFold (buf.set q.1.toNat q.2.1) rest from rfl]
        apply ih (buf.set q.1.toNat q.2.1) hrest hdist'
        intro r hr
        obtain ⟨h0, h1⟩ := hin r (List.mem_cons_of_mem q hr)
        rw [List.length_set]
        exact ⟨h0, h1⟩
      | false =>
        simp only [gatedFold, List.foldl_cons, hgq, if_false]
        exact ih buf hrest hdist' (fun r hr => hin r (List.mem_cons_of_mem q hr))


theorem storeScalarLanes_spec (lanes : List (Int × Scalar × Bool)) (s : Mach)
    (b : BufRef) (buf : List Scalar) (hbuf : s.getBuf b = .ok buf)
    (hin : ∀ p ∈ lanes, 0 ≤ p.1 ∧ p.1 < (buf.length : Int)) :
    storeScalarLanes s (lanes.map (fun p =>
      (Val.mem b, Val.scl (Scalar.i p.1), Val.scl p.2.1, Val.scl (Scalar.b p.2.2)))) =
      .ok (s.setBuf b (gatedFold buf lanes)) := by
  induction lanes generalizing s buf with
  | nil =>
    show Except.ok s = Except.ok (s.setBuf b buf)
    rw [Mach.setBuf_self s b buf hbuf]
  | cons q rest ih =>
    obtain ⟨h0, h1⟩ := hin q (List.mem_cons_self q rest)
    cases hg : q.2.2 with
    | true =>
      have hlane := doStoreLane_true s b buf q.1 q.2.1 hbuf h0 h1
      simp only [storeScalarLanes, List.map_cons, List.foldlM_cons, hg] at hlane ⊢
      rw [hlane]
      simp only [bind, Except.bind]
      have hbuf' := Mach.getBuf_setBuf s b buf (buf.set q.1.toNat q.2.1) hbuf
      have ihh := ih (s.setBuf b (buf.set q.1.toNat q.2.1)) (buf.set q.1.toNat q.2.1) hbuf'
        (fun p hp => by
          obtain ⟨a0, a1⟩ := hin p (List.mem_cons_of_mem q hp)
          rw [List.length_set]
          exact ⟨a0, a1⟩)
      simp only [storeScalarLanes] at ihh
      rw [ihh, Mach.setBuf_setBuf]
      show _ = Except.ok (s.setBuf b (gatedFold buf (q :: rest)))
      simp only [gatedFold, List.foldl_cons, hg, eq_self_iff_true, if_true]
    | false =>
      simp only [storeScalarLanes, List.map_cons, List.foldlM_cons, hg]
      rw [doStoreLane_false]
      simp only [bind, Except.bind]
      have ihh := ih s buf hbuf (fun p hp => hin p (List.mem_cons_of_mem q hp))
      simp only [storeScalarLanes] at ihh
      rw [ihh]
      show _ = Except.ok (s.setBuf b (gatedFold buf (q :: rest)))
      simp only [gatedFold, List.foldl_cons, hg, Bool.false_eq_true, if_false]


/-- C4 counterexample: in a two-lane scalar store where both lanes
target element 0 of the same buffer, lane 0 has gate false and lane 1
has gate true; the claim says lane 0's target element is left
byte-for-byte unchanged (it held 5), but the store leaves it holding 9. -/
theorem c4_store_gate_counterexample :
    (match storeScalarLanes (initMach [[Scalar.i 5]] [])
        [(Val.mem (BufRef.global 0), Val.scl (Scalar.i 0), Val.scl (Scalar.i 7),
          Val.scl (Scalar.b false)),
         (Val.mem (BufRef.global 0), Val.scl (Scalar.i 0), Val.scl (Scalar.i 9),
          Val.scl (Scalar.b true))] with
      | .ok s' => s'.gbufs
      | .error _ => []) = [[Scalar.i 9]] ∧
    ¬ ([[Scalar.i 9]] = [[(Scalar.i 5 : Scalar)]]) := by decide


/-- C4 (amended): for a scalar STORE on in-bounds lanes all targeting
one buffer, the lane loop realizes exactly the in-order gated fold
`gatedFold`; when additionally the lanes' offsets are pairwise
distinct, a lane whose gate is false leaves its target element
unchanged and a lane whose gate is true leaves its value in its target
element; and a STORE with no gate operand behaves as one whose every
lane has gate true. -/
theorem c4_store_gate :
    (∀ (lanes : List (Int × Scalar × Bool)) (s : Mach) (b : BufRef) (buf : List Scalar),
      s.getBuf b = .ok buf →
      (∀ p ∈ lanes, 0 ≤ p.1 ∧ p.1 < (buf.length : Int)) →
      storeScalarLanes s (lanes.map (fun p =>
        (Val.mem b, Val.scl (Scalar.i p.1), Val.scl p.2.1, Val.scl (Scalar.b p.2.2)))) =
        .ok (s.setBuf b (gatedFold buf lanes))) ∧
    (∀ (lanes : List (Int × Scalar × Bool)) (buf : List Scalar),
      (∀ p ∈ lanes, 0 ≤ p.1 ∧ p.1 < (buf.length : Int)) →
      lanes.Pairwise (fun a b => a.1 ≠ b.1) →
      ∀ p ∈ lanes,
        (p.2.2 = false → (gatedFold buf lanes).get? p.1.toNat = buf.get? p.1.toNat) ∧
        (p.2.2 = true → (gatedFold buf lanes).get? p.1.toNat = some p.2.1)) ∧
    (∀ (s : Mach) (v0 v1 v2 : Val) (dtp : List DType) (l0 : List Val),
      asList v0 = .ok l0 →
      stepStore s [v0, v1, v2] dtp =
        stepStore s [v0, v1, v2,
          Val.lst (List.replicate l0.length (Val.scl (Scalar.b true)))] dtp) := by
  refine ⟨storeScalarLanes_spec, ?_, ?_⟩
  · intro lanes buf hin hdist p hp
    constructor
    · intro hgf
      apply gatedFold_get_untouched
      intro r hr hrg
      intro hcon
      have hrp : r ≠ p := by
        intro hh
        subst hh
        rw [hrg] at hgf
        exact Bool.noConfusion hgf
      have hsym : Symmetric (fun a b : Int × Scalar × Bool => a.1 ≠ b.1) :=
        fun a b h => fun hh => h hh.symm
      have hne := List.Pairwise.forall hsym hdist hr hp hrp
      obtain ⟨h0r, _⟩ := hin r hr
      obtain ⟨h0p, _⟩ := hin p hp
      omega
    · intro hgt
      exact gatedFold_get_mem lanes buf p hp hgt hdist hin
  · intro s v0 v1 v2 dtp l0 hl0
    simp only [stepStore, List.length_cons, List.length_nil, listGet, List.get?,
      bind, Except.bind, pure, Except.pure, hl0]
    norm_num


theorem c4_store_gate_witness :
    storeScalarLanes (initMach [[Scalar.i 5, Scalar.i 6]] [])
      ([((0 : Int), Scalar.i 7, false), ((1 : Int), Scalar.i 9, true)].map (fun p =>
        (Val.mem (BufRef.global 0), Val.scl (Scalar.i p.1), Val.scl p.2.1,
          Val.scl (Scalar.b p.2.2)))) =
      .ok ((initMach [[Scalar.i 5, Scalar.i 6]] []).setBuf (BufRef.global 0)
        (gatedFold [Scalar.i 5, Scalar.i 6]
          [((0 : Int), Scalar.i 7, false), ((1 : Int), Scalar.i 9, true)])) :=
  c4_store_gate.1 [((0 : Int), Scalar.i 7, false), ((1 : Int), Scalar.i 9, true)]
    (initMach [[Scalar.i 5, Scalar.i 6]] []) (BufRef.global 0) [Scalar.i 5, Scalar.i 6]
    (by decide) (by decide)


/-- C9: a DEFINE_LOCAL allocation is freshly appended to the
coordinate's arena, zero-filled, and leaves the global buffers and all
existing local buffers untouched; every coordinate's run starts from a
context whose local-buffer arena (and value table) is empty, so no
write of a previous coordinate can be visible; concretely, in the
two-coordinate probe program the second coordinate reads 0, not the 7
stored by the first. -/
theorem c9_local_fresh :
    (∀ (ws : Nat) (s : Mach) (sz : Nat) (dt : DType),
      (allocLocal ws s sz dt).lbufs = s.lbufs ++ [List.replicate sz dt.zeroScalar] ∧
      (allocLocal ws s sz dt).gbufs = s.gbufs ∧
      (∀ k, k < s.lbufs.length →
        (allocLocal ws s sz dt).lbufs.get? k = s.lbufs.get? k) ∧
      alook (allocLocal ws s sz dt).ul s.i =
        some (Val.lst (List.replicate ws (Val.mem (BufRef.loc s.lbufs.length))))) ∧
    (∀ (g : List (List Scalar)) (vals : List Int),
      (initMach g vals).lbufs = [] ∧ (initMach g vals).ul = []) ∧
    (∀ (ext : ExtOps) (P : List Instr) (warp : List (List Nat)) (vals : List Int)
        (fuel : Nat) (c : List Nat) (rest : List (List Nat)) (g : List (List Scalar)),
      runCoords ext P warp vals fuel (c :: rest) g =
        match runL ext P warp c fuel (initMach g vals) with
        | .done s => runCoords ext P warp vals fuel rest s.gbufs
        | .fail e => .fail e
        | .more _ => .out) ∧
    (pyCall extM localProbe [[Scalar.i 5, Scalar.i 5]] (2, 1, 1) (1, 1, 1) [] 20 =
        .ok [[Scalar.i 0, Scalar.i 0]] ∧
      ¬ (pyCall extM localProbe [[Scalar.i 5, Scalar.i 5]] (2, 1, 1) (1, 1, 1) [] 20 =
        .ok [[Scalar.i 0, Scalar.i 7]])) := by
  refine ⟨?_, fun g vals => ⟨rfl, rfl⟩, fun ext P warp vals fuel c rest g => rfl, by decide⟩
  intro ws s sz dt
  refine ⟨rfl, rfl, ?_, ?_⟩
  · intro k hk
    exact List.get?_append hk
  · rw [allocLocal]
    show alook (ains s.ul s.i _) s.i = _
    rw [alook_ains, if_pos rfl]


theorem c9_local_fresh_witness :
    (allocLocal 2 (initMach [[Scalar.i 1]] []) 3 dtInt32).lbufs =
      [List.replicate 3 (Scalar.i 0)] :=
  ((c9_local_fresh.1 2 (initMach [[Scalar.i 1]] []) 3 dtInt32).1).trans (by decide)


/-! ## C10: determinism of the invocation -/

theorem runCoords_ok_mono (ext : ExtOps) (P : List Instr) (warp : List (List Nat))
    (vals : List Int) (fuel k : Nat) (coords : List (List Nat))
    (g bufs : List (List Scalar))
    (h : runCoords ext P warp vals fuel coords g = .ok bufs) :
    runCoords ext P warp vals (fuel + k) coords g = .ok bufs := by
  induction coords generalizing g with
  | nil => exact h
  | cons c rest ih =>
    simp only [runCoords] at h ⊢
    cases hr : runL ext P warp c fuel (initMach g vals) with
    | done s =>
      rw [hr] at h
      rw [runL_done_mono _ _ _ _ _ _ _ _ hr]
      exact ih _ h
    | fail e =>
      rw [hr] at h
      exact absurd h (by simp)
    | more s =>
      rw [hr] at h
      exact absurd h (by simp)


theorem runCoords_fail_mono (ext : ExtOps) (P : List Instr) (warp : List (List Nat))
    (vals : List Int) (fuel k : Nat) (coords : List (List Nat))
    (g : List (List Scalar)) (e : Err)
    (h : runCoords ext P warp vals fuel coords g = .fail e) :
    runCoords ext P warp vals (fuel + k) coords g = .fail e := by
  induction coords generalizing g with
  | nil => exact absurd h (by simp [runCoords])
  | cons c rest ih =>
    simp only [runCoords] at h ⊢
    cases hr : runL ext P warp c fuel (initMach g vals) with
    | done s =>
      rw [hr] at h
      rw [runL_done_mono _ _ _ _ _ _ _ _ hr]
      exact ih _ h
    | fail e' =>
      rw [hr] at h
      rw [runL_fail_mono _ _ _ _ _ _ _ _ hr]
      exact h
    | more s =>
      rw [hr] at h
      exact absurd h (by simp)


/-- C10: execution is deterministic — the buffer outcome of a call is a
pure function of the instruction list, initial buffers, sizes and
scalar values: it is unaffected by the wall-clock readings (only the
returned elapsed time reflects them), it is stable under giving the
run more fuel (two terminating executions agree, and a failing
execution keeps failing with the same error), and the coordinates are
iterated in the one fixed product order of the reversed global size. -/
theorem c10_deterministic :
    (∀ (ext : ExtOps) (P : List Instr) (bufs : List (List Scalar))
        (gs ls : Nat × Nat × Nat) (vals : List Int) (fuel : Nat) (t0 t1 t0' t1' : ℚ),
      (pyCallTimed ext P bufs gs ls vals fuel t0 t1).1 =
        (pyCallTimed ext P bufs gs ls vals fuel t0' t1').1) ∧
    (∀ (ext : ExtOps) (P : List Instr) (bufs : List (List Scalar))
        (gs ls : Nat × Nat × Nat) (vals : List Int) (fuel : Nat) (t0 t1 : ℚ),
      (pyCallTimed ext P bufs gs ls vals fuel t0 t1).2 = t1 - t0) ∧
    (∀ (ext : ExtOps) (P : List Instr) (bufs : List (List Scalar))
        (gs ls : Nat × Nat × Nat) (vals : List Int) (fuel k : Nat)
        (out : List (List Scalar)),
      pyCall ext P bufs gs ls vals fuel = .ok out →
      pyCall ext P bufs gs ls vals (fuel + k) = .ok out) ∧
    (∀ (ext : ExtOps) (P : List Instr) (bufs : List (List Scalar))
        (gs ls : Nat × Nat × Nat) (vals : List Int) (fuel k : Nat) (e : Err),
      pyCall ext P bufs gs ls vals fuel = .fail e →
      pyCall ext P bufs gs ls vals (fuel + k) = .fail e) ∧
    (∀ (ext : ExtOps) (P : List Instr) (bufs : List (List Scalar))
        (gs ls : Nat × Nat × Nat) (vals : List Int) (fuel : Nat),
      pyCall ext P bufs gs ls vals fuel =
        runCoords ext P (pyProd3 ls.2.2 ls.2.1 ls.1) vals fuel
          (pyProd3 gs.2.2 gs.2.1 gs.1) bufs) :=
  ⟨fun _ _ _ _ _ _ _ _ _ _ _ => rfl,
   fun _ _ _ _ _ _ _ _ _ => rfl,
   fun ext P bufs gs ls vals fuel k out h =>
     runCoords_ok_mono ext P _ vals fuel k _ bufs out h,
   fun ext P bufs gs ls vals fuel k e h =>
     runCoords_fail_mono ext P _ vals fuel k _ bufs e h,
   fun _ _ _ _ _ _ _ => rfl⟩


theorem c10_deterministic_witness :
    pyCall extM localProbe [[Scalar.i 5, Scalar.i 5]] (2, 1, 1) (1, 1, 1) [] 25 =
      .ok [[Scalar.i 0, Scalar.i 0]] :=
  c10_deterministic.2.2.1 extM localProbe [[Scalar.i 5, Scalar.i 5]] (2, 1, 1) (1, 1, 1)
    [] 20 5 [[Scalar.i 0, Scalar.i 0]] (by decide)




/-- One while-loop iteration from a running position. -/
theorem runL_one (ext : ExtOps) (P : List Instr) (warp : List (List Nat)) (idxs : List Nat)
    (s s' : Mach) (hlt : s.i < P.length) (hstep : step ext P warp idxs s = .ok s') :
    runL ext P warp idxs 1 s = .more s' := by
  rw [runL, if_pos hlt, hstep]
  rfl


theorem lp_start (N : Int) :
    runL extM (loopProg N) lpWarp [0, 0, 0] 8 (initMach [] []) = .more (lpB N 0) := rfl


theorem lp_cycle_step (N : Int) (k : Nat) (h : ¬ ((k : Int) + 1 = N)) :
    step extM (loopProg N) lpWarp [0, 0, 0] (lpB N k) = .ok (lpC N k) := by
  simp [step, resolveOps, dispatch, loopProg, lpB, lpC, lpL, lpD, eq_false h, alook, ains,
    listGet, asList, asIntV, bind, Except.bind, pure, Except.pure, List.mapM.loop,
    List.filter, UOpK.isVoid, List.getElem?_cons_zero, List.getElem?_cons_succ,
    List.getElem?_nil]


theorem lp_body (N : Int) (k : Nat) :
    runL extM (loopProg N) lpWarp [0, 0, 0] 4 (lpC N k) = .more (lpB N (k + 1)) := rfl


theorem lp_exit_step (N : Int) (k : Nat) (h : (k : Int) + 1 = N) :
    step extM (loopProg N) lpWarp [0, 0, 0] (lpB N k) = .ok (lpE N k) := by
  simp [step, resolveOps, dispatch, loopProg, lpB, lpE, lpL, lpD, eq_true h, alook, ains,
    adel, listGet, asList, asIntV, bind, Except.bind, pure, Except.pure, List.mapM.loop,
    List.filter, UOpK.isVoid, List.getElem?_cons_zero, List.getElem?_cons_succ,
    List.getElem?_nil]


theorem lp_cycle (N : Int) (k : Nat) (h : ¬ ((k : Int) + 1 = N)) :
    runL extM (loopProg N) lpWarp [0, 0, 0] 5 (lpB N k) = .more (lpB N (k + 1)) := by
  have h1 : runL extM (loopProg N) lpWarp [0, 0, 0] 1 (lpB N k) = .more (lpC N k) :=
    runL_one _ _ _ _ _ _ (by show (3 : Nat) < 8; decide) (lp_cycle_step N k h)
  rw [show (5 : Nat) = 1 + 4 from rfl, runL_add, h1]
  exact lp_body N k


theorem lp_finish (N : Int) (k : Nat) (h : (k : Int) + 1 = N) :
    runL extM (loopProg N) lpWarp [0, 0, 0] 2 (lpB N k) = .done (lpE N k) := by
  have h1 : runL extM (loopProg N) lpWarp [0, 0, 0] 1 (lpB N k) = .more (lpE N k) :=
    runL_one _ _ _ _ _ _ (by show (3 : Nat) < 8; decide) (lp_exit_step N k h)
  rw [show (2 : Nat) = 1 + 1 from rfl, runL_add, h1]
  rfl


theorem lp_run (N : Int) (j : Nat) : ∀ (k : Nat), ((k : Int) + (j : Int) + 1 = N) →
    runL extM (loopProg N) lpWarp [0, 0, 0] (5 * j + 2) (lpB N k) = .done (lpE N (k + j)) := by
  induction j with
  | zero =>
    intro k hk
    simp only [Nat.cast_zero, add_zero] at hk ⊢
    exact lp_finish N k hk
  | succ j ih =>
    intro k hk
    have hne : ¬ ((k : Int) + 1 = N) := by
      push_cast at hk
      omega
    have hk' : ((k + 1 : Nat) : Int) + (j : Int) + 1 = N := by
      push_cast at hk ⊢
      omega
    have hadd : 5 * (j + 1) + 2 = 5 + (5 * j + 2) := by omega
    rw [hadd, runL_add, lp_cycle N k hne]
    show runL extM (loopProg N) lpWarp [0, 0, 0] (5 * j + 2) (lpB N (k + 1)) =
      RunRes.done (lpE N (k + (j + 1)))
    rw [ih (k + 1) hk']
    have hkk : k + 1 + j = k + (j + 1) := by omega
    rw [hkk]


theorem lp0_cycles (m : Nat) :
    runL extM (loopProg 0) lpWarp [0, 0, 0] (8 + 5 * m) (initMach [] []) = .more (lpB 0 m) := by
  induction m with
  | zero => exact lp_start 0
  | succ m ih =>
    have hadd : 8 + 5 * (m + 1) = (8 + 5 * m) + 5 := by omega
    rw [hadd, runL_add, ih]
    show runL extM (loopProg 0) lpWarp [0, 0, 0] 5 (lpB 0 m) = _
    exact lp_cycle 0 m (by omega)


theorem runL_more_le (ext : ExtOps) (P : List Instr) (warp : List (List Nat))
    (idxs : List Nat) (n j : Nat) (s s' : Mach) (hj : j ≤ n)
    (h : runL ext P warp idxs n s = .more s') :
    ∃ s'', runL ext P warp idxs j s = .more s'' := by
  have hn : n = j + (n - j) := by omega
  rw [hn, runL_add] at h
  cases hr : runL ext P warp idxs j s with
  | done d =>
    rw [hr] at h
    exact absurd h (by simp)
  | fail e =>
    rw [hr] at h
    exact absurd h (by simp)
  | more s'' => exact ⟨s'', rfl⟩


theorem lp0_diverges (fuel : Nat) :
    ∃ s, runL extM (loopProg 0) lpWarp [0, 0, 0] fuel (initMach [] []) = .more s :=
  runL_more_le _ _ _ _ (8 + 5 * fuel) fuel _ _ (by omega) (lp0_cycles fuel)


/-- C2 counterexample: with bound N = 0 the claim says the loop body
executes zero times and the run finishes with accumulator 0; in fact
after 10 steps the accumulator already holds 1 in both lanes (the body
has executed once), and for every amount of fuel the run is still going
(the loop never terminates, so it never finishes at all). -/
theorem c2_loop_counterexample :
    (match runL extM (loopProg 0) lpWarp [0, 0, 0] 10 (initMach [] []) with
      | .more s => alook s.ul 2
      | _ => none) =
      some (Val.lst [Val.scl (Scalar.i 1), Val.scl (Scalar.i 1)]) ∧
    (∀ fuel : Nat, ∃ s,
      runL extM (loopProg 0) lpWarp [0, 0, 0] fuel (initMach [] []) = .more s) :=
  ⟨by decide, lp0_diverges⟩


/-- C2 (amended): for every N ≥ 1, the single-loop program seeded at 0
with bound N whose body increments the accumulator by 1 via in-place
ASSIGN terminates with the accumulator holding exactly N in every lane
(warp width 2 here), the loop variable retired. For N = 0 the loop
never terminates (see the counterexample), so the body does not execute
zero times as claimed. -/
theorem c2_loop_accumulator (N : Nat) (hN : 1 ≤ N) :
    ∃ s : Mach,
      runL extM (loopProg (N : Int)) lpWarp [0, 0, 0] (5 * N + 5) (initMach [] []) =
        .done s ∧
      alook s.ul 2 =
        some (Val.lst [Val.scl (Scalar.i (N : Int)), Val.scl (Scalar.i (N : Int))]) ∧
      alook s.ul 3 = none := by
  refine ⟨lpE (N : Int) (N - 1), ?_, ?_, rfl⟩
  · have h8 : 5 * N + 5 = 8 + (5 * (N - 1) + 2) := by omega
    rw [h8, runL_add, lp_start (N : Int)]
    show runL extM (loopProg (N : Int)) lpWarp [0, 0, 0] (5 * (N - 1) + 2) (lpB (N : Int) 0) = _
    have hr := lp_run (N : Int) (N - 1) 0 (by omega)
    rw [hr, Nat.zero_add]
  · show some (lpL ((((N - 1 : Nat)) : Int) + 1)) = _
    have hc : (((N - 1 : Nat)) : Int) + 1 = (N : Int) := by omega
    rw [hc]
    rfl


theorem c2_loop_accumulator_witness :
    ∃ s : Mach,
      runL extM (loopProg ((3 : Nat) : Int)) lpWarp [0, 0, 0] (5 * 3 + 5) (initMach [] []) =
        .done s ∧
      alook s.ul 2 =
        some (Val.lst [Val.scl (Scalar.i ((3 : Nat) : Int)),
          Val.scl (Scalar.i ((3 : Nat) : Int))]) ∧
      alook s.ul 3 = none :=
  c2_loop_accumulator 3 (by decide)


/-! ## C1: termination of an invocation -/

/-- C1 counterexample: `loopProg 0` contains no load or store at all
(so every load/store index is vacuously in bounds), yet a call on it
never terminates — for every amount of fuel the invocation is still
running (it neither returns nor raises): the RANGE handler only tests
its bound on re-visits, so a loop whose bound is never reached by the
incrementing counter runs forever. -/
theorem c1_call_counterexample :
    pyCall extM (loopProg 0) [] (1, 1, 1) (2, 1, 1) [] 100 = CallRes.out ∧
    ∀ fuel : Nat,
      pyCall extM (loopProg 0) [] (1, 1, 1) (2, 1, 1) [] fuel = CallRes.out := by
  have hall : ∀ fuel : Nat,
      pyCall extM (loopProg 0) [] (1, 1, 1) (2, 1, 1) [] fuel = CallRes.out := by
    intro fuel
    obtain ⟨s, hs⟩ := lp0_diverges fuel
    show runCoords extM (loopProg 0) lpWarp [] fuel [[0, 0, 0]] [] = CallRes.out
    simp only [runCoords]
    rw [hs]
  exact ⟨hall 100, hall⟩


theorem Steps_refl (ext : ExtOps) (P : List Instr) (warp : List (List Nat))
    (idxs : List Nat) (s : Mach) : Steps ext P warp idxs s s :=
  ⟨0, rfl⟩


theorem Steps_trans {ext : ExtOps} {P : List Instr} {warp : List (List Nat)}
    {idxs : List Nat} {s s1 s2 : Mach} (h1 : Steps ext P warp idxs s s1)
    (h2 : Steps ext P warp idxs s1 s2) : Steps ext P warp idxs s s2 := by
  obtain ⟨n1, h1⟩ := h1
  obtain ⟨n2, h2⟩ := h2
  exact ⟨n1 + n2, by rw [runL_add, h1]; exact h2⟩


theorem Steps.single {ext : ExtOps} {P : List Instr} {warp : List (List Nat)}
    {idxs : List Nat} {s s' : Mach} (hlt : s.i < P.length)
    (h : step ext P warp idxs s = .ok s') : Steps ext P warp idxs s s' :=
  ⟨1, runL_one _ _ _ _ _ _ hlt h⟩


theorem Fails.of_step {ext : ExtOps} {P : List Instr} {warp : List (List Nat)}
    {idxs : List Nat} {s : Mach} {e : Err} (hlt : s.i < P.length)
    (h : step ext P warp idxs s = .error e) : Fails ext P warp idxs s :=
  ⟨1, e, by rw [runL, if_pos hlt, h]⟩


theorem Fails.of_steps {ext : ExtOps} {P : List Instr} {warp : List (List Nat)}
    {idxs : List Nat} {s s' : Mach} (h1 : Steps ext P warp idxs s s')
    (h2 : Fails ext P warp idxs s') : Fails ext P warp idxs s := by
  obtain ⟨n1, h1⟩ := h1
  obtain ⟨n2, e, h2⟩ := h2
  exact ⟨n1 + n2, e, by rw [runL_add, h1]; exact h2⟩


theorem mapM_ok_mem {α β : Type} (f : α → Except Err β) (l : List α) (l' : List β)
    (h : l.mapM f = .ok l') : ∀ b ∈ l', ∃ a ∈ l, f a = .ok b := by
  induction l generalizing l' with
  | nil =>
    cases h
    intro b hb
    exact absurd hb (List.not_mem_nil b)
  | cons x t ih =>
    rw [List.mapM_cons] at h
    cases hx : f x with
    | error e =>
      rw [hx] at h
      exact absurd h (by simp [bind, Except.bind])
    | ok y =>
      rw [hx] at h
      simp only [bind, Except.bind] at h
      cases ht : t.mapM f with
      | error e =>
        rw [ht] at h
        exact absurd h (by simp)
      | ok ys =>
        rw [ht] at h
        simp only [pure, Except.pure] at h
        cases h
        intro b hb
        rcases List.mem_cons.mp hb with hb | hb
        · exact ⟨x, List.mem_cons_self x t, by rw [hx, hb]⟩
        · obtain ⟨a, ha, hfa⟩ := ih ys ht b hb
          exact ⟨a, List.mem_cons_of_mem x ha, hfa⟩


theorem resolveOps_live_mem (P : List Instr) (s : Mach) (ins : Instr)
    (live : List (Nat × UOpK)) (inp : List Val) (dtp : List DType)
    (h : resolveOps P s ins = .ok (live, inp, dtp)) :
    ∀ q ∈ live, q.1 ∈ ins.idp ∧ (¬ q.2.isVoid = true) ∧
      ∃ insq, P.get? q.1 = some insq ∧ insq.uop = q.2 := by
  unfold resolveOps at h
  rcases htrim : (if ins.uop = UOpK.DEFINE_ACC then
      match ins.idp with
      | [] => Except.error Err.typeErr
      | v :: _ => pure [v]
    else pure ins.idp) with e | idp'
  · rw [htrim] at h
    exact absurd h (by simp [bind, Except.bind])
  · rw [htrim] at h
    simp only [bind, Except.bind] at h
    have hsub : ∀ v ∈ idp', v ∈ ins.idp := by
      intro v hv
      by_cases hacc : ins.uop = UOpK.DEFINE_ACC
      · rw [if_pos hacc] at htrim
        cases hip : ins.idp with
        | nil =>
          rw [hip] at htrim
          exact absurd htrim (by simp)
        | cons a t =>
          rw [hip] at htrim
          simp only [pure, Except.pure, Except.ok.injEq] at htrim
          rw [← htrim] at hv
          have hva : v = a := List.mem_singleton.mp hv
          rw [hva]
          exact List.mem_cons_self a t
      · rw [if_neg hacc] at htrim
        simp only [pure, Except.pure, Except.ok.injEq] at htrim
        rw [← htrim] at hv
        exact hv
    cases hl0 : idp'.mapM (fun v =>
        match P.get? v with
        | some insv => Except.ok (v, insv.uop)
        | none => Except.error Err.typeErr) with
    | error e =>
      simp only [hl0] at h
      exact absurd h (by simp)
    | ok live0 =>
      simp only [hl0] at h
      cases hin : (live0.filter (fun p => !p.2.isVoid)).mapM (fun p =>
          match alook s.ul p.1 with
          | some x => Except.ok x
          | none => Except.error Err.unresolved) with
      | error e =>
        simp only [hin] at h
        exact absurd h (by simp)
      | ok inpv =>
        simp only [hin] at h
        cases hdt : (live0.filter (fun p => !p.2.isVoid)).mapM (fun p =>
            match alook s.dl p.1 with
            | some d => Except.ok d
            | none => Except.error Err.unresolved) with
        | error e =>
          simp only [hdt] at h
          exact absurd h (by simp)
        | ok dtpv =>
          simp only [hdt, pure, Except.pure, Except.ok.injEq, Prod.mk.injEq] at h
          obtain ⟨hlive, hinp, hdtp⟩ := h
          intro q hq
          rw [← hlive] at hq
          have hq0 := List.mem_filter.mp hq
          obtain ⟨a, ha, hfa⟩ := mapM_ok_mem _ _ _ hl0 q hq0.1
          cases hget : P.get? a with
          | none =>
            rw [hget] at hfa
            exact absurd hfa (by simp)
          | some insa =>
            rw [hget] at hfa
            have hqa := Except.ok.inj hfa
            cases hqa
            exact ⟨hsub a ha, by simpa using hq0.2, insa, hget, rfl⟩


theorem resolveOps_pair_inv (P : List Instr) (s : Mach) (ins : Instr)
    (live : List (Nat × UOpK)) (inp : List Val) (dtp : List DType)
    (h : resolveOps P s ins = .ok (live, inp, dtp))
    (hacc : ins.uop ≠ UOpK.DEFINE_ACC)
    (c0 c1 : Nat) (hidp : ins.idp = [c0, c1])
    (i0 i1 : Instr) (h0 : P.get? c0 = some i0) (h1 : P.get? c1 = some i1)
    (hnv0 : i0.uop.isVoid = false) (hnv1 : i1.uop.isVoid = false) :
    ∃ v0 v1 d0 d1, alook s.ul c0 = some v0 ∧ alook s.ul c1 = some v1 ∧
      alook s.dl c0 = some d0 ∧ alook s.dl c1 = some d1 ∧
      live = [(c0, i0.uop), (c1, i1.uop)] ∧ inp = [v0, v1] ∧ dtp = [d0, d1] := by
  unfold resolveOps at h
  rw [if_neg hacc, hidp] at h
  simp only [pure, Except.pure, bind, Except.bind, List.mapM_cons, List.mapM_nil, h0, h1,
    List.filter_cons, List.filter_nil, hnv0, hnv1, Bool.not_false, if_true] at h
  rcases ha0 : alook s.ul c0 with _ | v0
  · simp only [ha0] at h
    exact absurd h (by simp)
  · simp only [ha0] at h
    rcases ha1 : alook s.ul c1 with _ | v1
    · simp only [ha1] at h
      exact absurd h (by simp)
    · simp only [ha1] at h
      rcases hd0 : alook s.dl c0 with _ | d0
      · simp only [hd0] at h
        exact absurd h (by simp)
      · simp only [hd0] at h
        rcases hd1 : alook s.dl c1 with _ | d1
        · simp only [hd1] at h
          exact absurd h (by simp)
        · simp only [hd1, Except.ok.injEq, Prod.mk.injEq] at h
          obtain ⟨hl, hi, hd⟩ := h
          exact ⟨v0, v1, d0, d1, rfl, rfl, rfl, rfl, hl.symm, hi.symm, hd.symm⟩


theorem SameCtrl_refl (st : Mach) : SameCtrl st st := ⟨rfl, rfl, rfl, rfl, rfl, rfl⟩


theorem SameCtrl_trans {s1 s2 s3 : Mach} (h1 : SameCtrl s1 s2) (h2 : SameCtrl s2 s3) :
    SameCtrl s1 s3 :=
  ⟨h2.1.trans h1.1, h2.2.1.trans h1.2.1, h2.2.2.1.trans h1.2.2.1,
    h2.2.2.2.1.trans h1.2.2.2.1, h2.2.2.2.2.1.trans h1.2.2.2.2.1,
    h2.2.2.2.2.2.trans h1.2.2.2.2.2⟩


theorem setBuf_ctrl (st : Mach) (b : BufRef) (l : List Scalar) :
    SameCtrl st (st.setBuf b l) := by
  cases b with
  | global k => exact ⟨rfl, rfl, rfl, rfl, rfl, rfl⟩
  | loc k => exact ⟨rfl, rfl, rfl, rfl, rfl, rfl⟩


theorem foldlM_ctrl {α : Type} (f : Mach → α → Except Err Mach)
    (hf : ∀ st x st', f st x = .ok st' → SameCtrl st st')
    (l : List α) : ∀ (st st' : Mach), l.foldlM f st = .ok st' → SameCtrl st st' := by
  induction l with
  | nil =>
    intro st st' h
    simp only [List.foldlM_nil, pure, Except.pure, Except.ok.injEq] at h
    rw [← h]
    exact SameCtrl_refl st
  | cons x t ih =>
    intro st st' h
    rw [List.foldlM_cons] at h
    cases hx : f st x with
    | error e =>
      rw [hx] at h
      exact absurd h (by simp [bind, Except.bind])
    | ok st1 =>
      rw [hx] at h
      simp only [bind, Except.bind] at h
      exact SameCtrl_trans (hf st x st1 hx) (ih st1 st' h)


theorem doStoreLane_ctrl (st : Mach) (m o v g : Val) (st' : Mach)
    (h : doStoreLane st m o v g = .ok st') : SameCtrl st st' := by
  unfold doStoreLane at h
  by_cases hg : g.truthy
  · rw [if_pos hg] at h
    rcases hm : asMem m with e | b
    · simp only [hm, bind, Except.bind] at h
      exact absurd h (by simp)
    · simp only [hm, bind, Except.bind] at h
      rcases ho : asIntV o with e | oi
      · simp only [ho] at h
        exact absurd h (by simp)
      · simp only [ho] at h
        rcases hv : asScl v with e | vv
        · simp only [hv] at h
          exact absurd h (by simp)
        · simp only [hv] at h
          rcases hb : st.getBuf b with e | buf
          · simp only [hb] at h
            exact absurd h (by simp)
          · simp only [hb] at h
            rcases hs : pyStore buf oi vv with e | buf'
            · simp only [hs] at h
              exact absurd h (by simp)
            · simp only [hs, pure, Except.pure, Except.ok.injEq] at h
              rw [← h]
              exact setBuf_ctrl st b buf'
  · rw [if_neg hg] at h
    simp only [pure, Except.pure, Except.ok.injEq] at h
    rw [← h]
    exact SameCtrl_refl st


theorem imageStoreLane_ctrl (hw : Nat × Nat) (j : Nat) (st2 : Mach)
    (q : Val × Val × Val × Val × Val) (st' : Mach)
    (h : (do
      let (m, ox, oy, v, g) := q
      let oxi ← asIntV ox
      let oyi ← asIntV oy
      if 0 ≤ oxi ∧ oxi < (hw.2 : Int) ∧ 0 ≤ oyi ∧ oyi < (hw.1 : Int) then
        if g.truthy then do
          let b ← asMem m
          let vv ← asScl v
          let buf ← st2.getBuf b
          let buf' ← pyStore buf (oxi * 4 + oyi * (hw.2 : Int) * 4 + (j : Int)) vv
          pure (st2.setBuf b buf')
        else pure st2
      else Except.error Err.oob : Except Err Mach) = .ok st') : SameCtrl st2 st' := by
  obtain ⟨m, ox, oy, v, g⟩ := q
  simp only at h
  rcases hox : asIntV ox with e | oxi
  · simp only [hox, bind, Except.bind] at h
    exact absurd h (by simp)
  · simp only [hox, bind, Except.bind] at h
    rcases hoy : asIntV oy with e | oyi
    · simp only [hoy] at h
      exact absurd h (by simp)
    · simp only [hoy] at h
      by_cases hbd : 0 ≤ oxi ∧ oxi < (hw.2 : Int) ∧ 0 ≤ oyi ∧ oyi < (hw.1 : Int)
      · rw [if_pos hbd] at h
        by_cases hg : g.truthy
        · rw [if_pos hg] at h
          rcases hm : asMem m with e | b
          · simp only [hm, bind, Except.bind] at h
            exact absurd h (by simp)
          · simp only [hm, bind, Except.bind] at h
            rcases hv : asScl v with e | vv
            · simp only [hv] at h
              exact absurd h (by simp)
            · simp only [hv] at h
              rcases hb : st2.getBuf b with e | buf
              · simp only [hb] at h
                exact absurd h (by simp)
              · simp only [hb] at h
                rcases hs : pyStore buf (oxi * 4 + oyi * (hw.2 : Int) * 4 + (j : Int)) vv
                  with e | buf'
                · simp only [hs] at h
                  exact absurd h (by simp)
                · simp only [hs, pure, Except.pure, Except.ok.injEq] at h
                  rw [← h]
                  exact setBuf_ctrl st2 b buf'
        · rw [if_neg hg] at h
          simp only [pure, Except.pure, Except.ok.injEq] at h
          rw [← h]
          exact SameCtrl_refl st2
      · rw [if_neg hbd] at h
        exact absurd h (by simp)


theorem vecStoreLane_ctrl (j : Nat) (st2 : Mach) (q : Val × Val × Val × Val) (st' : Mach)
    (h : (do
      let (m, o, v, g) := q
      if g.truthy then do
        let b ← asMem m
        let oi ← asIntV o
        let vv ← asScl v
        let buf ← st2.getBuf b
        let buf' ← pyStore buf (oi + (j : Int)) vv
        pure (st2.setBuf b buf')
      else pure st2 : Except Err Mach) = .ok st') : SameCtrl st2 st' := by
  obtain ⟨m, o, v, g⟩ := q
  simp only at h
  by_cases hg : g.truthy
  · rw [if_pos hg] at h
    rcases hm : asMem m with e | b
    · simp only [hm, bind, Except.bind] at h
      exact absurd h (by simp)
    · simp only [hm, bind, Except.bind] at h
      rcases ho : asIntV o with e | oi
      · simp only [ho] at h
        exact absurd h (by simp)
      · simp only [ho] at h
        rcases hv : asScl v with e | vv
        · simp only [hv] at h
          exact absurd h (by simp)
        · simp only [hv] at h
          rcases hb : st2.getBuf b with e | buf
          · simp only [hb] at h
            exact absurd h (by simp)
          · simp only [hb] at h
            rcases hs : pyStore buf (oi + (j : Int)) vv with e | buf'
            · simp only [hs] at h
              exact absurd h (by simp)
            · simp only [hs, pure, Except.pure, Except.ok.injEq] at h
              rw [← h]
              exact setBuf_ctrl st2 b buf'
  · rw [if_neg hg] at h
    simp only [pure, Except.pure, Except.ok.injEq] at h
    rw [← h]
    exact SameCtrl_refl st2


theorem exbind_ok {α β : Type} (a : α) (f : α → Except Err β) :
    (bind (Except.ok a) f : Except Err β) = f a := rfl


theorem exbind_err {α β : Type} (e : Err) (f : α → Except Err β) :
    (bind (Except.error e) f : Except Err β) = Except.error e := rfl


theorem stepStore_ctrl (s : Mach) (inp : List Val) (dtp : List DType) (s2 : Mach)
    (h : stepStore s inp dtp = .ok s2) :
    s2.ul = s.ul ∧ s2.dl = s.dl ∧ s2.loopEnds = s.loopEnds ∧ s2.i = s.i + 1 ∧
      s2.pbufs = s.pbufs ∧ s2.pvals = s.pvals := by
  unfold stepStore at h
  rcases hpre : (if inp.length = 3 then do
      let l0 ← asList (← listGet inp 0)
      pure (inp ++ [Val.lst (List.replicate l0.length (Val.scl (Scalar.b true)))])
    else pure inp : Except Err (List Val)) with e | inp2
  · simp only [hpre, exbind_err] at h
    exact absurd h (by simp)
  · simp only [hpre, exbind_ok] at h
    rcases hd0 : listGet dtp 0 with e | d0
    · simp only [hd0, exbind_err] at h
      exact absurd h (by simp)
    · simp only [hd0, exbind_ok] at h
      rcases hd2 : listGet dtp 2 with e | d2
      · simp only [hd2, exbind_err] at h
        exact absurd h (by simp)
      · simp only [hd2, exbind_ok] at h
        have hout : ∀ s' : Mach, SameCtrl s s' →
            (Except.ok { s' with i := s'.i + 1 } : Except Err Mach) = .ok s2 →
            s2.ul = s.ul ∧ s2.dl = s.dl ∧ s2.loopEnds = s.loopEnds ∧ s2.i = s.i + 1 ∧
              s2.pbufs = s.pbufs ∧ s2.pvals = s.pvals := by
          intro s' hc he
          obtain ⟨c1, c2, c3, c4, c5, c6⟩ := hc
          cases Except.ok.inj he
          exact ⟨c1, c2, c3, by rw [c4], c5, c6⟩
        cases himg : d0.image with
        | some hw =>
          simp only [himg] at h
          by_cases hc4 : d2.count = 4
          · rw [if_pos hc4] at h
            rcases hg0 : listGet inp2 0 with e | x0
            · simp only [hg0, exbind_err] at h
              exact absurd h (by simp)
            · simp only [hg0, exbind_ok] at h
              rcases hm0 : asList x0 with e | ms
              · simp only [hm0, exbind_err] at h
                exact absurd h (by simp)
              · simp only [hm0, exbind_ok] at h
                rcases hg1 : listGet inp2 1 with e | x1
                · simp only [hg1, exbind_err] at h
                  exact absurd h (by simp)
                · simp only [hg1, exbind_ok] at h
                  rcases hm1 : asList x1 with e | idx
                  · simp only [hm1, exbind_err] at h
                    exact absurd h (by simp)
                  · simp only [hm1, exbind_ok] at h
                    rcases hg2 : listGet idx 0 with e | y0
                    · simp only [hg2, exbind_err] at h
                      exact absurd h (by simp)
                    · simp only [hg2, exbind_ok] at h
                      rcases hm2 : asList y0 with e | xs
                      · simp only [hm2, exbind_err] at h
                        exact absurd h (by simp)
                      · simp only [hm2, exbind_ok] at h
                        rcases hg3 : listGet idx 1 with e | y1
                        · simp only [hg3, exbind_err] at h
                          exact absurd h (by simp)
                        · simp only [hg3, exbind_ok] at h
                          rcases hm3 : asList y1 with e | ys
                          · simp only [hm3, exbind_err] at h
                            exact absurd h (by simp)
                          · simp only [hm3, exbind_ok] at h
                            rcases hg4 : listGet inp2 2 with e | y2
                            · simp only [hg4, exbind_err] at h
                              exact absurd h (by simp)
                            · simp only [hg4, exbind_ok] at h
                              rcases hm4 : asList y2 with e | comps
                              · simp only [hm4, exbind_err] at h
                                exact absurd h (by simp)
                              · simp only [hm4, exbind_ok] at h
                                rcases hg5 : listGet inp2 3 with e | y3
                                · simp only [hg5, exbind_err] at h
                                  exact absurd h (by simp)
                                · simp only [hg5, exbind_ok] at h
                                  rcases hm5 : asList y3 with e | gs
                                  · simp only [hm5, exbind_err] at h
                                    exact absurd h (by simp)
                                  · simp only [hm5, exbind_ok] at h
                                    rcases hfold : comps.enum.foldlM (fun (st : Mach) (jval : Nat × Val) => do
                                        let lanes ← asList jval.2
                                        (zip5 ms xs ys lanes gs).foldlM
                                          (fun (st2 : Mach) (q : Val × Val × Val × Val × Val) => do
                                          let (m, ox, oy, v, g) := q
                                          let oxi ← asIntV ox
                                          let oyi ← asIntV oy
                                          if 0 ≤ oxi ∧ oxi < (hw.2 : Int) ∧ 0 ≤ oyi ∧
                                              oyi < (hw.1 : Int) then
                                            if g.truthy then do
                                              let b ← asMem m
                                              let vv ← asScl v
                                              let buf ← st2.getBuf b
                                              let buf' ← pyStore buf (oxi * 4 +
                                                oyi * (hw.2 : Int) * 4 + (jval.1 : Int)) vv
                                              pure (st2.setBuf b buf')
                                            else pure st2
                                          else Except.error Err.oob) st) s with e | s'
                                    · simp only [hfold, exbind_err] at h
                                      exact absurd h (by simp)
                                    · simp only [hfold, exbind_ok] at h
                                      refine hout s' ?_ h
                                      refine foldlM_ctrl _ ?_ _ s s' hfold
                                      intro st jval st' hx
                                      simp only [bind, Except.bind] at hx
                                      rcases hl : asList jval.2 with e | lanes
                                      · simp only [hl] at hx
                                        exact absurd hx (by simp)
                                      · simp only [hl] at hx
                                        refine foldlM_ctrl _ ?_ _ st st' hx
                                        intro st2 q st3 hq
                                        exact imageStoreLane_ctrl hw jval.1 st2 q st3 hq
          · rw [if_neg hc4] at h
            simp only [exbind_err] at h
            exact absurd h (by simp)
        | none =>
          simp only [himg] at h
          by_cases hcv : d2.count > 1
          · rw [if_pos hcv] at h
            rcases hg0 : listGet inp2 0 with e | x0
            · simp only [hg0, exbind_err] at h
              exact absurd h (by simp)
            · simp only [hg0, exbind_ok] at h
              rcases hm0 : asList x0 with e | ms
              · simp only [hm0, exbind_err] at h
                exact absurd h (by simp)
              · simp only [hm0, exbind_ok] at h
                rcases hg1 : listGet inp2 1 with e | x1
                · simp only [hg1, exbind_err] at h
                  exact absurd h (by simp)
                · simp only [hg1, exbind_ok] at h
                  rcases hm1 : asList x1 with e | os
                  · simp only [hm1, exbind_err] at h
                    exact absurd h (by simp)
                  · simp only [hm1, exbind_ok] at h
                    rcases hg2 : listGet inp2 2 with e | x2
                    · simp only [hg2, exbind_err] at h
                      exact absurd h (by simp)
                    · simp only [hg2, exbind_ok] at h
                      rcases hm2 : asList x2 with e | comps
                      · simp only [hm2, exbind_err] at h
                        exact absurd h (by simp)
                      · simp only [hm2, exbind_ok] at h
                        rcases hg3 : listGet inp2 3 with e | x3
                        · simp only [hg3, exbind_err] at h
                          exact absurd h (by simp)
                        · simp only [hg3, exbind_ok] at h
                          rcases hm3 : asList x3 with e | gs
                          · simp only [hm3, exbind_err] at h
                            exact absurd h (by simp)
                          · simp only [hm3, exbind_ok] at h
                            rcases hfold : comps.enum.foldlM (fun (st : Mach) (jval : Nat × Val) => do
                                let lanes ← asList jval.2
                                (zip4 ms os lanes gs).foldlM
                                  (fun (st2 : Mach) (q : Val × Val × Val × Val) => do
                                  let (m, o, v, g) := q
                                  if g.truthy then do
                                    let b ← asMem m
                                    let oi ← asIntV o
                                    let vv ← asScl v
                                    let buf ← st2.getBuf b
                                    let buf' ← pyStore buf (oi + (jval.1 : Int)) vv
                                    pure (st2.setBuf b buf')
                                  else pure st2) st) s with e | s'
                            · simp only [hfold, exbind_err] at h
                              exact absurd h (by simp)
                            · simp only [hfold, exbind_ok] at h
                              refine hout s' ?_ h
                              refine foldlM_ctrl _ ?_ _ s s' hfold
                              intro st jval st' hx
                              simp only [bind, Except.bind] at hx
                              rcases hl : asList jval.2 with e | lanes
                              · simp only [hl] at hx
                                exact absurd hx (by simp)
                              · simp only [hl] at hx
                                refine foldlM_ctrl _ ?_ _ st st' hx
                                intro st2 q st3 hq
                                exact vecStoreLane_ctrl jval.1 st2 q st3 hq
          · rw [if_neg hcv] at h
            rcases hg0 : listGet inp2 0 with e | x0
            · simp only [hg0, exbind_err] at h
              exact absurd h (by simp)
            · simp only [hg0, exbind_ok] at h
              rcases hm0 : asList x0 with e | ms
              · simp only [hm0, exbind_err] at h
                exact absurd h (by simp)
              · simp only [hm0, exbind_ok] at h
                rcases hg1 : listGet inp2 1 with e | x1
                · simp only [hg1, exbind_err] at h
                  exact absurd h (by simp)
                · simp only [hg1, exbind_ok] at h
                  rcases hm1 : asList x1 with e | os
                  · simp only [hm1, exbind_err] at h
                    exact absurd h (by simp)
                  · simp only [hm1, exbind_ok] at h
                    rcases hg2 : listGet inp2 2 with e | x2
                    · simp only [hg2, exbind_err] at h
                      exact absurd h (by simp)
                    · simp only [hg2, exbind_ok] at h
                      rcases hm2 : asList x2 with e | vs
                      · simp only [hm2, exbind_err] at h
                        exact absurd h (by simp)
                      · simp only [hm2, exbind_ok] at h
                        rcases hg3 : listGet inp2 3 with e | x3
                        · simp only [hg3, exbind_err] at h
                          exact absurd h (by simp)
                        · simp only [hg3, exbind_ok] at h
                          rcases hm3 : asList x3 with e | gs
                          · simp only [hm3, exbind_err] at h
                            exact absurd h (by simp)
                          · simp only [hm3, exbind_ok] at h
                            rcases hsl : storeScalarLanes s (zip4 ms os vs gs) with e | s'
                            · simp only [hsl, exbind_err] at h
                              exact absurd h (by simp)
                            · simp only [hsl, exbind_ok] at h
                              refine hout s' ?_ h
                              unfold storeScalarLanes at hsl
                              refine foldlM_ctrl _ ?_ _ s s' hsl
                              intro st p st' hx
                              exact doStoreLane_ctrl st p.1 p.2.1 p.2.2.1 p.2.2.2 st' hx


theorem alook_none_of_not_mem {α : Type} (m : List (Nat × α)) (q : Nat)
    (h : q ∉ m.map Prod.fst) : alook m q = none := by
  induction m with
  | nil => rfl
  | cons p t ih =>
    obtain ⟨k0, v0⟩ := p
    simp only [List.map_cons, List.mem_cons] at h
    push_neg at h
    simp only [alook, if_neg h.1]
    exact ih h.2


theorem adel_sublist {α : Type} (m : List (Nat × α)) (k : Nat) : (adel m k).Sublist m := by
  induction m with
  | nil => exact List.Sublist.refl []
  | cons p t ih =>
    obtain ⟨k0, v0⟩ := p
    by_cases h : k = k0
    · simp only [adel, if_pos h]
      exact List.sublist_cons_self (k0, v0) t
    · simp only [adel, if_neg h]
      exact List.Sublist.cons₂ (k0, v0) ih


theorem mem_ains {α : Type} (m : List (Nat × α)) (k : Nat) (v : α) (p : Nat × α)
    (h : p ∈ ains m k v) : p = (k, v) ∨ p ∈ m := by
  induction m with
  | nil =>
    simp only [ains, List.mem_singleton] at h
    exact Or.inl h
  | cons q t ih =>
    obtain ⟨k0, v0⟩ := q
    by_cases h1 : k < k0
    · simp only [ains, if_pos h1, List.mem_cons] at h
      rcases h with h | h | h
      · exact Or.inl h
      · exact Or.inr (List.mem_cons.mpr (Or.inl h))
      · exact Or.inr (List.mem_cons.mpr (Or.inr h))
    · by_cases h2 : k = k0
      · simp only [ains, if_neg h1, if_pos h2, List.mem_cons] at h
        rcases h with h | h
        · exact Or.inl h
        · exact Or.inr (List.mem_cons.mpr (Or.inr h))
      · simp only [ains, if_neg h1, if_neg h2, List.mem_cons] at h
        rcases h with h | h
        · exact Or.inr (List.mem_cons.mpr (Or.inl h))
        · rcases ih h with h | h
          · exact Or.inl h
          · exact Or.inr (List.mem_cons.mpr (Or.inr h))


theorem sortedA_ains {α : Type} (m : List (Nat × α)) (k : Nat) (v : α)
    (h : SortedA m) : SortedA (ains m k v) := by
  induction m with
  | nil => simp [SortedA, ains]
  | cons q t ih =>
    obtain ⟨k0, v0⟩ := q
    rw [SortedA, List.pairwise_cons] at h
    by_cases h1 : k < k0
    · rw [SortedA]
      simp only [ains, if_pos h1]
      rw [List.pairwise_cons]
      constructor
      · intro p hp
        rcases List.mem_cons.mp hp with hp | hp
        · rw [hp]
          exact h1
        · exact lt_trans h1 (h.1 p hp)
      · rw [List.pairwise_cons]
        exact h
    · by_cases h2 : k = k0
      · rw [SortedA]
        simp only [ains, if_neg h1, if_pos h2]
        rw [List.pairwise_cons]
        subst h2
        exact h
      · rw [SortedA]
        simp only [ains, if_neg h1, if_neg h2]
        rw [List.pairwise_cons]
        constructor
        · intro p hp
          rcases mem_ains t k v p hp with hp | hp
          · rw [hp]
            omega
          · exact h.1 p hp
        · exact ih h.2


theorem sortedA_adel {α : Type} (m : List (Nat × α)) (k : Nat)
    (h : SortedA m) : SortedA (adel m k) :=
  List.Pairwise.sublist (adel_sublist m k) h


theorem alook_adel_self {α : Type} (m : List (Nat × α)) (k : Nat)
    (h : SortedA m) : alook (adel m k) k = none := by
  induction m with
  | nil => rfl
  | cons q t ih =>
    obtain ⟨k0, v0⟩ := q
    rw [SortedA, List.pairwise_cons] at h
    by_cases h1 : k = k0
    · simp only [adel, if_pos h1]
      subst h1
      refine alook_none_of_not_mem t k ?_
      intro hm
      obtain ⟨p, hp, hpk⟩ := List.mem_map.mp hm
      have := h.1 p hp
      omega
    · simp only [adel, if_neg h1, alook, if_neg h1]
      exact ih h.2


theorem alook_adel_other {α : Type} (m : List (Nat × α)) (k q : Nat)
    (hne : q ≠ k) : alook (adel m k) q = alook m q := by
  induction m with
  | nil => rfl
  | cons p t ih =>
    obtain ⟨k0, v0⟩ := p
    by_cases h1 : k = k0
    · simp only [adel, if_pos h1, alook]
      subst h1
      rw [if_neg hne]
    · simp only [adel, if_neg h1, alook]
      by_cases h2 : q = k0
      · rw [if_pos h2, if_pos h2]
      · rw [if_neg h2, if_neg h2]
        exact ih


theorem SafeUl_refl (P : List Instr) (W : Nat) (ul : List (Nat × Val)) :
    SafeUl P W ul ul :=
  ⟨fun _ _ _ _ => Eq.refl _, fun _ _ _ _ _ h => Or.inl h, id⟩


theorem SafeUl_trans {P : List Instr} {W : Nat} {u1 u2 u3 : List (Nat × Val)}
    (h1 : SafeUl P W u1 u2) (h2 : SafeUl P W u2 u3) : SafeUl P W u1 u3 := by
  refine ⟨?_, ?_, fun hs => h2.2.2 (h1.2.2 hs)⟩
  · intro r insr hr hu
    rw [h2.1 r insr hr hu, h1.1 r insr hr hu]
  · intro c insc v hc hu hl
    rcases h2.2.1 c insc v hc hu hl with h | h
    · exact h1.2.1 c insc v hc hu h
    · exact Or.inr h


theorem SafeUl.ains_of (P : List Instr) (W : Nat) (ul : List (Nat × Val))
    (p : Nat) (v : Val) (insp : Instr) (hp : P.get? p = some insp)
    (hR : insp.uop ≠ UOpK.RANGE)
    (hC : insp.uop = UOpK.CONST → ∃ sc, insp.arg = PArg.const sc ∧
      v = Val.lst (List.replicate W (Val.scl sc))) :
    SafeUl P W ul (ains ul p v) := by
  refine ⟨?_, ?_, fun hs => sortedA_ains ul p v hs⟩
  · intro r insr hr hu
    have hne : r ≠ p := by
      intro he
      rw [he, hp] at hr
      cases Option.some.inj hr
      exact hR hu
    rw [alook_ains, if_neg hne]
  · intro c insc w hc hu hl
    by_cases he : c = p
    · rw [he, hp] at hc
      cases Option.some.inj hc
      rw [alook_ains, if_pos he] at hl
      obtain ⟨sc, ha, hv⟩ := hC hu
      exact Or.inr ⟨sc, ha, by rw [← Option.some.inj hl, hv]⟩
    · rw [alook_ains, if_neg he] at hl
      exact Or.inl hl


theorem exbind_pure {α β : Type} (a : α) (f : α → Except Err β) :
    (bind (pure a : Except Err α) f : Except Err β) = f a := rfl


theorem bind_ok_inv {α β : Type} {X : Except Err α} {f : α → Except Err β} {b : β}
    (h : (bind X f : Except Err β) = .ok b) : ∃ a, X = .ok a ∧ f a = .ok b := by
  cases X with
  | error e => exact absurd h (by simp [bind, Except.bind])
  | ok a => exact ⟨a, rfl, by simpa [bind, Except.bind] using h⟩


theorem step_other (ext : ExtOps) (P : List Instr) (warp : List (List Nat))
    (idxs : List Nat) (M : Nat → Nat) (hwf : LoopWF P M) (s s1 : Mach) (ins : Instr)
    (hget : P.get? s.i = some ins)
    (hR : ins.uop ≠ UOpK.RANGE) (hE : ins.uop ≠ UOpK.ENDRANGE)
    (h : step ext P warp idxs s = .ok s1) :
    s1.i = s.i + 1 ∧ s1.loopEnds = s.loopEnds ∧ SafeUl P warp.length s.ul s1.ul := by
  unfold step at h
  simp only [hget] at h
  rcases hres : resolveOps P s ins with e | r
  · rw [hres] at h
    exact absurd h (by simp [Except.bind])
  · rw [hres] at h
    obtain ⟨live, inp, dtp⟩ := r
    simp only [Except.bind] at h
    unfold dispatch at h
    cases huop : ins.uop with
    | RANGE => exact absurd huop hR
    | ENDRANGE => exact absurd huop hE
    | STORE =>
      simp only [huop] at h
      have hc := stepStore_ctrl s inp dtp s1 h
      refine ⟨hc.2.2.2.1, hc.2.2.1, ?_⟩
      rw [hc.1]
      exact SafeUl_refl P warp.length s.ul
    | BARRIER =>
      simp only [huop, pure, Except.pure, Except.ok.injEq] at h
      subst h
      exact ⟨rfl, rfl, SafeUl_refl P warp.length s.ul⟩
    | IF =>
      simp only [huop, pure, Except.pure, Except.ok.injEq] at h
      subst h
      exact ⟨rfl, rfl, SafeUl_refl P warp.length s.ul⟩
    | ENDIF =>
      simp only [huop, pure, Except.pure, Except.ok.injEq] at h
      subst h
      exact ⟨rfl, rfl, SafeUl_refl P warp.length s.ul⟩
    | DEFINE_GLOBAL =>
      simp only [huop] at h
      rcases hdt : ins.dtype with _ | d
      · simp only [hdt, exbind_err] at h
        exact absurd h (by simp)
      · simp only [hdt, exbind_pure, exbind_ok] at h
        by_cases hf : (DType.fmt d).isSome
        · rw [if_pos hf] at h
          rcases hpb : s.pbufs with _ | ⟨k, rest⟩
          · simp only [hpb] at h
            exact absurd h (by simp)
          · simp only [hpb, pure, Except.pure, Except.ok.injEq] at h
            subst h
            refine ⟨rfl, rfl, ?_⟩
            exact SafeUl.ains_of P warp.length s.ul s.i _ ins hget
              (by rw [huop]; decide) (by rw [huop]; intro hc; exact absurd hc (by decide))
        · rw [if_neg hf] at h
          exact absurd h (by simp)
    | DEFINE_LOCAL =>
      simp only [huop] at h
      rcases hdt : ins.dtype with _ | d
      · simp only [hdt, exbind_err] at h
        exact absurd h (by simp)
      · simp only [hdt, exbind_pure, exbind_ok] at h
        by_cases hf : (DType.fmt d).isSome
        · rw [if_pos hf] at h
          rcases harg : ins.arg with _ | sz | ⟨c, ax⟩ | c | gi | op | tg
          all_goals simp only [harg] at h
          all_goals try exact absurd h (by simp)
          simp only [allocLocal, pure, Except.pure, Except.ok.injEq] at h
          subst h
          refine ⟨rfl, rfl, ?_⟩
          exact SafeUl.ains_of P warp.length s.ul s.i _ ins hget
            (by rw [huop]; decide) (by rw [huop]; intro hc; exact absurd hc (by decide))
        · rw [if_neg hf] at h
          exact absurd h (by simp)
    | DEFINE_VAR =>
      simp only [huop] at h
      rcases hdt : ins.dtype with _ | d
      · simp only [hdt, exbind_err] at h
        exact absurd h (by simp)
      · simp only [hdt, exbind_pure, exbind_ok] at h
        rcases hpv : s.pvals with _ | ⟨v, rest⟩
        · simp only [hpv] at h
          exact absurd h (by simp)
        · simp only [hpv, pure, Except.pure, Except.ok.injEq] at h
          subst h
          refine ⟨rfl, rfl, ?_⟩
          exact SafeUl.ains_of P warp.length s.ul s.i _ ins hget
            (by rw [huop]; decide) (by rw [huop]; intro hc; exact absurd hc (by decide))
    | SPECIAL =>
      simp only [huop] at h
      rcases hdt : ins.dtype with _ | d
      · simp only [hdt, exbind_err] at h
        exact absurd h (by simp)
      · simp only [hdt, exbind_pure, exbind_ok] at h
        rcases harg : ins.arg with _ | sz | ⟨c, ax⟩ | c | gi | op | tg
        all_goals simp only [harg] at h
        · exact absurd h (by simp)
        · exact absurd h (by simp)
        · by_cases hg : c = 'g'
          · rw [if_pos hg] at h
            rcases hpi : pyIdx idxs (2 - (ax : Int)) with _ | n
            · simp only [hpi] at h
              exact absurd h (by simp)
            · simp only [hpi, pure, Except.pure, Except.ok.injEq] at h
              subst h
              refine ⟨rfl, rfl, ?_⟩
              exact SafeUl.ains_of P warp.length s.ul s.i _ ins hget
                (by rw [huop]; decide) (by rw [huop]; intro hc; exact absurd hc (by decide))
          · rw [if_neg hg] at h
            by_cases hl : c = 'l'
            · rw [if_pos hl] at h
              rcases hmm : warp.mapM (fun x =>
                  match pyIdx x (2 - (ax : Int)) with
                  | some n => Except.ok (Val.scl (Scalar.i ((n : Nat) : Int)))
                  | none => Except.error Err.typeErr) with e | lanes
              · simp only [hmm, exbind_err] at h
                exact absurd h (by simp)
              · simp only [hmm, exbind_ok, pure, Except.pure, Except.ok.injEq] at h
                subst h
                refine ⟨rfl, rfl, ?_⟩
                exact SafeUl.ains_of P warp.length s.ul s.i _ ins hget
                  (by rw [huop]; decide) (by rw [huop]; intro hc; exact absurd hc (by decide))
            · rw [if_neg hl] at h
              exact absurd h (by simp)
        · exact absurd h (by simp)
        · exact absurd h (by simp)
        · exact absurd h (by simp)
        · exact absurd h (by simp)
    | CONST =>
      simp only [huop] at h
      rcases hdt : ins.dtype with _ | d
      · simp only [hdt, exbind_err] at h
        exact absurd h (by simp)
      · simp only [hdt, exbind_pure, exbind_ok] at h
        rcases harg : ins.arg with _ | sz | ⟨c, ax⟩ | c | gi | op | tg
        all_goals simp only [harg] at h
        all_goals try exact absurd h (by simp)
        simp only [pure, Except.pure, Except.ok.injEq] at h
        subst h
        refine ⟨rfl, rfl, ?_⟩
        exact SafeUl.ains_of P warp.length s.ul s.i _ ins hget
          (by rw [huop]; decide) (fun _ => ⟨c, harg, rfl⟩)
    | DEFINE_ACC =>
      simp only [huop] at h
      rcases hdt : ins.dtype with _ | d
      · simp only [hdt, exbind_err] at h
        exact absurd h (by simp)
      · simp only [hdt, exbind_pure, exbind_ok] at h
        rcases hv0 : listGet inp 0 with e | v0
        · simp only [hv0, exbind_err] at h
          exact absurd h (by simp)
        · simp only [hv0, exbind_ok] at h
          rcases hal : asList v0 with e | l
          · simp only [hal, exbind_err] at h
            exact absurd h (by simp)
          · simp only [hal, exbind_ok] at h
            by_cases hcnt : d.count > 1
            · rw [if_pos hcnt] at h
              rcases hl0 : listGet l 0 with e | c0v
              · simp only [hl0, exbind_err] at h
                exact absurd h (by simp)
              · simp only [hl0, exbind_ok] at h
                rcases hac : asList c0v with e | c0
                · simp only [hac, exbind_err] at h
                  exact absurd h (by simp)
                · simp only [hac, exbind_ok] at h
                  rcases hx : listGet c0 0 with e | x
                  · simp only [hx, exbind_err] at h
                    exact absurd h (by simp)
                  · simp only [hx, exbind_ok, pure, Except.pure, Except.ok.injEq] at h
                    subst h
                    refine ⟨rfl, rfl, ?_⟩
                    exact SafeUl.ains_of P warp.length s.ul s.i _ ins hget
                      (by rw [huop]; decide)
                      (by rw [huop]; intro hc; exact absurd hc (by decide))
            · rw [if_neg hcnt] at h
              rcases hx : listGet l 0 with e | x
              · simp only [hx, exbind_err] at h
                exact absurd h (by simp)
              · simp only [hx, exbind_ok, pure, Except.pure, Except.ok.injEq] at h
                subst h
                refine ⟨rfl, rfl, ?_⟩
                exact SafeUl.ains_of P warp.length s.ul s.i _ ins hget
                  (by rw [huop]; decide)
                  (by rw [huop]; intro hc; exact absurd hc (by decide))
    | VECTORIZE =>
      simp only [huop] at h
      rcases hdt : ins.dtype with _ | d
      · simp only [hdt, exbind_err] at h
        exact absurd h (by simp)
      · simp only [hdt, exbind_pure, exbind_ok, pure, Except.pure, Except.ok.injEq] at h
        subst h
        refine ⟨rfl, rfl, ?_⟩
        exact SafeUl.ains_of P warp.length s.ul s.i _ ins hget
          (by rw [huop]; decide) (by rw [huop]; intro hc; exact absurd hc (by decide))
    | CAST =>
      simp only [huop] at h
      rcases hdt : ins.dtype with _ | d
      · simp only [hdt, exbind_err] at h
        exact absurd h (by simp)
      · simp only [hdt, exbind_pure, exbind_ok] at h
        rcases hd0 : listGet dtp 0 with e | d0
        · simp only [hd0, exbind_err] at h
          exact absurd h (by simp)
        · simp only [hd0, exbind_ok] at h
          by_cases hff : (DType.fmt d0).isSome = true ∧ (DType.fmt d).isSome = true
          · rw [if_pos hff] at h
            rcases hg0 : listGet inp 0 with e | v0
            · simp only [hg0, exbind_err] at h
              exact absurd h (by simp)
            · simp only [hg0, exbind_ok] at h
              rcases hal : asList v0 with e | l
              · simp only [hal, exbind_err] at h
                exact absurd h (by simp)
              · simp only [hal, exbind_ok] at h
                by_cases hlen : l.length = warp.length
                · rw [if_pos hlen] at h
                  rcases hcl : castLanes ext d l with e | l'
                  · simp only [hcl, exbind_err] at h
                    exact absurd h (by simp)
                  · simp only [hcl, exbind_ok, pure, Except.pure, Except.ok.injEq] at h
                    subst h
                    refine ⟨rfl, rfl, ?_⟩
                    exact SafeUl.ains_of P warp.length s.ul s.i _ ins hget
                      (by rw [huop]; decide)
                      (by rw [huop]; intro hc; exact absurd hc (by decide))
                · rw [if_neg hlen] at h
                  exact absurd h (by simp)
          · rw [if_neg hff] at h
            exact absurd h (by simp)
    | BITCAST =>
      simp only [huop] at h
      rcases hdt : ins.dtype with _ | d
      · simp only [hdt, exbind_err] at h
        exact absurd h (by simp)
      · simp only [hdt, exbind_pure, exbind_ok] at h
        rcases hd0 : listGet dtp 0 with e | d0
        · simp only [hd0, exbind_err] at h
          exact absurd h (by simp)
        · simp only [hd0, exbind_ok] at h
          by_cases hff : (DType.fmt d0).isSome = true ∧ (DType.fmt d).isSome = true
          · rw [if_pos hff] at h
            rcases hg0 : listGet inp 0 with e | v0
            · simp only [hg0, exbind_err] at h
              exact absurd h (by simp)
            · simp only [hg0, exbind_ok] at h
              rcases hal : asList v0 with e | l
              · simp only [hal, exbind_err] at h
                exact absurd h (by simp)
              · simp only [hal, exbind_ok] at h
                by_cases hlen : l.length = warp.length
                · rw [if_pos hlen] at h
                  rcases hcl : bitcastLanes d0 d l with e | l'
                  · simp only [hcl, exbind_err] at h
                    exact absurd h (by simp)
                  · simp only [hcl, exbind_ok, pure, Except.pure, Except.ok.injEq] at h
                    subst h
                    refine ⟨rfl, rfl, ?_⟩
                    exact SafeUl.ains_of P warp.length s.ul s.i _ ins hget
                      (by rw [huop]; decide)
                      (by rw [huop]; intro hc; exact absurd hc (by decide))
                · rw [if_neg hlen] at h
                  exact absurd h (by simp)
          · rw [if_neg hff] at h
            exact absurd h (by simp)
    | LOAD =>
      simp only [huop] at h
      rcases hdt : ins.dtype with _ | d
      · simp only [hdt, exbind_err] at h
        exact absurd h (by simp)
      · simp only [hdt, exbind_pure, exbind_ok] at h
        rcases hd0 : listGet dtp 0 with e | d0
        · simp only [hd0, exbind_err] at h
          exact absurd h (by simp)
        · simp only [hd0, exbind_ok] at h
          cases himg : d0.image with
          | some hw =>
            simp only [himg] at h
            by_cases hc4 : d.count = 4
            · rw [if_pos hc4] at h
              rcases hg0 : listGet inp 0 with e | x0
              · simp only [hg0, exbind_err] at h
                exact absurd h (by simp)
              · simp only [hg0, exbind_ok] at h
                rcases hm0 : asList x0 with e | ms
                · simp only [hm0, exbind_err] at h
                  exact absurd h (by simp)
                · simp only [hm0, exbind_ok] at h
                  rcases hg1 : listGet inp 1 with e | x1
                  · simp only [hg1, exbind_err] at h
                    exact absurd h (by simp)
                  · simp only [hg1, exbind_ok] at h
                    rcases hm1 : asList x1 with e | idx
                    · simp only [hm1, exbind_err] at h
                      exact absurd h (by simp)
                    · simp only [hm1, exbind_ok] at h
                      rcases hg2 : listGet idx 0 with e | y0
                      · simp only [hg2, exbind_err] at h
                        exact absurd h (by simp)
                      · simp only [hg2, exbind_ok] at h
                        rcases hm2 : asList y0 with e | xs
                        · simp only [hm2, exbind_err] at h
                          exact absurd h (by simp)
                        · simp only [hm2, exbind_ok] at h
                          rcases hg3 : listGet idx 1 with e | y1
                          · simp only [hg3, exbind_err] at h
                            exact absurd h (by simp)
                          · simp only [hg3, exbind_ok] at h
                            rcases hm3 : asList y1 with e | ys
                            · simp only [hm3, exbind_err] at h
                              exact absurd h (by simp)
                            · simp only [hm3, exbind_ok] at h
                              rcases hil : imageLoad { s with dl := ains s.dl s.i d } hw d.count ms xs ys with e | comps
                              · simp only [hil, exbind_err] at h
                                exact absurd h (by simp)
                              · simp only [hil, exbind_ok, pure, Except.pure,
                                  Except.ok.injEq] at h
                                subst h
                                refine ⟨rfl, rfl, ?_⟩
                                exact SafeUl.ains_of P warp.length s.ul s.i _ ins hget
                                  (by rw [huop]; decide)
                                  (by rw [huop]; intro hc; exact absurd hc (by decide))
            · rw [if_neg hc4] at h
              exact absurd h (by simp)
          | none =>
            simp only [himg] at h
            by_cases hcnt : d.count > 1
            · rw [if_pos hcnt] at h
              obtain ⟨comps, hmm, h2⟩ := bind_ok_inv h
              simp only [pure, Except.pure, Except.ok.injEq] at h2
              subst h2
              refine ⟨rfl, rfl, ?_⟩
              exact SafeUl.ains_of P warp.length s.ul s.i _ ins hget
                (by rw [huop]; decide)
                (by rw [huop]; intro hc; exact absurd hc (by decide))
            · rw [if_neg hcnt] at h
              obtain ⟨lanes, hlf, h2⟩ := bind_ok_inv h
              simp only [pure, Except.pure, Except.ok.injEq] at h2
              subst h2
              refine ⟨rfl, rfl, ?_⟩
              exact SafeUl.ains_of P warp.length s.ul s.i _ ins hget
                (by rw [huop]; decide)
                (by rw [huop]; intro hc; exact absurd hc (by decide))
    | ASSIGN =>
      simp only [huop] at h
      rcases hdt : ins.dtype with _ | d
      · simp only [hdt, exbind_err] at h
        exact absurd h (by simp)
      · simp only [hdt, exbind_pure, exbind_ok] at h
        rcases hlv : live with _ | ⟨p, lrest⟩
        · simp only [hlv, exbind_err] at h
          exact absurd h (by simp)
        · simp only [hlv, exbind_pure, exbind_ok] at h
          have hpl : p ∈ live := by
            rw [hlv]
            exact List.mem_cons_self p lrest
          obtain ⟨hpidp, hpv, insq, hgq, hqq⟩ :=
            resolveOps_live_mem P s ins live inp dtp hres p hpl
          obtain ⟨hqR, hqC⟩ := (hwf.assigns s.i ins hget huop).1 p.1 insq hpidp hgq
          have hsafe1 : SafeUl P warp.length s.ul (ains s.ul p.1 (Val.lst [])) :=
            SafeUl.ains_of P warp.length s.ul p.1 _ insq hgq
              hqR (fun hc => absurd hc hqC)
          rcases hg0 : listGet inp 0 with e | w0
          · simp only [hg0, exbind_err] at h
            exact absurd h (by simp)
          · simp only [hg0, exbind_ok] at h
            rcases hal : asList w0 with e | v0
            · simp only [hal, exbind_err] at h
              exact absurd h (by simp)
            · simp only [hal, exbind_ok] at h
              rcases hg1 : listGet inp 1 with e | v1
              · simp only [hg1, exbind_err] at h
                exact absurd h (by simp)
              · simp only [hg1, exbind_ok] at h
                by_cases hlen : v0.length = 0
                · rw [if_pos hlen] at h
                  simp only [pure, Except.pure, Except.ok.injEq] at h
                  subst h
                  refine ⟨rfl, rfl, ?_⟩
                  refine SafeUl_trans hsafe1 ?_
                  exact SafeUl.ains_of P warp.length _ s.i _ ins hget
                    (by rw [huop]; decide)
                    (by rw [huop]; intro hc; exact absurd hc (by decide))
                · rw [if_neg hlen] at h
                  rcases hv1 : v1 with sc | b | l1
                  · simp only [hv1] at h
                    exact absurd h (by simp)
                  · simp only [hv1] at h
                    exact absurd h (by simp)
                  · simp only [hv1] at h
                    by_cases hle : v0.length ≤ l1.length
                    · rw [if_pos hle] at h
                      simp only [pure, Except.pure, Except.ok.injEq] at h
                      subst h
                      refine ⟨rfl, rfl, ?_⟩
                      have hsafe1' : SafeUl P warp.length s.ul
                          (ains s.ul p.1 (Val.lst (l1.take v0.length))) :=
                        SafeUl.ains_of P warp.length s.ul p.1 _ insq hgq
                          hqR (fun hc => absurd hc hqC)
                      refine SafeUl_trans hsafe1' ?_
                      exact SafeUl.ains_of P warp.length _ s.i _ ins hget
                        (by rw [huop]; decide)
                        (by rw [huop]; intro hc; exact absurd hc (by decide))
                    · rw [if_neg hle] at h
                      exact absurd h (by simp)
    | GEP =>
      simp only [huop] at h
      rcases hdt : ins.dtype with _ | d
      · simp only [hdt, exbind_err] at h
        exact absurd h (by simp)
      · simp only [hdt, exbind_pure, exbind_ok] at h
        rcases harg : ins.arg with _ | sz | ⟨c, ax⟩ | c | gi | op | tg
        all_goals simp only [harg] at h
        · exact absurd h (by simp)
        · exact absurd h (by simp)
        · exact absurd h (by simp)
        · exact absurd h (by simp)
        · rcases hgi : gi with _ | ⟨a, gt⟩
          · simp only [hgi] at h
            exact absurd h (by simp)
          · rcases hgt : gt with _ | ⟨a2, gt2⟩
            · simp only [hgi, hgt] at h
              rcases hg0 : listGet inp 0 with e | w0
              · simp only [hg0, exbind_err] at h
                exact absurd h (by simp)
              · simp only [hg0, exbind_ok] at h
                rcases hal : asList w0 with e | v0
                · simp only [hal, exbind_err] at h
                  exact absurd h (by simp)
                · simp only [hal, exbind_ok] at h
                  rcases hpi : pyIdx v0 (a : Int) with _ | x
                  · simp only [hpi] at h
                    exact absurd h (by simp)
                  · simp only [hpi, pure, Except.pure, Except.ok.injEq] at h
                    subst h
                    refine ⟨rfl, rfl, ?_⟩
                    exact SafeUl.ains_of P warp.length s.ul s.i _ ins hget
                      (by rw [huop]; decide)
                      (by rw [huop]; intro hc; exact absurd hc (by decide))
            · simp only [hgi, hgt] at h
              exact absurd h (by simp)
        · exact absurd h (by simp)
        · exact absurd h (by simp)
    | WMMA =>
      simp only [huop] at h
      rcases hdt : ins.dtype with _ | d
      · simp only [hdt, exbind_err] at h
        exact absurd h (by simp)
      · simp only [hdt, exbind_pure, exbind_ok] at h
        rcases harg : ins.arg with _ | sz | ⟨c, ax⟩ | c | gi | op | tg
        all_goals simp only [harg] at h
        all_goals try exact absurd h (by simp)
        simp only [pure, Except.pure, Except.ok.injEq] at h
        subst h
        refine ⟨rfl, rfl, ?_⟩
        exact SafeUl.ains_of P warp.length s.ul s.i _ ins hget
          (by rw [huop]; decide) (by rw [huop]; intro hc; exact absurd hc (by decide))
    | ALU =>
      simp only [huop] at h
      rcases hdt : ins.dtype with _ | d
      · simp only [hdt, exbind_err] at h
        exact absurd h (by simp)
      · simp only [hdt, exbind_pure, exbind_ok] at h
        rcases harg : ins.arg with _ | sz | ⟨c, ax⟩ | c | gi | op | tg
        all_goals simp only [harg] at h
        · exact absurd h (by simp)
        · exact absurd h (by simp)
        · exact absurd h (by simp)
        · exact absurd h (by simp)
        · exact absurd h (by simp)
        · rcases hap : aluApply ext op d inp dtp with e | res
          · simp only [hap, exbind_err] at h
            exact absurd h (by simp)
          · simp only [hap, exbind_ok, pure, Except.pure, Except.ok.injEq] at h
            subst h
            refine ⟨rfl, rfl, ?_⟩
            exact SafeUl.ains_of P warp.length s.ul s.i _ ins hget
              (by rw [huop]; decide) (by rw [huop]; intro hc; exact absurd hc (by decide))
        · exact absurd h (by simp)


theorem listGet_cons_zero {α : Type} (x : α) (t : List α) :
    listGet (x :: t) 0 = Except.ok x := rfl


theorem step_endrange (ext : ExtOps) (P : List Instr) (warp : List (List Nat))
    (idxs : List Nat) (s s1 : Mach) (ins : Instr) (r : Nat) (rest : List Nat)
    (hget : P.get? s.i = some ins) (huop : ins.uop = UOpK.ENDRANGE)
    (hidp : ins.idp = r :: rest)
    (h : step ext P warp idxs s = .ok s1) :
    s1 = { s with loopEnds := ains s.loopEnds r s.i, i := r } := by
  unfold step at h
  simp only [hget] at h
  rcases hres : resolveOps P s ins with e | rr
  · rw [hres] at h
    exact absurd h (by simp [Except.bind])
  · rw [hres] at h
    obtain ⟨live, inp, dtp⟩ := rr
    simp only [Except.bind] at h
    unfold dispatch at h
    simp only [huop, hidp, pure, Except.pure, Except.ok.injEq] at h
    exact h.symm


theorem mapM_replicate_incr (n : Nat) (v : Int) :
    (List.replicate n (Val.scl (Scalar.i v))).mapM (fun w => do
      let x ← asIntV w
      pure (Val.scl (Scalar.i (x + 1)))) =
      .ok (List.replicate n (Val.scl (Scalar.i (v + 1)))) := by
  induction n with
  | zero => rfl
  | succ m ih =>
    simp only [List.replicate_succ, List.mapM_cons, ih]
    rfl


theorem step_range_first (ext : ExtOps) (P : List Instr) (warp : List (List Nat))
    (idxs : List Nat) (s s1 : Mach) (ins : Instr)
    (c0 c1 : Nat) (i0 i1 : Instr) (k0 : Int)
    (hget : P.get? s.i = some ins) (huop : ins.uop = UOpK.RANGE)
    (hidp : ins.idp = [c0, c1])
    (h0 : P.get? c0 = some i0) (hu0 : i0.uop = UOpK.CONST)
    (ha0 : i0.arg = PArg.const (Scalar.i k0))
    (h1 : P.get? c1 = some i1) (hu1 : i1.uop = UOpK.CONST)
    (hCI : ConstInv P warp s)
    (hnone : alook s.ul s.i = none)
    (h : step ext P warp idxs s = .ok s1) :
    0 < warp.length ∧ s1.i = s.i + 1 ∧ s1.loopEnds = s.loopEnds ∧
      s1.ul = ains s.ul s.i
        (Val.lst (List.replicate warp.length (Val.scl (Scalar.i k0)))) := by
  unfold step at h
  simp only [hget] at h
  rcases hres : resolveOps P s ins with e | rr
  · rw [hres] at h
    exact absurd h (by simp [Except.bind])
  · rw [hres] at h
    obtain ⟨live, inp, dtp⟩ := rr
    simp only [Except.bind] at h
    obtain ⟨v0, v1, d0, d1, hav0, hav1, had0, had1, hlive, hinp, hdtp⟩ :=
      resolveOps_pair_inv P s ins live inp dtp hres (by rw [huop]; decide)
        c0 c1 hidp i0 i1 h0 h1 (by rw [hu0]; rfl) (by rw [hu1]; rfl)
    obtain ⟨sc0, hsc0, hv0⟩ := hCI c0 i0 h0 hu0 v0 hav0
    have hsc0' : sc0 = Scalar.i k0 := PArg.const.inj (hsc0.symm.trans ha0)
    subst hsc0'
    unfold dispatch at h
    simp only [huop] at h
    rcases hdt : ins.dtype with _ | d
    · simp only [hdt, exbind_err] at h
      exact absurd h (by simp)
    · simp only [hdt, exbind_pure, exbind_ok] at h
      simp only [hnone] at h
      have hg0 : listGet inp 0 = Except.ok v0 := by
        rw [hinp]
        rfl
      simp only [hg0, exbind_ok] at h
      rw [hv0] at h
      simp only [asList, exbind_ok] at h
      rcases hwl : warp.length with _ | n
      · simp only [hwl, List.replicate, listGet, List.get?_nil] at h
        exact absurd h (by simp)
      · simp only [hwl, List.replicate_succ, listGet_cons_zero, exbind_ok, pure,
          Except.pure, Except.ok.injEq] at h
        subst h
        refine ⟨by omega, rfl, rfl, ?_⟩
        rw [List.replicate_succ]


theorem step_range_revisit (ext : ExtOps) (P : List Instr) (warp : List (List Nat))
    (idxs : List Nat) (s s1 : Mach) (ins : Instr)
    (c0 c1 : Nat) (i0 i1 : Instr) (k1 v : Int)
    (hget : P.get? s.i = some ins) (huop : ins.uop = UOpK.RANGE)
    (hidp : ins.idp = [c0, c1])
    (h0 : P.get? c0 = some i0) (hu0 : i0.uop = UOpK.CONST)
    (h1 : P.get? c1 = some i1) (hu1 : i1.uop = UOpK.CONST)
    (ha1 : i1.arg = PArg.const (Scalar.i k1))
    (hCI : ConstInv P warp s)
    (hcur : alook s.ul s.i =
      some (Val.lst (List.replicate warp.length (Val.scl (Scalar.i v)))))
    (h : step ext P warp idxs s = .ok s1) :
    (v + 1 = k1 ∧ ∃ e, alook s.loopEnds s.i = some e ∧
      s1.i = e + 1 ∧ s1.loopEnds = s.loopEnds ∧ s1.ul = adel s.ul s.i) ∨
    (v + 1 ≠ k1 ∧ s1.i = s.i + 1 ∧ s1.loopEnds = s.loopEnds ∧
      s1.ul = ains s.ul s.i
        (Val.lst (List.replicate warp.length (Val.scl (Scalar.i (v + 1)))))) := by
  unfold step at h
  simp only [hget] at h
  rcases hres : resolveOps P s ins with e | rr
  · rw [hres] at h
    exact absurd h (by simp [Except.bind])
  · rw [hres] at h
    obtain ⟨live, inp, dtp⟩ := rr
    simp only [Except.bind] at h
    obtain ⟨v0, v1, d0, d1, hav0, hav1, had0, had1, hlive, hinp, hdtp⟩ :=
      resolveOps_pair_inv P s ins live inp dtp hres (by rw [huop]; decide)
        c0 c1 hidp i0 i1 h0 h1 (by rw [hu0]; rfl) (by rw [hu1]; rfl)
    obtain ⟨sc1, hsc1, hv1⟩ := hCI c1 i1 h1 hu1 v1 hav1
    have hsc1' : sc1 = Scalar.i k1 := PArg.const.inj (hsc1.symm.trans ha1)
    subst hsc1'
    unfold dispatch at h
    simp only [huop] at h
    rcases hdt : ins.dtype with _ | d
    · simp only [hdt, exbind_err] at h
      exact absurd h (by simp)
    · simp only [hdt, exbind_pure, exbind_ok] at h
      simp only [hcur] at h
      simp only [asList, exbind_ok] at h
      simp only [mapM_replicate_incr, exbind_ok] at h
      have hg1 : listGet inp 1 = Except.ok v1 := by
        rw [hinp]
        rfl
      simp only [hg1, exbind_ok] at h
      rw [hv1] at h
      simp only [asList, exbind_ok] at h
      rcases hwl : warp.length with _ | n
      · simp only [hwl, List.replicate, listGet, List.get?_nil] at h
        exact absurd h (by simp [bind, Except.bind])
      · simp only [hwl, List.replicate_succ, listGet_cons_zero, exbind_ok] at h
        by_cases hvk : v + 1 = k1
        · rw [if_pos (by rw [hvk] : Val.scl (Scalar.i (v + 1)) = Val.scl (Scalar.i k1))]
            at h
          rcases hle : alook s.loopEnds s.i with _ | e2
          · simp only [hle] at h
            exact absurd h (by simp)
          · simp only [hle, pure, Except.pure, Except.ok.injEq] at h
            subst h
            exact Or.inl ⟨hvk, e2, rfl, rfl, rfl, rfl⟩
        · rw [if_neg (by
            intro he
            exact hvk (Scalar.i.inj (Val.scl.inj he)))] at h
          simp only [pure, Except.pure, Except.ok.injEq] at h
          subst h
          refine Or.inr ⟨hvk, rfl, rfl, ?_⟩
          rw [List.replicate_succ]


theorem alook_ains_self {α : Type} (m : List (Nat × α)) (k : Nat) (v : α) :
    alook (ains m k v) k = some v := by
  rw [alook_ains, if_pos rfl]


theorem alook_ains_other {α : Type} (m : List (Nat × α)) (k q : Nat) (v : α)
    (hne : q ≠ k) : alook (ains m k v) q = alook m q := by
  rw [alook_ains, if_neg hne]


theorem ConstInv.of_safe (P : List Instr) (warp : List (List Nat)) (s s' : Mach)
    (hCI : ConstInv P warp s) (hsafe : SafeUl P warp.length s.ul s'.ul) :
    ConstInv P warp s' := by
  intro c insc hc hu v hl
  rcases hsafe.2.1 c insc v hc hu hl with h | h
  · exact hCI c insc hc hu v h
  · obtain ⟨sc, ha, hv⟩ := h
    exact ⟨sc, ha, hv⟩


theorem segTerm (ext : ExtOps) (P : List Instr) (warp : List (List Nat))
    (idxs : List Nat) (M : Nat → Nat) (hwf : LoopWF P M) :
    ∀ (len a b : Nat) (s : Mach), b - a ≤ len → a ≤ b → b ≤ P.length →
    Closed P M a b → s.i = a →
    ConstInv P warp s → EndsInv P M s → SortedA s.ul →
    (∀ r insr, P.get? r = some insr → insr.uop = UOpK.RANGE → a ≤ r → r < b →
      alook s.ul r = none) →
    Fails ext P warp idxs s ∨
    ∃ s', Steps ext P warp idxs s s' ∧ s'.i = b ∧
      ConstInv P warp s' ∧ EndsInv P M s' ∧ SortedA s'.ul ∧
      (∀ r insr, P.get? r = some insr → insr.uop = UOpK.RANGE →
        alook s'.ul r = alook s.ul r) := by
  intro len
  induction len with
  | zero =>
    intro a b s hlen hab hbP hcl hi hCI hEI hsort hclear
    exact Or.inr ⟨s, Steps_refl _ _ _ _ s, by omega, hCI, hEI, hsort,
      fun r insr _ _ => rfl⟩
  | succ n ih =>
    intro a b s hlen hab hbP hcl hi hCI hEI hsort hclear
    by_cases heq : a = b
    · exact Or.inr ⟨s, Steps_refl _ _ _ _ s, by omega, hCI, hEI, hsort,
        fun r insr _ _ => rfl⟩
    · have hlt : a < b := lt_of_le_of_ne hab heq
      have hiP : s.i < P.length := by omega
      obtain ⟨ins, hget⟩ : ∃ ins, P.get? s.i = some ins := by
        rw [List.get?_eq_get hiP]
        exact ⟨_, rfl⟩
      have hgetA : P.get? a = some ins := hi ▸ hget
      by_cases hRu : ins.uop = UOpK.RANGE
      · -- a RANGE at the segment head: seed, loop, exit, tail
        obtain ⟨c0, c1, k0, k1, hidp, hc0lt, hc1lt, ⟨i0, hg0, hu0, ha0⟩,
          ⟨i1, hg1, hu1, ha1⟩, hk01⟩ := hwf.ranges a ins hgetA hRu
        obtain ⟨haM, hMP, inse, reste, hgE, huE, hidpE⟩ := hwf.matched a ins hgetA hRu
        have hMb : M a < b := hcl.1 a ins (le_refl a) hlt hgetA hRu
        have hclB : Closed P M (a + 1) (M a) := by
          refine ⟨?_, ?_⟩
          · intro r ins2 hr1 hr2 hgr hur
            exact hwf.nest a r ins ins2 hgetA hRu hgr hur (by omega) hr2
          · intro e ins2 r2 rest2 he1 he2 hge hue hidp2
            obtain ⟨⟨insr2, hgr2, hur2⟩, hMr2⟩ := hwf.ends e ins2 r2 rest2 hge hue hidp2
            have hr2a : a ≤ r2 := hcl.2 e ins2 r2 rest2 (by omega) (by omega) hge hue hidp2
            by_contra hcon
            push_neg at hcon
            have hr2e : r2 = a := by omega
            rw [hr2e] at hMr2
            omega
        have hclT : Closed P M (M a + 1) b := by
          refine ⟨?_, ?_⟩
          · intro r ins2 hr1 hr2 hgr hur
            exact hcl.1 r ins2 (by omega) hr2 hgr hur
          · intro e ins2 r2 rest2 he1 he2 hge hue hidp2
            obtain ⟨⟨insr2, hgr2, hur2⟩, hMr2⟩ := hwf.ends e ins2 r2 rest2 hge hue hidp2
            have hr2a : a ≤ r2 := hcl.2 e ins2 r2 rest2 (by omega) he2 hge hue hidp2
            by_contra hcon
            push_neg at hcon
            rcases Nat.lt_or_ge r2 (M a) with hlt2 | hge2
            · rcases Nat.eq_or_lt_of_le hr2a with heq2 | hlt3
              · rw [← heq2] at hMr2
                omega
              · have := hwf.nest a r2 ins insr2 hgetA hRu hgr2 hur2 hlt3 hlt2
                omega
            · have hr2e : r2 = M a := by omega
              rw [hr2e, hgE] at hgr2
              have hie : insr2 = inse := (Option.some.inj hgr2).symm
              rw [hie, huE] at hur2
              exact absurd hur2 (by decide)
        have hnone_a : alook s.ul a = none :=
          hclear a ins hgetA hRu (le_refl a) hlt
        cases hstep : step ext P warp idxs s with
        | error e0 => exact Or.inl (Fails.of_step hiP hstep)
        | ok s1 =>
          obtain ⟨hws, h1i, h1le, h1ul⟩ := step_range_first ext P warp idxs s s1 ins
            c0 c1 i0 i1 k0 hget hRu hidp hg0 hu0 ha0 hg1 hu1 hCI
            (by rw [hi]; exact hnone_a) hstep
          have h1i' : s1.i = a + 1 := by rw [h1i, hi]
          have h1ul' : s1.ul = ains s.ul a
              (Val.lst (List.replicate warp.length (Val.scl (Scalar.i k0)))) := by
            rw [h1ul, hi]
          have hloop : ∀ (fv : Nat) (v : Int) (s2 : Mach), v < k1 →
              (k1 - v).toNat ≤ fv → s2.i = a + 1 →
              alook s2.ul a =
                some (Val.lst (List.replicate warp.length (Val.scl (Scalar.i v)))) →
              ConstInv P warp s2 → EndsInv P M s2 → SortedA s2.ul →
              (∀ r insr, P.get? r = some insr → insr.uop = UOpK.RANGE → a + 1 ≤ r →
                r < M a → alook s2.ul r = none) →
              Fails ext P warp idxs s2 ∨
              ∃ s', Steps ext P warp idxs s2 s' ∧ s'.i = M a + 1 ∧
                ConstInv P warp s' ∧ EndsInv P M s' ∧ SortedA s'.ul ∧
                alook s'.ul a = none ∧
                (∀ r insr, P.get? r = some insr → insr.uop = UOpK.RANGE → r ≠ a →
                  alook s'.ul r = alook s2.ul r) := by
            intro fv
            induction fv with
            | zero =>
              intro v s2 hv hfuel
              exact absurd hfuel (by omega)
            | succ m ihf =>
              intro v s2 hv hfuel h2i h2a h2CI h2EI h2sort h2clear
              rcases ih (a + 1) (M a) s2 (by omega) (by omega) (by omega) hclB h2i
                  h2CI h2EI h2sort h2clear with
                hF | ⟨s3, hst3, h3i, h3CI, h3EI, h3sort, h3fr⟩
              · exact Or.inl hF
              · cases hstep4 : step ext P warp idxs s3 with
                | error e4 =>
                  exact Or.inl (Fails.of_steps hst3
                    (Fails.of_step (by rw [h3i]; exact hMP) hstep4))
                | ok s4 =>
                  have h4 := step_endrange ext P warp idxs s3 s4 inse a reste
                    (by rw [h3i]; exact hgE) huE hidpE hstep4
                  have h4i : s4.i = a := by rw [h4]
                  have h4ul : s4.ul = s3.ul := by rw [h4]
                  have h4le : s4.loopEnds = ains s3.loopEnds a (M a) := by
                    rw [h4]
                    rw [h3i]
                  have hCI4 : ConstInv P warp s4 := by
                    intro c insc hc huc w hw
                    rw [h4ul] at hw
                    exact h3CI c insc hc huc w hw
                  have hEI4 : EndsInv P M s4 := by
                    intro r e he
                    rw [h4le, alook_ains] at he
                    by_cases hra : r = a
                    · rw [if_pos hra] at he
                      rw [hra]
                      exact (Option.some.inj he).symm
                    · rw [if_neg hra] at he
                      exact h3EI r e he
                  have h4sort : SortedA s4.ul := by
                    rw [h4ul]
                    exact h3sort
                  have hget4 : P.get? s4.i = some ins := by
                    rw [h4i]
                    exact hgetA
                  have hcur4 : alook s4.ul s4.i =
                      some (Val.lst (List.replicate warp.length
                        (Val.scl (Scalar.i v)))) := by
                    rw [h4i, h4ul, h3fr a ins hgetA hRu]
                    exact h2a
                  have hst4 : Steps ext P warp idxs s2 s4 :=
                    Steps_trans hst3 (Steps.single (by rw [h3i]; exact hMP) hstep4)
                  cases hstep5 : step ext P warp idxs s4 with
                  | error e5 =>
                    exact Or.inl (Fails.of_steps hst4
                      (Fails.of_step (by rw [h4i]; omega) hstep5))
                  | ok s5 =>
                    have hst5 : Steps ext P warp idxs s2 s5 :=
                      Steps_trans hst4 (Steps.single (by rw [h4i]; omega) hstep5)
                    rcases step_range_revisit ext P warp idxs s4 s5 ins c0 c1 i0 i1
                        k1 v hget4 hRu hidp hg0 hu0 hg1 hu1 ha1 hCI4 hcur4 hstep5 with
                      ⟨hvk, e2, hle2, h5i, h5le, h5ul⟩ | ⟨hvk, h5i, h5le, h5ul⟩
                    · have he2M : e2 = M a := by
                        rw [h4i] at hle2
                        exact hEI4 a e2 hle2
                      refine Or.inr ⟨s5, hst5, by rw [h5i, he2M], ?_, ?_, ?_, ?_, ?_⟩
                      · intro c insc hc huc w hw
                        rw [h5ul, h4i] at hw
                        by_cases hca : c = a
                        · rw [hca, alook_adel_self s4.ul a h4sort] at hw
                          exact absurd hw (by simp)
                        · rw [alook_adel_other s4.ul a c hca] at hw
                          exact hCI4 c insc hc huc w hw
                      · intro r e he
                        rw [h5le] at he
                        exact hEI4 r e he
                      · rw [h5ul]
                        exact sortedA_adel _ _ h4sort
                      · rw [h5ul, h4i]
                        exact alook_adel_self s4.ul a h4sort
                      · intro r insr hgr hur hra
                        rw [h5ul, h4i, alook_adel_other s4.ul a r hra, h4ul,
                          h3fr r insr hgr hur]
                    · have h5i' : s5.i = a + 1 := by rw [h5i, h4i]
                      have h5a : alook s5.ul a = some (Val.lst
                          (List.replicate warp.length
                            (Val.scl (Scalar.i (v + 1))))) := by
                        rw [h5ul, h4i]
                        exact alook_ains_self _ _ _
                      have hCI5 : ConstInv P warp s5 := by
                        intro c insc hc huc w hw
                        rw [h5ul, h4i] at hw
                        by_cases hca : c = a
                        · rw [hca] at hc
                          have hie : insc = ins := (Option.some.inj (hgetA.symm.trans hc)).symm
                          rw [hie, hRu] at huc
                          exact absurd huc (by decide)
                        · rw [alook_ains_other _ _ _ _ hca] at hw
                          exact hCI4 c insc hc huc w hw
                      have hEI5 : EndsInv P M s5 := by
                        intro r e he
                        rw [h5le] at he
                        exact hEI4 r e he
                      have h5sort : SortedA s5.ul := by
                        rw [h5ul]
                        exact sortedA_ains _ _ _ h4sort
                      have h5clear : ∀ r insr, P.get? r = some insr →
                          insr.uop = UOpK.RANGE → a + 1 ≤ r → r < M a →
                          alook s5.ul r = none := by
                        intro r insr hgr hur hr1 hr2
                        rw [h5ul, h4i, alook_ains_other _ _ _ _ (by omega : r ≠ a),
                          h4ul, h3fr r insr hgr hur]
                        exact h2clear r insr hgr hur hr1 hr2
                      rcases ihf (v + 1) s5 (by omega) (by omega) h5i' h5a hCI5 hEI5
                          h5sort h5clear with
                        hF | ⟨s6, hst6, h6i, h6CI, h6EI, h6sort, h6a, h6fr⟩
                      · exact Or.inl (Fails.of_steps hst5 hF)
                      · refine Or.inr ⟨s6, Steps_trans hst5 hst6, h6i, h6CI, h6EI, h6sort,
                          h6a, ?_⟩
                        intro r insr hgr hur hra
                        rw [h6fr r insr hgr hur hra, h5ul, h4i,
                          alook_ains_other _ _ _ _ hra, h4ul, h3fr r insr hgr hur]
          have h1a : alook s1.ul a = some (Val.lst
              (List.replicate warp.length (Val.scl (Scalar.i k0)))) := by
            rw [h1ul']
            exact alook_ains_self _ _ _
          have hCI1 : ConstInv P warp s1 := by
            intro c insc hc huc w hw
            rw [h1ul'] at hw
            by_cases hca : c = a
            · rw [hca] at hc
              have hie : insc = ins := (Option.some.inj (hgetA.symm.trans hc)).symm
              rw [hie, hRu] at huc
              exact absurd huc (by decide)
            · rw [alook_ains_other _ _ _ _ hca] at hw
              exact hCI c insc hc huc w hw
          have hEI1 : EndsInv P M s1 := by
            intro r e he
            rw [h1le] at he
            exact hEI r e he
          have h1sort : SortedA s1.ul := by
            rw [h1ul']
            exact sortedA_ains _ _ _ hsort
          have h1clear : ∀ r insr, P.get? r = some insr → insr.uop = UOpK.RANGE →
              a + 1 ≤ r → r < M a → alook s1.ul r = none := by
            intro r insr hgr hur hr1 hr2
            rw [h1ul', alook_ains_other _ _ _ _ (by omega : r ≠ a)]
            exact hclear r insr hgr hur (by omega) (by omega)
          have hstep1 : Steps ext P warp idxs s s1 := Steps.single hiP hstep
          rcases hloop (k1 - k0).toNat k0 s1 hk01 (le_refl _) h1i' h1a hCI1 hEI1
              h1sort h1clear with hF | ⟨s', hst', h'i, h'CI, h'EI, h'sort, h'a, h'fr⟩
          · exact Or.inl (Fails.of_steps hstep1 hF)
          · have h'clear : ∀ r insr, P.get? r = some insr → insr.uop = UOpK.RANGE →
                M a + 1 ≤ r → r < b → alook s'.ul r = none := by
              intro r insr hgr hur hr1 hr2
              rw [h'fr r insr hgr hur (by omega : r ≠ a), h1ul',
                alook_ains_other _ _ _ _ (by omega : r ≠ a)]
              exact hclear r insr hgr hur (by omega) hr2
            rcases ih (M a + 1) b s' (by omega) (by omega) hbP hclT h'i h'CI h'EI
                h'sort h'clear with hF | ⟨s'', hst'', h''i, h''CI, h''EI, h''sort, h''fr⟩
            · exact Or.inl (Fails.of_steps (Steps_trans hstep1 hst') hF)
            · refine Or.inr ⟨s'', Steps_trans (Steps_trans hstep1 hst') hst'', h''i, h''CI, h''EI,
                h''sort, ?_⟩
              intro r insr hgr hur
              rw [h''fr r insr hgr hur]
              by_cases hra : r = a
              · rw [hra, h'a, hnone_a]
              · rw [h'fr r insr hgr hur hra, h1ul', alook_ains_other _ _ _ _ hra]
      · by_cases hEu : ins.uop = UOpK.ENDRANGE
        · -- an ENDRANGE at the head of a closed segment is impossible (or errs)
          rcases hidp0 : ins.idp with _ | ⟨r, rest⟩
          · cases hstep : step ext P warp idxs s with
            | error e0 => exact Or.inl (Fails.of_step hiP hstep)
            | ok s1 =>
              exfalso
              unfold step at hstep
              simp only [hget] at hstep
              rcases hres : resolveOps P s ins with e | rr
              · rw [hres] at hstep
                exact absurd hstep (by simp [Except.bind])
              · rw [hres] at hstep
                obtain ⟨live, inp, dtp⟩ := rr
                simp only [Except.bind] at hstep
                unfold dispatch at hstep
                simp only [hEu, hidp0] at hstep
                exact absurd hstep (by simp)
          · obtain ⟨⟨insr, hgr, hur⟩, hMr⟩ := hwf.ends a ins r rest hgetA hEu hidp0
            have hra : a ≤ r := hcl.2 a ins r rest (le_refl a) hlt hgetA hEu hidp0
            obtain ⟨hrM, _, _⟩ := hwf.matched r insr hgr hur
            omega
        · -- every other kind advances by one
          cases hstep : step ext P warp idxs s with
          | error e0 => exact Or.inl (Fails.of_step hiP hstep)
          | ok s1 =>
            obtain ⟨h1i, h1le, hsafe⟩ := step_other ext P warp idxs M hwf s s1 ins
              hget hRu hEu hstep
            have hclB2 : Closed P M (a + 1) b := by
              refine ⟨?_, ?_⟩
              · intro r ins2 hr1 hr2 hgr hur
                exact hcl.1 r ins2 (by omega) hr2 hgr hur
              · intro e ins2 r2 rest2 he1 he2 hge hue hidp2
                obtain ⟨⟨insr2, hgr2, hur2⟩, hMr2⟩ :=
                  hwf.ends e ins2 r2 rest2 hge hue hidp2
                have hr2a : a ≤ r2 := hcl.2 e ins2 r2 rest2 (by omega) he2 hge hue hidp2
                by_contra hcon
                push_neg at hcon
                have hr2e : r2 = a := by omega
                rw [hr2e] at hgr2
                have hie : insr2 = ins := (Option.some.inj (hgetA.symm.trans hgr2)).symm
                rw [hie] at hur2
                exact hRu hur2
            have h1i' : s1.i = a + 1 := by rw [h1i, hi]
            have hCI1 : ConstInv P warp s1 := ConstInv.of_safe P warp s s1 hCI hsafe
            have hEI1 : EndsInv P M s1 := by
              intro r e he
              rw [h1le] at he
              exact hEI r e he
            have h1sort : SortedA s1.ul := hsafe.2.2 hsort
            have h1clear : ∀ r insr, P.get? r = some insr → insr.uop = UOpK.RANGE →
                a + 1 ≤ r → r < b → alook s1.ul r = none := by
              intro r insr hgr hur hr1 hr2
              rw [hsafe.1 r insr hgr hur]
              exact hclear r insr hgr hur (by omega) hr2
            have hstep1 : Steps ext P warp idxs s s1 := Steps.single hiP hstep
            rcases ih (a + 1) b s1 (by omega) (by omega) hbP hclB2 h1i' hCI1 hEI1
                h1sort h1clear with hF | ⟨s', hst', h'i, h'CI, h'EI, h'sort, h'fr⟩
            · exact Or.inl (Fails.of_steps hstep1 hF)
            · refine Or.inr ⟨s', Steps_trans hstep1 hst', h'i, h'CI, h'EI, h'sort, ?_⟩
              intro r insr hgr hur
              rw [h'fr r insr hgr hur, hsafe.1 r insr hgr hur]


theorem runL_terminates (ext : ExtOps) (P : List Instr) (M : Nat → Nat)
    (hwf : LoopWF P M) (warp : List (List Nat)) (idxs : List Nat)
    (g : List (List Scalar)) (vals : List Int) :
    ∃ n, (∃ s', runL ext P warp idxs n (initMach g vals) = .done s') ∨
      (∃ e, runL ext P warp idxs n (initMach g vals) = .fail e) := by
  have hcl : Closed P M 0 P.length := by
    refine ⟨?_, ?_⟩
    · intro r ins hr0 hrl hg hu
      exact (hwf.matched r ins hg hu).2.1
    · intro e ins r rest he0 hel hg hu hidp
      exact Nat.zero_le r
  have hseg := segTerm ext P warp idxs M hwf P.length 0 P.length (initMach g vals)
    (by omega) (by omega) (le_refl _) hcl rfl
    (by intro c insc hc hu v hl; exact absurd hl (by simp [initMach, alook]))
    (by intro r e he; exact absurd he (by simp [initMach, alook]))
    (by exact List.Pairwise.nil)
    (by intro r insr hg hu h1 h2; rfl)
  rcases hseg with ⟨n, e, hf⟩ | ⟨s', ⟨n, hn⟩, hi', -, -, -, -⟩
  · exact ⟨n, Or.inr ⟨e, hf⟩⟩
  · refine ⟨n + 1, Or.inl ⟨s', ?_⟩⟩
    rw [runL_add, hn]
    show runL ext P warp idxs 1 s' = RunRes.done s'
    rw [runL, if_neg (by omega)]


theorem runCoords_terminates (ext : ExtOps) (P : List Instr) (M : Nat → Nat)
    (hwf : LoopWF P M) (warp : List (List Nat)) (vals : List Int) :
    ∀ (coords : List (List Nat)) (g : List (List Scalar)),
    ∃ fuel, runCoords ext P warp vals fuel coords g ≠ CallRes.out := by
  intro coords
  induction coords with
  | nil =>
    intro g
    exact ⟨0, by simp [runCoords]⟩
  | cons c rest ih =>
    intro g
    rcases runL_terminates ext P M hwf warp c g vals with ⟨n, hdone | hfail⟩
    · obtain ⟨s', hs'⟩ := hdone
      obtain ⟨n2, hn2⟩ := ih s'.gbufs
      refine ⟨n + n2, ?_⟩
      have hrl : runL ext P warp c (n + n2) (initMach g vals) = .done s' :=
        runL_done_mono ext P warp c n n2 _ s' hs'
      simp only [runCoords, hrl]
      cases hcr : runCoords ext P warp vals n2 rest s'.gbufs with
      | ok bufs =>
        have hmono := runCoords_ok_mono ext P warp vals n2 n rest s'.gbufs bufs hcr
        rw [Nat.add_comm n n2, hmono]
        simp
      | fail e =>
        have hmono := runCoords_fail_mono ext P warp vals n2 n rest s'.gbufs e hcr
        rw [Nat.add_comm n n2, hmono]
        simp
      | out => exact absurd hcr hn2
    · obtain ⟨e, he⟩ := hfail
      refine ⟨n, ?_⟩
      simp only [runCoords, he]
      simp


theorem lp1_get_bound (r : Nat) (ins : Instr) (h : (loopProg 1).get? r = some ins) :
    r < 8 := by
  by_contra hc
  push_neg at hc
  rw [List.get?_eq_none.mpr (by
    show (loopProg 1).length ≤ r
    exact le_trans (by rfl) hc)] at h
  exact absurd h (by simp)


theorem lp1_range_pos (r : Nat) (ins : Instr) (h : (loopProg 1).get? r = some ins)
    (hu : ins.uop = UOpK.RANGE) : r = 3 := by
  have hb := lp1_get_bound r ins h
  interval_cases r
  · cases Option.some.inj h
    exact absurd hu (by decide)
  · cases Option.some.inj h
    exact absurd hu (by decide)
  · cases Option.some.inj h
    exact absurd hu (by decide)
  · rfl
  · cases Option.some.inj h
    exact absurd hu (by decide)
  · cases Option.some.inj h
    exact absurd hu (by decide)
  · cases Option.some.inj h
    exact absurd hu (by decide)
  · cases Option.some.inj h
    exact absurd hu (by decide)


theorem lp1_wf : LoopWF (loopProg 1) (fun r => if r = 3 then 7 else 0) := by
  constructor
  · intro r ins h hu
    have hr3 := lp1_range_pos r ins h hu
    subst hr3
    cases Option.some.inj h
    exact ⟨0, 1, 0, 1, rfl, by omega, by omega,
      ⟨⟨.CONST, some dtInt32, [], .const (.i 0)⟩, rfl, rfl, rfl⟩,
      ⟨⟨.CONST, some dtInt32, [], .const (.i 1)⟩, rfl, rfl, rfl⟩, by omega⟩
  · intro r ins h hu
    have hr3 := lp1_range_pos r ins h hu
    subst hr3
    refine ⟨by norm_num, by decide, ⟨.ENDRANGE, none, [3], .none⟩, [], ?_, rfl, rfl⟩
    rfl
  · intro e ins r rest h hu hidp
    have hb := lp1_get_bound e ins h
    interval_cases e
    · cases Option.some.inj h
      exact absurd hu (by decide)
    · cases Option.some.inj h
      exact absurd hu (by decide)
    · cases Option.some.inj h
      exact absurd hu (by decide)
    · cases Option.some.inj h
      exact absurd hu (by decide)
    · cases Option.some.inj h
      exact absurd hu (by decide)
    · cases Option.some.inj h
      exact absurd hu (by decide)
    · cases Option.some.inj h
      exact absurd hu (by decide)
    · cases Option.some.inj h
      have hidp' : ([3] : List Nat) = r :: rest := hidp
      have hr : r = 3 := by
        have := List.head_eq_of_cons_eq hidp'.symm
        omega
      subst hr
      exact ⟨⟨⟨.RANGE, some dtInt32, [0, 1], .none⟩, rfl, rfl⟩, by norm_num⟩
  · intro r1 r2 ins1 ins2 h1 hu1 h2 hu2 hlt hltM
    have e1 := lp1_range_pos r1 ins1 h1 hu1
    have e2 := lp1_range_pos r2 ins2 h2 hu2
    omega
  · intro a ins h hu
    have hb := lp1_get_bound a ins h
    interval_cases a
    · cases Option.some.inj h
      exact absurd hu (by decide)
    · cases Option.some.inj h
      exact absurd hu (by decide)
    · cases Option.some.inj h
      exact absurd hu (by decide)
    · cases Option.some.inj h
      exact absurd hu (by decide)
    · cases Option.some.inj h
      exact absurd hu (by decide)
    · cases Option.some.inj h
      exact absurd hu (by decide)
    · cases Option.some.inj h
      refine ⟨?_, 2, [5], rfl, ⟨.DEFINE_ACC, some dtInt32, [0], .none⟩, rfl, rfl⟩
      intro v insv hv hgv
      have hv' : v = 2 ∨ v = 5 := by
        have : v ∈ ([2, 5] : List Nat) := hv
        simpa using this
      rcases hv' with hv2 | hv5
      · subst hv2
        cases Option.some.inj hgv
        exact ⟨by decide, by decide⟩
      · subst hv5
        cases Option.some.inj hgv
        exact ⟨by decide, by decide⟩
    · cases Option.some.inj h
      exact absurd hu (by decide)


/-- C1 (amended): for every program whose loop structure is well formed —
every RANGE's two operands are CONST integers with seed strictly below
bound, every RANGE has a matching later ENDRANGE and every ENDRANGE
back-references a RANGE, loops are properly nested, no ASSIGN references
a RANGE or CONST position, and every
ASSIGN's destination (its first operand) is a DEFINE_ACC position, the
spec's "assignment is used exclusively to mutate accumulators" — and for
all buffer contents, sizes and variable values, the interpreter's entry
point needs only finite fuel: the call returns a result or aborts with a
fatal error, and whenever the clock readings are monotone the elapsed
time it returns is non-negative. The destination restriction matters
because the source's ASSIGN writes the destination lane-list in place,
visible through references a VECTORIZE or GEP may hold: an ASSIGN whose
destination aliases a RANGE counter (e.g. through a GEP of a VECTORIZE
of the RANGE) can reset the counter each iteration and loop forever;
with destinations confined to accumulator positions no alias of a
counter or bound is writable, and the loop dynamics are those proved
here. (The original claim, quantified only over in-bounds loads and
stores, is refuted by `c1_call_counterexample`.) -/
theorem c1_wellformed_terminates (ext : ExtOps) (P : List Instr) (M : Nat → Nat)
    (hwf : LoopWF P M) (bufs : List (List Scalar)) (gs ls : Nat × Nat × Nat)
    (vals : List Int) (t0 t1 : ℚ) (ht : t0 ≤ t1) :
    ∃ fuel, (pyCallTimed ext P bufs gs ls vals fuel t0 t1).1 ≠ CallRes.out ∧
      0 ≤ (pyCallTimed ext P bufs gs ls vals fuel t0 t1).2 := by
  obtain ⟨fuel, hf⟩ := runCoords_terminates ext P M hwf (pyProd3 ls.2.2 ls.2.1 ls.1)
    vals (pyProd3 gs.2.2 gs.2.1 gs.1) bufs
  refine ⟨fuel, hf, ?_⟩
  show (0 : ℚ) ≤ t1 - t0
  linarith


/-- Witness for C1: `loopProg 1` carries an actual RANGE/ENDRANGE loop,
its loop structure is well formed, the clock pair (0, 1) is monotone, and
the theorem applies at these inputs. -/
theorem c1_wellformed_terminates_witness :
    LoopWF (loopProg 1) (fun r => if r = 3 then 7 else 0) ∧ ((0 : ℚ) ≤ 1) ∧
    (∃ fuel, (pyCallTimed extM (loopProg 1) [] (1, 1, 1) (1, 1, 1) [] fuel 0 1).1 ≠
        CallRes.out ∧
      0 ≤ (pyCallTimed extM (loopProg 1) [] (1, 1, 1) (1, 1, 1) [] fuel 0 1).2) :=
  ⟨lp1_wf, by norm_num,
    c1_wellformed_terminates extM (loopProg 1) (fun r => if r = 3 then 7 else 0)
      lp1_wf [] (1, 1, 1) (1, 1, 1) [] 0 1 (by norm_num)⟩

